import Mathlib

/-!
MythTV logging: registries, queue and logger thread (libmythbase/logging.cpp)

A shallow embedding of the registry and argument-parsing code, and of the
logging queue with its producers and its consumer thread, of
`mythtv/libs/libmythbase/logging.cpp`, followed by the binary property-list
parser of `mythbinaryplist.cpp` and the handler registry of
`iptvstreamhandler.cpp`.

Modelling conventions
* `QString` is a list of characters.  `QString::toLower` folds the ASCII
  letters, `QChar::isSpace` is the ASCII white space, and the
  regular-expression class `\W` is the complement of `[A-Za-z0-9_]`.
* `uint64_t` values are natural numbers; complement is taken in 64 bits.
  `LogLevel_t` values are integers.
* The process globals touched by `verboseArgParse` are the fields of `Globals`;
  a call takes the globals before it and returns the exit code together with the
  globals after it.  Diagnostics written to `cerr` are not modelled.
* `verbosedefs.h` (the table that `verboseInit` expands into calls of
  `verboseAdd` and `loglevelAdd`) and `exitcodes.h` are not part of the excerpt:
  the table is the parameter `VerboseDefs`.
* `verboseMap` and `loglevelMap` are written by `verboseInit` only, and every
  function that reads them calls `verboseInit` first when `verboseInitialized`
  is not set: a reader sees the maps that `verboseInit` builds from the table
  (`verboseInit defs`, `loglevelInit defs`).
* The globals of the logging queue are the fields of `LogState`.  Every access
  to `logQueue` in the source is made with `logQueueMutex` held, so a run of the
  threads is an interleaving of the pieces of code between two points where
  that lock is free: the events of `Event`, run by `step` and `run`.  The
  waits on `m_waitNotEmpty` and `m_waitEmpty` are points where the lock is
  free; wake-ups are not modelled, and no claim here depends on them.
* `logging.h`, `mythlogging.h` and the C library are not part of the excerpt:
  their constants and functions are the parameter `LogEnv`.  The message sent
  to the log server and the line written to standard output are recorded in
  the logs `sent` and `console` of `LogState`.
* For the order of locking, a call is the list of the lock and unlock
  operations that it makes on the five mutexes of the file, one list for
  every path through the function (`LockOp`, `SafeLocks`).
* `libmythbase/mythbinaryplist.cpp`: the byte array is a list of bytes and a
  pointer into it is an index; a read outside the array ends the run
  (`ParseStop.outOfBounds`).  The depth of the recursion of `ParseBinaryNode`
  is bounded by a fuel argument; a run that needs more ends with
  `ParseStop.outOfFuel`.
* `libmythtv/iptvstreamhandler.cpp`: the static maps of the handler registry
  are the fields of `Registry`; a handler pointer is the pair of the object's
  address and its `_device`, and `new` never gives an address twice.
-/

namespace MythLogging

/-! ## QString -/

/-- A `QString`, as the list of its characters. -/
abbrev QString := List Char

/-- The string literal `s` as a `QString`. -/
def qs (s : String) : QString := s.toList

/-- The character class `\w` of `QRegExp`: letters, digits and the underscore. -/
def isWordChar (c : Char) : Bool := c.isAlphanum || c == '_'

namespace QString

/-- Source `QString::toLower`. -/
def toLower (s : QString) : QString := s.map Char.toLower

/-- Source `QString::startsWith(QChar)`. -/
def startsWith (s : QString) (c : Char) : Bool := s.head? == some c

/-- Source `QString::left(n)`: the `n` leftmost characters. -/
def left (s : QString) (n : Nat) : QString := s.take n

/-- Source `QString::right(n)`: the `n` rightmost characters. -/
def right (s : QString) (n : Nat) : QString := s.drop (s.length - n)

/-- The loop of `QString::remove(const QString &)`: at each position where `pat`
    occurs it is cut out and the search resumes at the same position. -/
def removeAux (pat : QString) : Nat → QString → QString
  | 0, s => s
  | _ + 1, [] => []
  | n + 1, c :: cs =>
    if pat.isPrefixOf (c :: cs) then removeAux pat n ((c :: cs).drop pat.length)
    else c :: removeAux pat n cs

/-- Source `QString::remove(const QString &str)`: removes every occurrence of `str`. -/
def remove (s pat : QString) : QString :=
  if pat.isEmpty then s else removeAux pat s.length s

/-- The scanning loop of `QString::split(QRegExp("\\W+"))` with the default
    `KeepEmptyParts`: `cur` is the part being collected (reversed) and `inSep`
    says that the previous character belonged to a separator match. -/
def splitAux : QString → QString → Bool → List QString
  | [], cur, _ => [cur.reverse]
  | c :: cs, cur, inSep =>
    if isWordChar c then splitAux cs (c :: cur) false
    else if inSep then splitAux cs cur true
    else cur.reverse :: splitAux cs [] true

/-- Source `QString::split(QRegExp("\\W+"))`: the parts between maximal runs of non-word
    characters, empty parts kept. -/
def splitNonWord (s : QString) : List QString := splitAux s [] false

/-- Source `QChar::isSpace`, on ASCII: the space and the control characters
    `\t`, `\n`, `\v`, `\f`, `\r`. -/
def isSpace (c : Char) : Bool := c == ' ' || (9 ≤ c.toNat && c.toNat ≤ 13)

/-- Source `QString::trimmed()`: white space removed from both ends. -/
def trimmed (s : QString) : QString :=
  ((s.dropWhile isSpace).reverse.dropWhile isSpace).reverse

/-- Source `QString::replace(QRegExp(" "), ",")`. -/
def replaceSpaceByComma (s : QString) : QString :=
  s.map (fun c => if c = ' ' then ',' else c)

/-- Source `QString::remove(QRegExp("^,"))`. -/
def removeLeadingComma (s : QString) : QString :=
  match s with
  | ',' :: rest => rest
  | _ => s

end QString

/-! ## QMap -/

/-- A `QMap<K, V*>`: the entries in ascending key order. -/
abbrev QMap (K V : Type) := List (K × V)

namespace QMap

variable {K V : Type}

/-- Source `QMap::value(key)`: the stored pointer, or the null pointer (`none`). -/
def value [DecidableEq K] (m : QMap K V) (k : K) : Option V :=
  match m with
  | [] => none
  | (k', v) :: rest => if k = k' then some v else value rest k

/-- Source `QMap::insert(key, value)`: replaces the value of an existing key. -/
def insert [DecidableEq K] [LT K] [DecidableRel (fun a b : K => a < b)]
    (k : K) (v : V) : QMap K V → QMap K V
  | [] => [(k, v)]
  | (k', v') :: rest =>
    if k = k' then (k, v) :: rest
    else if k < k' then (k, v) :: (k', v') :: rest
    else (k', v') :: insert k v rest

end QMap

/-! ## The registries -/

/-- Entry of the verbosity registry (`VerboseDef`). -/
structure VerboseDef where
  mask : Nat
  name : QString
  additive : Bool
  helpText : QString
deriving DecidableEq, Repr

/-- Entry of the level registry (`LoglevelDef`). -/
structure LoglevelDef where
  value : Int
  name : QString
  shortname : Char
deriving DecidableEq, Repr

abbrev VerboseMap := QMap QString VerboseDef
abbrev LoglevelMap := QMap Int LoglevelDef

/-- Modelled from the spec: the content of `verbosedefs.h`, which is not part of
    the excerpt.  `verboseRows` and `loglevelRows` are the argument lists of the
    `verboseAdd` and `loglevelAdd` calls that the header expands to inside
    `verboseInit`; `VB_GENERAL` and `LOG_UNKNOWN` are the two enumerators of the
    header that the code names. -/
structure VerboseDefs where
  VB_GENERAL : Nat
  LOG_UNKNOWN : Int
  verboseRows : List (Nat × QString × Bool × QString)
  loglevelRows : List (Int × QString × Char)

/-- Source `verboseAdd(mask, name, additive, helptext)`. -/
def verboseAdd (verboseMap : VerboseMap) (mask : Nat) (name : QString)
    (additive : Bool) (helptext : QString) : VerboseMap :=
  -- VB_GENERAL -> general
  let name := QString.toLower (name.drop 3)
  let item : VerboseDef :=
    { mask := mask % 2 ^ 64, name := name, additive := additive, helpText := helptext }
  QMap.insert name item verboseMap

/-- Source `loglevelAdd(value, name, shortname)`. -/
def loglevelAdd (loglevelMap : LoglevelMap) (value : Int) (name : QString)
    (shortname : Char) : LoglevelMap :=
  -- LOG_CRIT -> crit
  let name := QString.toLower (name.drop 4)
  let item : LoglevelDef := { value := value, name := name, shortname := shortname }
  QMap.insert value item loglevelMap

/-- The `verboseMap` that `verboseInit` builds: cleared, then one `verboseAdd`
    per row of the header. -/
def verboseInit (defs : VerboseDefs) : VerboseMap :=
  defs.verboseRows.foldl (fun m r => verboseAdd m r.1 r.2.1 r.2.2.1 r.2.2.2) []

/-- The `loglevelMap` that `verboseInit` builds: cleared, then one `loglevelAdd`
    per row of the header. -/
def loglevelInit (defs : VerboseDefs) : LoglevelMap :=
  defs.loglevelRows.foldl (fun m r => loglevelAdd m r.1 r.2.1 r.2.2) []

/-- The loop of `logLevelGet`: the value of the first entry, in key order, whose
    name is `name`. -/
def logLevelFind (unknown : Int) (name : QString) : LoglevelMap → Int
  | [] => unknown
  | (_, item) :: rest =>
    if item.name = name then item.value else logLevelFind unknown name rest

/-- Source `logLevelGet(level)`. -/
def logLevelGet (defs : VerboseDefs) (level : QString) : Int :=
  logLevelFind defs.LOG_UNKNOWN (QString.toLower level) (loglevelInit defs)

/-- Source `logLevelGetName(level)`. -/
def logLevelGetName (defs : VerboseDefs) (level : Int) : QString :=
  match QMap.value (loglevelInit defs) level with
  | none => qs "unknown"
  | some item => item.name

/-! ## Parsing the verbosity argument -/

/-- Modelled from the spec: the two outcome codes of `exitcodes.h` that
    `verboseArgParse` returns (`Ok`, `InvalidCommandLine`). -/
inductive ExitCode where
  | GENERIC_EXIT_OK
  | GENERIC_EXIT_INVALID_CMDLINE
deriving DecidableEq, Repr

open ExitCode

/-- The globals read and written by `verboseArgParse`. -/
structure Globals where
  verboseMask : Nat
  verboseString : QString
  userDefaultValueInt : Nat
  userDefaultValueStr : QString
  haveUserDefaultValues : Bool
deriving DecidableEq, Repr

/-- Source `verboseDefaultInt`, which is `VB_GENERAL` as a `uint64_t`. -/
def verboseDefaultInt (defs : VerboseDefs) : Nat := defs.VB_GENERAL % 2 ^ 64

/-- Source `verboseDefaultStr`. -/
def verboseDefaultStr : QString := qs " general"

/-- The globals as the static initialisers leave them. -/
def initialGlobals (defs : VerboseDefs) : Globals :=
  { verboseMask := verboseDefaultInt defs
    verboseString := verboseDefaultStr
    userDefaultValueInt := verboseDefaultInt defs
    userDefaultValueStr := verboseDefaultStr
    haveUserDefaultValues := false }

/-- The 64-bit complement `~m`. -/
def not64 (m : Nat) : Nat := 2 ^ 64 - 1 - m % 2 ^ 64

/-- The first statements of the loop body of `verboseArgParse`: the lower-cased
    token, with a leading "no" split off unless the token is "none".  Returns
    `(reverseOption, option)`. -/
def splitReverse (tok : QString) : Bool × QString :=
  let option := QString.toLower tok
  if option ≠ qs "none" ∧ QString.left option 2 = qs "no" then
    (true, QString.right option (option.length - 2))
  else
    (false, option)

/-- One pass through the loop body of `verboseArgParse` for the token `tok`:
    `none` when the body returns `GENERIC_EXIT_INVALID_CMDLINE`, otherwise the
    globals after the pass. -/
def verboseOption (defs : VerboseDefs) (g : Globals) (tok : QString) : Option Globals :=
  let (reverseOption, option) := splitReverse tok
  if option = qs "help" then
    none
  else if option = qs "important" then
    some g
  else if option = qs "extra" then
    some g
  else if option = qs "default" then
    if g.haveUserDefaultValues then
      some { g with verboseMask := g.userDefaultValueInt
                    verboseString := g.userDefaultValueStr }
    else
      some { g with verboseMask := verboseDefaultInt defs
                    verboseString := verboseDefaultStr }
  else
    match QMap.value (verboseInit defs) option with
    | some item =>
      if reverseOption then
        some { g with verboseMask := g.verboseMask &&& not64 item.mask
                      verboseString :=
                        QString.remove g.verboseString (' ' :: item.name)
                          ++ qs " no" ++ item.name }
      else if item.additive then
        if g.verboseMask &&& item.mask = 0 then
          some { g with verboseMask := g.verboseMask ||| item.mask
                        verboseString := g.verboseString ++ ' ' :: item.name }
        else
          some g
      else
        some { g with verboseMask := item.mask
                      verboseString := item.name }
    | none => none

/-- The `for` loop of `verboseArgParse` over the tokens: the globals when the
    loop ends or is left by `return`, and whether it ran to its end. -/
def verboseLoop (defs : VerboseDefs) : List QString → Globals → Bool × Globals
  | [], g => (true, g)
  | tok :: rest, g =>
    match verboseOption defs g tok with
    | none => (false, g)
    | some g' => verboseLoop defs rest g'

/-- The end of `verboseArgParse`: after a `return` from inside the loop the
    globals stay as they are; after the loop the first result is remembered as
    the user default and the call returns `GENERIC_EXIT_OK`. -/
def verboseFinish : Bool × Globals → ExitCode × Globals
  | (false, g) => (GENERIC_EXIT_INVALID_CMDLINE, g)
  | (true, g) =>
    if !g.haveUserDefaultValues then
      (GENERIC_EXIT_OK,
        { g with haveUserDefaultValues := true
                 userDefaultValueInt := g.verboseMask
                 userDefaultValueStr := g.verboseString })
    else
      (GENERIC_EXIT_OK, g)

/-- The first two assignments of `verboseArgParse`. -/
def verboseReset (defs : VerboseDefs) (g : Globals) : Globals :=
  { g with verboseMask := verboseDefaultInt defs
           verboseString := verboseDefaultStr }

/-- Source `verboseArgParse(arg)`: the exit code and the globals after the call. -/
def verboseArgParse (defs : VerboseDefs) (g : Globals) (arg : QString) :
    ExitCode × Globals :=
  let g := verboseReset defs g
  if QString.startsWith arg '-' then
    (GENERIC_EXIT_INVALID_CMDLINE, g)
  else
    verboseFinish (verboseLoop defs (QString.splitNonWord arg) g)

/-- The first three statements of `logPropagateCalc` (the same three open
    `verboseHelp`): the description `verboseString` as a `--verbose` argument. -/
def verboseMaskArg (verboseString : QString) : QString :=
  QString.removeLeadingComma (QString.replaceSpaceByComma (QString.trimmed verboseString))

/-- Modelled from the spec: a sample of `verbosedefs.h` holding the verbosity
    entries and levels that the specification names. -/
def sampleDefs : VerboseDefs :=
  { VB_GENERAL := 0x00000002
    LOG_UNKNOWN := 8
    verboseRows :=
      [ (0xffffffffffffffff, qs "VB_ALL", false, qs "ALL available debug output"),
        (0x00000002, qs "VB_GENERAL", true, qs "General info"),
        (0x00000004, qs "VB_RECORD", true, qs "Recording related messages"),
        (0x00000400, qs "VB_AUDIO", true, qs "Audio related messages"),
        (0x00001000, qs "VB_JOBQUEUE", true, qs "JobQueue related messages"),
        (0x00010000, qs "VB_DATABASE", true, qs "Display all SQL commands executed"),
        (0x00000000, qs "VB_NONE", false, qs "NO debug output") ]
    loglevelRows :=
      [ (-1, qs "LOG_ANY", ' '),
        (0, qs "LOG_EMERG", '!'),
        (1, qs "LOG_ALERT", 'A'),
        (2, qs "LOG_CRIT", 'C'),
        (3, qs "LOG_ERR", 'E'),
        (4, qs "LOG_WARNING", 'W'),
        (5, qs "LOG_NOTICE", 'N'),
        (6, qs "LOG_INFO", 'I'),
        (7, qs "LOG_DEBUG", 'D'),
        (8, qs "LOG_UNKNOWN", '-') ] }

/-! ## Notions used in the statements -/

/-- The entry `X` is the one that the verbosity registry holds under its name. -/
def IsVerboseEntry (defs : VerboseDefs) (X : VerboseDef) : Prop :=
  QMap.value (verboseInit defs) X.name = some X

instance (defs : VerboseDefs) (X : VerboseDef) : Decidable (IsVerboseEntry defs X) := by
  unfold IsVerboseEntry; infer_instance

/-- The words that `verboseArgParse` tests before it looks a token up in the
    registry. -/
def controlWords : List QString :=
  [qs "help", qs "important", qs "extra", qs "default"]

/-- A name that, written as a token, reaches the registry lookup as it is: made
    of word characters, not a control word, and not beginning with "no" unless
    it is "none". -/
def plainName (n : QString) : Bool :=
  n.all isWordChar && (n == qs "none" || QString.left n 2 != qs "no")
    && !controlWords.contains n

/-- A name `n` for which the token "no" ++ `n` reaches the registry lookup as
    the inverted `n`: made of word characters, not a control word, and not "ne"
    (which would spell "none"). -/
def invertibleName (n : QString) : Bool :=
  n.all isWordChar && n != qs "ne" && !controlWords.contains n

/-- The mask `m` is one bit of a 64-bit word. -/
def SingleBit (m : Nat) : Prop := ∃ k, k < 64 ∧ m = 2 ^ k

/-- Whether the scan of `splitAux` is inside a separator after reading `s`,
    having started with the flag `inSep`. -/
def endsInSep : QString → Bool → Bool
  | [], inSep => inSep
  | c :: cs, _ => endsInSep cs (!isWordChar c)

/-- The token as the outcome characterisation describes it: lower-cased, and
    with a leading "no" stripped unless the token is "none". -/
def tokenNormalForm (tok : QString) : QString :=
  let t := QString.toLower tok
  if t = qs "none" then t
  else if (qs "no").isPrefixOf t then t.drop 2
  else t

/-- The tokens that the outcome characterisation accepts: "important", "extra",
    "default" or the name of a registry entry, and not "help". -/
def TokenValid (defs : VerboseDefs) (tok : QString) : Prop :=
  (tokenNormalForm tok = qs "important" ∨ tokenNormalForm tok = qs "extra"
    ∨ tokenNormalForm tok = qs "default"
    ∨ ∃ e ∈ verboseInit defs, e.2.name = tokenNormalForm tok)
  ∧ tokenNormalForm tok ≠ qs "help"

instance (defs : VerboseDefs) (tok : QString) : Decidable (TokenValid defs tok) := by
  unfold TokenValid; infer_instance

/-- A sequence of `verboseArgParse` calls, one per argument: the exit codes in
    call order and the globals after the last call. -/
def runCalls (defs : VerboseDefs) : Globals → List QString → List ExitCode × Globals
  | g, [] => ([], g)
  | g, a :: rest =>
    ((verboseArgParse defs g a).1 :: (runCalls defs (verboseArgParse defs g a).2 rest).1,
      (runCalls defs (verboseArgParse defs g a).2 rest).2)

/-- The globals after the calls `verboseArgParse(a)` for `a` in `calls`, made
    one after the other from the initial globals. -/
def globalsAfter (defs : VerboseDefs) (calls : List QString) : Globals :=
  (runCalls defs (initialGlobals defs) calls).2

/-- The current selection: `verboseMask` and `verboseString`. -/
def selection (g : Globals) : Nat × QString := (g.verboseMask, g.verboseString)

/-- The remembered pair: `userDefaultValueInt` and `userDefaultValueStr`. -/
def remembered (g : Globals) : Nat × QString :=
  (g.userDefaultValueInt, g.userDefaultValueStr)

/-! ## Log records, the queue and the logger thread -/

/-- A `QHash<K, V>`: its entries, one per key. -/
abbrev QHash (K V : Type) := List (K × V)

namespace QHash

variable {K V : Type}

/-- Source `QHash::value(key)`: the stored value, if the key is present. -/
def value [DecidableEq K] (m : QHash K V) (k : K) : Option V :=
  match m with
  | [] => none
  | (k', v) :: rest => if k = k' then some v else value rest k

/-- Source `QHash::remove(key)`. -/
def remove [DecidableEq K] (k : K) (m : QHash K V) : QHash K V :=
  m.filter (fun e => decide (e.1 ≠ k))

/-- Source `QHash::insert(key, value)` and `hash[key] = value`: the value of an
    existing key is replaced. -/
def insert [DecidableEq K] (k : K) (v : V) (m : QHash K V) : QHash K V :=
  (k, v) :: remove k m

end QHash

/-- Modelled from the spec: the constants and library functions that the
    logging code takes from outside the excerpt.  `VB_FLUSH` and `VB_STDIO`
    are mask bits of `verbosedefs.h`; `LOG_ERR`, `LOG_NOTICE` and `LOG_DEBUG` are
    levels of the same header;
    `LOGLINE_MAX` and the default argument of `LoggerThread::flush` are in
    `logging.h`; `vsnprintf size format arguments` is the text that the C
    library stores (at most `size - 1` characters); `strftime epoch` is the
    local time of `epoch` in the format "%Y-%m-%d %H:%M:%S"; `facilitynames`
    is the table of `syslog.h` before its null entry; `logCheck mask level` is
    the test that the `LOG` macro makes before it calls `LogPrintLine`. -/
structure LogEnv where
  VB_FLUSH : Nat
  VB_STDIO : Nat
  LOG_ERR : Int
  LOG_NOTICE : Int
  LOG_DEBUG : Int
  LOGLINE_MAX : Nat
  flushDefaultMS : Int
  vsnprintf : Nat → QString → List QString → QString
  strftime : Int → QString
  facilitynames : List (QString × Int)
  logCheck : Nat → Int → Bool

/-- Modelled from the spec: the `LoggingType` flags of `logging.h`, the record's
    kind as a set of flags (message, thread-registering, thread-deregistering,
    flush-requested, stdio-passthrough). -/
structure LoggingType where
  kMessage : Bool
  kRegistering : Bool
  kDeregistering : Bool
  kFlush : Bool
  kStandardIO : Bool
deriving DecidableEq, Repr

/-- A `LoggingItem`: the members that the code of the excerpt reads or writes. -/
structure LoggingItem where
  m_threadId : Nat
  m_tid : Int
  m_line : Int
  m_type : LoggingType
  m_level : Int
  m_file : QString
  m_function : QString
  m_threadName : Option QString
  m_epoch : Int
  m_usec : Nat
  m_message : QString
  m_pid : Int
  m_appName : QString
  m_table : QString
  m_logFile : QString
  m_facility : Int
  refcount : Int
deriving DecidableEq, Repr

/-- What a call takes from the calling thread and the clock: the identity of the
    thread (`QThread::currentThreadId`), its platform thread id (`gettid`) and
    the time of day (`loggingGetTimeStamp`). -/
structure Caller where
  threadId : Nat
  tid : Int
  epoch : Int
  usec : Nat
deriving DecidableEq, Repr

/-- Where the logger thread is in its life.  `started`: `start()` was called;
    `inLoop`: `run()` is in its `while` loop; `exited`: `run()` has left the loop
    and set `logThreadFinished`, the thread has not ended yet; `notRunning`:
    the thread has not been started or has ended. -/
inductive ThreadPhase where
  | notRunning
  | started
  | inLoop
  | exited
deriving DecidableEq, Repr

/-- The `LoggerThread` object. -/
structure LoggerThread where
  m_aborted : Bool
  m_filename : QString
  m_progress : Bool
  m_quiet : Bool
  m_appname : QString
  m_tablename : QString
  m_facility : Int
  m_pid : Int
  phase : ThreadPhase
deriving DecidableEq, Repr

/-- Source `QThread::isRunning()`. -/
def LoggerThread.isRunning (t : LoggerThread) : Bool := t.phase != ThreadPhase.notRunning

/-- Source `LogPropagateOpts`. -/
structure LogPropagateOpts where
  propagate : Bool
  quiet : Int
  facility : Int
  dblog : Bool
  path : QString
deriving DecidableEq, Repr

/-- The globals of the logging queue, with the records that each thread holds
    between a dequeue and the next time it takes the queue lock (`consumerItem`
    for the logger thread; `inlineItem` for the threads inside the `while` loop
    of `LogPrintLine`, with `none` once the record is handled), and logs of
    what was observed: `enqueued` (records in the order of `logQueue.enqueue`),
    `handleItemCalls` and `logConsoleCalls` (the dequeued records in the order in
    which they were passed to `handleItem` and `logConsole`), `sent` (records
    given to `sendMessage`), `console` (lines written to standard output) and
    `destroyed` (records whose reference count reached zero). -/
structure LogState where
  logQueue : List LoggingItem
  logThread : Option LoggerThread
  logThreadFinished : Bool
  debugRegistration : Bool
  logThreadHash : QHash Nat QString
  logThreadTidHash : QHash Nat Int
  logLevel : Int
  logPropagateOpts : LogPropagateOpts
  logPropagateArgs : QString
  consumerItem : Option LoggingItem
  inlineItem : QHash Nat (Option LoggingItem)
  enqueued : List LoggingItem
  handleItemCalls : List LoggingItem
  logConsoleCalls : List LoggingItem
  sent : List LoggingItem
  console : List QString
  destroyed : List LoggingItem
deriving DecidableEq, Repr

/-! ## Records -/

/-- Source `LoggingItem::setThreadTid`, called by the constructor in the thread
    that logs: the cached platform thread id, or the caller's `gettid`, which is
    then cached. -/
def setThreadTid (s : LogState) (c : Caller) (item : LoggingItem) : LogState × LoggingItem :=
  if (QHash.value s.logThreadTidHash item.m_threadId).getD (-1) = -1 then
    ({ s with logThreadTidHash := QHash.insert item.m_threadId c.tid s.logThreadTidHash },
      { item with m_tid := c.tid })
  else
    (s, { item with m_tid := (QHash.value s.logThreadTidHash item.m_threadId).getD (-1) })

/-- Source `LoggingItem::create(file, function, line, level, type)` with the
    constructor: the new record has an empty message, no thread name and the
    reference count 1. -/
def LoggingItem.create (s : LogState) (c : Caller) (file function : QString) (line : Int)
    (level : Int) (type : LoggingType) : LogState × LoggingItem :=
  setThreadTid s c
    { m_threadId := c.threadId, m_tid := 0, m_line := line, m_type := type,
      m_level := level, m_file := file, m_function := function, m_threadName := none,
      m_epoch := c.epoch, m_usec := c.usec, m_message := [], m_pid := 0,
      m_appName := [], m_table := [], m_logFile := [], m_facility := 0,
      refcount := 1 }

/-- Source `LoggingItem::getThreadName`: the name that the record carries, else
    the registered name of its thread, else "thread_unknown". -/
def getThreadName (s : LogState) (item : LoggingItem) : QString :=
  match item.m_threadName with
  | some name => name
  | none => (QHash.value s.logThreadHash item.m_threadId).getD (qs "thread_unknown")

/-- Source `LoggingItem::getThreadTid`. -/
def getThreadTid (s : LogState) (item : LoggingItem) : Int :=
  (QHash.value s.logThreadTidHash item.m_threadId).getD 0

/-- Source `LoggingItem::deleteItem`: the count drops by one and the record is
    destroyed when it reaches zero. -/
def deleteItem (s : LogState) (item : LoggingItem) : LogState × LoggingItem :=
  if item.refcount - 1 = 0 then
    ({ s with destroyed := s.destroyed ++ [{ item with refcount := item.refcount - 1 }] },
      { item with refcount := item.refcount - 1 })
  else
    (s, { item with refcount := item.refcount - 1 })

/-- Source `LoggerThread::fillItem`; the setters of `logging.h` store a copy of
    their argument. -/
def fillItem (t : LoggerThread) (s : LogState) (item : LoggingItem) : LoggingItem :=
  { item with m_pid := t.m_pid
              m_threadName := some (getThreadName s item)
              m_appName := t.m_appname
              m_table := t.m_tablename
              m_logFile := t.m_filename
              m_facility := t.m_facility }

/-- The conversion "%llX" of `snprintf`. -/
def hexUpper (n : Nat) : QString := (Nat.toDigits 16 n).map Char.toUpper

/-- The conversion "%lld" of `snprintf`. -/
def decimal (i : Int) : QString :=
  if i < 0 then '-' :: Nat.toDigits 10 i.natAbs else Nat.toDigits 10 i.natAbs

/-- The message that `handleItem` writes with `snprintf(item->m_message,
    LOGLINE_MAX, "Thread 0x%llX (%lld) <verb> as '%s'", ...)`. -/
def registrationMessage (env : LogEnv) (threadId : Nat) (tid : Int) (verb name : QString) :
    QString :=
  (qs "Thread 0x" ++ hexUpper threadId ++ qs " (" ++ decimal tid ++ qs ") " ++ verb
    ++ qs " as '" ++ name ++ qs "'").take (env.LOGLINE_MAX - 1)

/-- The branch of `LoggerThread::handleItem` for a registering record: the
    thread's name is stored, and a message is written when registrations are
    debugged.  A registering record carries its name (`loggingRegisterThread`
    sets it). -/
def handleRegistering (env : LogEnv) (s : LogState) (item : LoggingItem) :
    LogState × LoggingItem :=
  let tid := getThreadTid s item
  let name := item.m_threadName.getD []
  let s := { s with logThreadHash := QHash.insert item.m_threadId name s.logThreadHash }
  if s.debugRegistration then
    (s, { item with
            m_tid := tid
            m_message := registrationMessage env item.m_threadId tid (qs "registered") name })
  else
    (s, { item with m_tid := tid })

/-- The branch of `LoggerThread::handleItem` for a deregistering record: both
    entries of the thread are removed; when the thread had a name, the record
    takes it, and a message is written when registrations are debugged. -/
def handleDeregistering (env : LogEnv) (s : LogState) (item : LoggingItem) :
    LogState × LoggingItem :=
  let tid := (QHash.value s.logThreadTidHash item.m_threadId).getD 0
  let s := { s with logThreadTidHash := QHash.remove item.m_threadId s.logThreadTidHash }
  match QHash.value s.logThreadHash item.m_threadId with
  | some name =>
    ({ s with logThreadHash := QHash.remove item.m_threadId s.logThreadHash },
      { item with
          m_threadName := some name
          m_message :=
            if s.debugRegistration then
              registrationMessage env item.m_threadId tid (qs "deregistered") name
            else item.m_message })
  | none => (s, item)

/-- The last statement of `LoggerThread::handleItem`: a record with a message
    is sent to the log server unless the logger has finished. -/
def sendItem (s : LogState) (item : LoggingItem) : LogState :=
  if item.m_message ≠ [] then
    if !s.logThreadFinished then { s with sent := s.sent ++ [item] } else s
  else s

/-- Source `LoggerThread::handleItem`: the globals and the record after the
    call. -/
def handleItem (env : LogEnv) (s : LogState) (item : LoggingItem) : LogState × LoggingItem :=
  let r : LogState × LoggingItem :=
    if item.m_type.kRegistering then handleRegistering env s item
    else if item.m_type.kDeregistering then handleDeregistering env s item
    else (s, item)
  (sendItem r.1 r.2, r.2)

/-- The cast `(int)` of an unsigned value. -/
def toInt32 (n : Nat) : Int :=
  if n % 2 ^ 32 < 2 ^ 31 then (n % 2 ^ 32 : Nat) else (n % 2 ^ 32 : Nat) - 2 ^ 32

/-- The conversion "%06d" of `snprintf`. -/
def printf06d (v : Int) : QString :=
  let digits := Nat.toDigits 10 v.natAbs
  if v < 0 then '-' :: (List.replicate (5 - digits.length) '0' ++ digits)
  else List.replicate (6 - digits.length) '0' ++ digits

/-- The text that `snprintf(usPart, 9, ".%06d", (int)(item->m_usec))` stores. -/
def usPart (usec : Nat) : QString :=
  ('.' :: printf06d (toInt32 usec)).take 8

/-- Source `LoggerThread::logConsole`: the globals with the line written, the
    record, and the result of the call. -/
def logConsole (env : LogEnv) (defs : VerboseDefs) (t : LoggerThread) (s : LogState)
    (item : LoggingItem) : LogState × LoggingItem × Bool :=
  if t.m_quiet || (t.m_progress && decide (item.m_level > env.LOG_ERR)) then
    (s, item, false)
  else if !item.m_type.kMessage then
    (s, item, false)
  else
    let item := { item with refcount := item.refcount + 1 }
    let line : QString :=
      if item.m_type.kStandardIO then
        item.m_message.take (env.LOGLINE_MAX + 120 - 1)
      else
        let timestamp := env.strftime item.m_epoch ++ usPart item.m_usec
        let shortname :=
          match QMap.value (loglevelInit defs) item.m_level with
          | none => '-'
          | some lev => lev.shortname
        (timestamp ++ qs " " ++ [shortname] ++ qs "  " ++ item.m_message ++ qs "\n").take
          (env.LOGLINE_MAX + 120 - 1)
    let s := { s with console := s.console ++ [line] }
    let r := deleteItem s item
    (r.1, r.2, true)

/-! ## Producers -/

/-- Source `QString::replace(logRegExp, "%%")` with `logRegExp` = "[%]{1,2}":
    from left to right, each match (two percent signs where there are two, else
    one) is replaced by two percent signs. -/
def escapePercent : QString → QString
  | [] => []
  | [c] => if c = '%' then ['%', '%'] else [c]
  | c :: d :: rest =>
    if c = '%' then
      if d = '%' then '%' :: '%' :: escapePercent rest
      else '%' :: '%' :: escapePercent (d :: rest)
    else c :: escapePercent (d :: rest)

/-- The test of `LogPrintLine` for the inline processing of the queue:
    `logThread && logThreadFinished && !logThread->isRunning()`. -/
def inlineCondition (s : LogState) : Bool :=
  match s.logThread with
  | some t => s.logThreadFinished && !t.isRunning
  | none => false

/-- Source `LogPrintLine` from the lock to the first `qLock.unlock()` or the
    return: the record is created, formatted and enqueued; when the inline
    condition holds the calling thread enters the `while` loop and dequeues the
    oldest record.  In the other branch `logThread->flush()` finds the queue
    not empty (the record was just enqueued, and the lock is held), so its loop
    is not entered (`LoggerThread.flush`) and no global changes. -/
def logPrintLineEnter (env : LogEnv) (s : LogState) (c : Caller) (mask : Nat) (level : Int)
    (file : QString) (line : Int) (function : QString) (fromQString : Bool)
    (format : QString) (arguments : List QString) : LogState :=
  let type : LoggingType :=
    { kMessage := true, kRegistering := false, kDeregistering := false
      kFlush := mask &&& env.VB_FLUSH != 0
      kStandardIO := mask &&& env.VB_STDIO != 0 }
  let r := LoggingItem.create s c file function line level type
  let format :=
    if fromQString && format.contains '%' then escapePercent format else format
  let item := { r.2 with m_message := env.vsnprintf env.LOGLINE_MAX format arguments }
  let s := { r.1 with logQueue := r.1.logQueue ++ [item]
                      enqueued := r.1.enqueued ++ [item] }
  if inlineCondition s then
    match s.logQueue with
    | [] => s
    | first :: rest =>
      { s with logQueue := rest
               inlineItem := QHash.insert c.threadId (some first) s.inlineItem }
  else
    s

/-- The unlocked part of the `while` loop of `LogPrintLine`, run by the thread
    `threadId`: `handleItem`, `logConsole` and `deleteItem` on the record that
    the thread holds. -/
def inlineHandle (env : LogEnv) (defs : VerboseDefs) (s : LogState) (threadId : Nat) :
    LogState :=
  match QHash.value s.inlineItem threadId, s.logThread with
  | some (some item), some t =>
    let s := { s with handleItemCalls := s.handleItemCalls ++ [item] }
    let h := handleItem env s item
    let s := { h.1 with logConsoleCalls := h.1.logConsoleCalls ++ [item] }
    let c := logConsole env defs t s h.2
    let d := deleteItem c.1 c.2.1
    { d.1 with inlineItem := QHash.insert threadId none d.1.inlineItem }
  | _, _ => s

/-- The `qLock.relock()` of the `while` loop of `LogPrintLine` and the next test
    of the loop, run by the thread `threadId`: the oldest record is dequeued, or
    the call returns when the queue is empty. -/
def inlineRelock (s : LogState) (threadId : Nat) : LogState :=
  match QHash.value s.inlineItem threadId with
  | some none =>
    match s.logQueue with
    | [] => { s with inlineItem := QHash.remove threadId s.inlineItem }
    | first :: rest =>
      { s with logQueue := rest
               inlineItem := QHash.insert threadId (some first) s.inlineItem }
  | _ => s

/-- The `while` loop of `LogPrintLine` run by one thread with no other thread
    in between, for at most `fuel` records. -/
def inlineLoop (env : LogEnv) (defs : VerboseDefs) (threadId : Nat) :
    Nat → LogState → LogState
  | 0, s => s
  | fuel + 1, s =>
    match QHash.value s.inlineItem threadId with
    | some _ =>
      inlineLoop env defs threadId fuel
        (inlineRelock (inlineHandle env defs s threadId) threadId)
    | none => s

/-- Source `LogPrintLine`, run from the call to the return with no other thread
    in between. -/
def LogPrintLine (env : LogEnv) (defs : VerboseDefs) (s : LogState) (c : Caller)
    (mask : Nat) (level : Int) (file : QString) (line : Int) (function : QString)
    (fromQString : Bool) (format : QString) (arguments : List QString) : LogState :=
  inlineLoop env defs c.threadId (s.logQueue.length + 1)
    (logPrintLineEnter env s c mask level file line function fromQString format arguments)

/-- Source `loggingRegisterThread(name)`. -/
def loggingRegisterThread (env : LogEnv) (s : LogState) (c : Caller) (name : QString) :
    LogState :=
  if s.logThreadFinished then s
  else
    let r := LoggingItem.create s c (qs "logging.cpp") (qs "loggingRegisterThread") 786
      env.LOG_DEBUG
      { kMessage := false, kRegistering := true, kDeregistering := false,
        kFlush := false, kStandardIO := false }
    let item := { r.2 with m_threadName := some name }
    { r.1 with logQueue := r.1.logQueue ++ [item]
               enqueued := r.1.enqueued ++ [item] }

/-- Source `loggingDeregisterThread()`. -/
def loggingDeregisterThread (env : LogEnv) (s : LogState) (c : Caller) : LogState :=
  if s.logThreadFinished then s
  else
    let r := LoggingItem.create s c (qs "logging.cpp") (qs "loggingDeregisterThread") 804
      env.LOG_DEBUG
      { kMessage := false, kRegistering := false, kDeregistering := true,
        kFlush := false, kStandardIO := false }
    { r.1 with logQueue := r.1.logQueue ++ [r.2]
               enqueued := r.1.enqueued ++ [r.2] }

/-! ## The logger thread -/

/-- What `LoggerThread::run` does to one dequeued record outside the lock:
    `fillItem`, `handleItem`, `logConsole`, `deleteItem`. -/
def consumerProcess (env : LogEnv) (defs : VerboseDefs) (t : LoggerThread) (s : LogState)
    (item : LoggingItem) : LogState × LoggingItem :=
  let s := { s with handleItemCalls := s.handleItemCalls ++ [item] }
  let h := handleItem env s (fillItem t s item)
  let s := { h.1 with logConsoleCalls := h.1.logConsoleCalls ++ [item] }
  let c := logConsole env defs t s h.2
  deleteItem c.1 c.2.1

/-- One evaluation of the `while` condition of `LoggerThread::run` with the
    queue lock held, and what follows up to the next `qLock.unlock()`: with an
    empty queue the thread waits (up to 100 ms) and tests again; otherwise it
    dequeues the oldest record; when the condition is false it leaves the loop
    and sets `logThreadFinished`. -/
def consumerLock (s : LogState) : LogState :=
  match s.logThread, s.consumerItem with
  | some t, none =>
    if t.phase = ThreadPhase.inLoop then
      if !t.m_aborted || !s.logQueue.isEmpty then
        match s.logQueue with
        | [] => s
        | first :: rest => { s with logQueue := rest, consumerItem := some first }
      else
        { s with logThreadFinished := true
                 logThread := some { t with phase := ThreadPhase.exited } }
    else s
  | _, _ => s

/-- The unlocked part of the loop of `LoggerThread::run`. -/
def consumerHandle (env : LogEnv) (defs : VerboseDefs) (s : LogState) : LogState :=
  match s.logThread, s.consumerItem with
  | some t, some item =>
    { (consumerProcess env defs t s item).1 with consumerItem := none }
  | _, _ => s

/-- The end of the logger thread after `run` has returned. -/
def threadExit (s : LogState) : LogState :=
  match s.logThread with
  | some t =>
    if t.phase = ThreadPhase.exited then
      { s with logThread := some { t with phase := ThreadPhase.notRunning } }
    else s
  | none => s

/-- Source `LoggerThread::stop` after its `flush(1000)` has returned: the abort
    flag is set. -/
def stop (s : LogState) : LogState :=
  match s.logThread with
  | some t => { s with logThread := some { t with m_aborted := true } }
  | none => s

/-! ## Flushing -/

/-- What `LoggerThread::flush` reads in one round of its loop: the abort flag and
    the queue at the test of the `while` condition, and the two readings of
    `t.elapsed()`, in the condition and in the body. -/
structure FlushRound where
  m_aborted : Bool
  queueEmpty : Bool
  elapsedCond : Int
  elapsedBody : Int
deriving DecidableEq, Repr

/-- What `LoggerThread::flush` does in its loop. -/
inductive FlushAction where
  | wakeNotEmpty
  | waitEmpty (ms : Int)
deriving DecidableEq, Repr

/-- Source `LoggerThread::flush(timeoutMS)`: the actions of the loop, one round
    per test of the condition, and the value returned (`none` when the rounds
    given do not reach the end of the loop). -/
def LoggerThread.flush (timeoutMS : Int) : List FlushRound → List FlushAction × Option Bool
  | [] => ([], none)
  | r :: rest =>
    if !r.m_aborted && r.queueEmpty && decide (r.elapsedCond < timeoutMS) then
      let left := timeoutMS - r.elapsedBody
      let body :=
        if left > 0 then [FlushAction.wakeNotEmpty, FlushAction.waitEmpty left]
        else [FlushAction.wakeNotEmpty]
      (body ++ (LoggerThread.flush timeoutMS rest).1, (LoggerThread.flush timeoutMS rest).2)
    else
      ([], some r.queueEmpty)

/-! ## Propagation and start -/

/-- The loop of `logPropagateCalc` over `facilitynames`: the name of the first
    entry with the value `facility`, or the null name of the last entry. -/
def facilityName : List (QString × Int) → Int → QString
  | [], _ => []
  | (name, val) :: rest, facility =>
    if val = facility then name else facilityName rest facility

/-- The loop `for (int i = 0; i < quiet; i++) logPropagateArgs += " --quiet"`,
    with `n` passes left. -/
def quietLoop : Nat → QString → QString
  | 0, args => args
  | n + 1, args => quietLoop n (args ++ qs " --quiet")

/-- Source `logPropagateCalc` (not on Windows): the new `logPropagateArgs`. -/
def logPropagateCalc (env : LogEnv) (defs : VerboseDefs) (verboseString : QString)
    (logLevel : Int) (opts : LogPropagateOpts) : QString :=
  let args := qs " --verbose " ++ verboseMaskArg verboseString
  let args := if opts.propagate then args ++ qs " --logpath " ++ opts.path else args
  let args := args ++ qs " --loglevel " ++ logLevelGetName defs logLevel
  let args := quietLoop opts.quiet.toNat args
  let args := if !opts.dblog then args ++ qs " --nodblog" else args
  if opts.facility ≥ 0 then
    args ++ qs " --syslog " ++ facilityName env.facilitynames opts.facility
  else args

/-- The propagated argument string as its description spells it out. -/
def propagatedArgsSpec (env : LogEnv) (defs : VerboseDefs) (verboseString : QString)
    (logLevel : Int) (opts : LogPropagateOpts) : QString :=
  qs " --verbose " ++ verboseMaskArg verboseString
    ++ (if opts.propagate then qs " --logpath " ++ opts.path else [])
    ++ qs " --loglevel " ++ logLevelGetName defs logLevel
    ++ (List.replicate (max opts.quiet 0).toNat (qs " --quiet")).flatten
    ++ (if opts.dblog then [] else qs " --nodblog")
    ++ (if opts.facility ≥ 0 then
          qs " --syslog " ++ facilityName env.facilitynames opts.facility
        else [])

/-- Source `QString::toUpper`. -/
def QString.toUpper (s : QString) : QString := s.map Char.toUpper

/-- Source `QFileInfo::path()`: the path without the file name. -/
def fileInfoPath (file : QString) : QString :=
  match (file.reverse.dropWhile (fun c => c != '/')) with
  | [] => qs "."
  | [_] => qs "/"
  | _ :: dir => dir.reverse

/-- The `LOG(mask, level, text)` macro: `LogPrintLine` with `fromQString` set
    and no arguments when the macro's test passes. -/
def logMacro (env : LogEnv) (defs : VerboseDefs) (s : LogState) (c : Caller) (mask : Nat)
    (level : Int) (file : QString) (line : Int) (function : QString) (text : QString) :
    LogState :=
  if env.logCheck mask level then
    LogPrintLine env defs s c mask level file line function true text []
  else s

/-- Source `logStart`, run with no other thread in between.  `verboseString` is
    the global read by `logPropagateCalc`; `appName`, `pid` and `verboseThreads`
    are `QCoreApplication::applicationName()`, `getpid()` and whether
    `VERBOSE_THREADS` is set, read by the `LoggerThread` constructor.  The
    constructor runs with the queue lock held, so its `LOG` does not return
    when the macro's test passes (`none`). -/
def logStart (env : LogEnv) (defs : VerboseDefs) (verboseString : QString)
    (appName : QString) (pid : Int) (verboseThreads : Bool) (s : LogState) (c : Caller)
    (logfile : QString) (progress quiet facility : Int) (level : Int)
    (dblog propagate : Bool) : Option LogState :=
  if (match s.logThread with
      | some t => t.isRunning
      | none => false) then some s
  else
    let s := { s with logLevel := level }
    let s := logMacro env defs s c defs.VB_GENERAL env.LOG_NOTICE (qs "logging.cpp") 738
      (qs "logStart")
      (qs "Setting Log Level to LOG_" ++ QString.toUpper (logLevelGetName defs s.logLevel))
    let opts : LogPropagateOpts :=
      { propagate := propagate, quiet := quiet, facility := facility, dblog := dblog
        path := if propagate then fileInfoPath logfile else s.logPropagateOpts.path }
    let s := { s with logPropagateOpts := opts
                      logPropagateArgs :=
                        logPropagateCalc env defs verboseString s.logLevel opts }
    match s.logThread with
    | some t =>
      -- logThread->start()
      some { s with logThread := some { t with phase := ThreadPhase.started } }
    | none =>
      -- new LoggerThread(logfile, progress, quiet, table, facility), then start()
      if verboseThreads && env.logCheck defs.VB_GENERAL env.LOG_NOTICE then none
      else
        some { s with
          debugRegistration := verboseThreads || s.debugRegistration
          logThread := some
            { m_aborted := false, m_filename := logfile, m_progress := progress != 0
              m_quiet := quiet != 0, m_appname := appName
              m_tablename := if dblog then qs "logging" else []
              m_facility := facility, m_pid := pid, phase := ThreadPhase.started } }

/-! ## Interleaved runs -/

/-- The steps of the threads between two points where the queue lock is free. -/
inductive Event where
  | logPrintLine (c : Caller) (mask : Nat) (level : Int) (file : QString) (line : Int)
      (function : QString) (fromQString : Bool) (format : QString)
      (arguments : List QString)
  | inlineHandle (threadId : Nat)
  | inlineRelock (threadId : Nat)
  | registerThread (c : Caller) (name : QString)
  | deregisterThread (c : Caller)
  | stop
  | consumerLock
  | consumerHandle
  | threadExit

/-- One step.  A thread that is inside the `while` loop of `LogPrintLine` makes
    no other call. -/
def step (env : LogEnv) (defs : VerboseDefs) (s : LogState) : Event → LogState
  | .logPrintLine c mask level file line function fromQString format arguments =>
    if (QHash.value s.inlineItem c.threadId).isSome then s
    else logPrintLineEnter env s c mask level file line function fromQString format arguments
  | .inlineHandle threadId => inlineHandle env defs s threadId
  | .inlineRelock threadId => inlineRelock s threadId
  | .registerThread c name =>
    if (QHash.value s.inlineItem c.threadId).isSome then s
    else loggingRegisterThread env s c name
  | .deregisterThread c =>
    if (QHash.value s.inlineItem c.threadId).isSome then s
    else loggingDeregisterThread env s c
  | .stop => stop s
  | .consumerLock => consumerLock s
  | .consumerHandle => consumerHandle env defs s
  | .threadExit => threadExit s

/-- A run: the steps of a trace, one after the other. -/
def run (env : LogEnv) (defs : VerboseDefs) : List Event → LogState → LogState
  | [], s => s
  | e :: rest, s => run env defs rest (step env defs s e)

/-- The records that threads hold between a dequeue and `handleItem`. -/
def heldItems (s : LogState) : List LoggingItem :=
  s.consumerItem.toList ++ s.inlineItem.filterMap (fun e => e.2)

/-! ## Notions used in the statements about the queue -/

/-- The logger's processing of the records `q` in queue order, each with
    `consumerProcess`: the globals afterwards and the records as they are after
    their processing. -/
def consumeQueue (env : LogEnv) (defs : VerboseDefs) (t : LoggerThread) :
    List LoggingItem → LogState → LogState × List LoggingItem
  | [], s => (s, [])
  | item :: rest, s =>
    ((consumeQueue env defs t rest (consumerProcess env defs t s item).1).1,
      (consumerProcess env defs t s item).2
        :: (consumeQueue env defs t rest (consumerProcess env defs t s item).1).2)

/-- The trace in which the logger thread alone runs `n` rounds of its loop. -/
def consumeSteps : Nat → List Event
  | 0 => []
  | n + 1 => Event.consumerLock :: Event.consumerHandle :: consumeSteps n

/-- The messages of the `LogPrintLine` calls of a trace, in trace order. -/
def emitted (env : LogEnv) : List Event → List QString
  | [] => []
  | .logPrintLine _ _ _ _ _ _ fromQString format arguments :: rest =>
    env.vsnprintf env.LOGLINE_MAX
        (if fromQString && format.contains '%' then escapePercent format else format)
        arguments
      :: emitted env rest
  | _ :: rest => emitted env rest

/-- The events of producers that log and of the logger thread's loop. -/
def Event.isLogOrConsumer : Event → Bool
  | .logPrintLine .. => true
  | .consumerLock => true
  | .consumerHandle => true
  | _ => false

/-- The call left the queue, the logger thread, the finished flag, the held
    records and the logs of enqueued and handled records as they were. -/
def SameQueue (s s' : LogState) : Prop :=
  s'.logQueue = s.logQueue ∧ s'.logThread = s.logThread
  ∧ s'.logThreadFinished = s.logThreadFinished ∧ s'.consumerItem = s.consumerItem
  ∧ s'.inlineItem = s.inlineItem ∧ s'.enqueued = s.enqueued
  ∧ s'.handleItemCalls = s.handleItemCalls ∧ s'.logConsoleCalls = s.logConsoleCalls

/-- The logger thread is in its loop and has not been asked to stop, the queue
    is empty and nothing has been logged yet. -/
def FreshRunning (s : LogState) : Prop :=
  (∃ t, s.logThread = some t ∧ t.phase = ThreadPhase.inLoop ∧ t.m_aborted = false)
  ∧ s.logThreadFinished = false ∧ s.logQueue = [] ∧ s.consumerItem = none
  ∧ s.inlineItem = [] ∧ s.enqueued = [] ∧ s.handleItemCalls = []
  ∧ s.logConsoleCalls = []

/-- Modelled from the spec: `vsnprintf` for formats in which "%%" stands for a
    percent sign and every other "%" with the character after it is a
    conversion that prints the next argument, given as its text. -/
def cFormat : QString → List QString → QString
  | [], _ => []
  | [c], _ => if c = '%' then [] else [c]
  | c :: d :: rest, args =>
    if c = '%' then
      if d = '%' then '%' :: cFormat rest args
      else
        match args with
        | [] => cFormat rest []
        | a :: args => a ++ cFormat rest args
    else c :: cFormat (d :: rest) args

/-- Modelled from the spec: sample values of the constants and library
    functions outside the excerpt. -/
def sampleEnv : LogEnv :=
  { VB_FLUSH := 0x200000000
    VB_STDIO := 0x400000000
    LOG_ERR := 3
    LOG_NOTICE := 5
    LOG_DEBUG := 7
    LOGLINE_MAX := 1928
    flushDefaultMS := 200000
    vsnprintf := fun size format arguments => (cFormat format arguments).take (size - 1)
    strftime := fun _ => qs "2012-01-01 00:00:00"
    facilitynames := [(qs "daemon", 24), (qs "user", 8), (qs "local7", 184)]
    logCheck := fun _ _ => true }

/-- A sample logger thread in the given phase. -/
def sampleThread (phase : ThreadPhase) : LoggerThread :=
  { m_aborted := false, m_filename := qs "/var/log/mythtv/myth.log", m_progress := false
    m_quiet := false, m_appname := qs "mythbackend", m_tablename := qs "logging"
    m_facility := -1, m_pid := 4242, phase := phase }

/-- Sample globals: empty queue, maps and logs, with the given logger thread
    and finished flag. -/
def sampleState (logThread : Option LoggerThread) (finished : Bool) : LogState :=
  { logQueue := [], logThread := logThread, logThreadFinished := finished
    debugRegistration := false, logThreadHash := [], logThreadTidHash := []
    logLevel := 6
    logPropagateOpts :=
      { propagate := false, quiet := 0, facility := -1, dblog := true, path := [] }
    logPropagateArgs := [], consumerItem := none, inlineItem := [], enqueued := []
    handleItemCalls := [], logConsoleCalls := [], sent := [], console := []
    destroyed := [] }

/-- A sample caller: the thread `threadId` at a fixed time. -/
def sampleCaller (threadId : Nat) : Caller :=
  { threadId := threadId, tid := 1000 + threadId, epoch := 1325376000, usec := 250 }

/-- The event "thread `threadId` logs `text`" with the general mask at level
    info. -/
def sampleLog (threadId : Nat) (text : String) : Event :=
  Event.logPrintLine (sampleCaller threadId) 2 6 (qs "main.cpp") 10 (qs "main") true
    (qs text) []

/-- A sample record of the thread `threadId`, as `LoggingItem::create` leaves
    it, with the given kind, name and message. -/
def sampleItem (threadId : Nat) (type : LoggingType) (name : Option QString)
    (message : QString) : LoggingItem :=
  { m_threadId := threadId, m_tid := 1000 + threadId, m_line := 10, m_type := type
    m_level := 6, m_file := qs "main.cpp", m_function := qs "main", m_threadName := name
    m_epoch := 1325376000, m_usec := 250, m_message := message, m_pid := 0
    m_appName := [], m_table := [], m_logFile := [], m_facility := 0, refcount := 1 }

/-- The kind of a record made by `LogPrintLine` with neither flag set. -/
def messageType : LoggingType :=
  { kMessage := true, kRegistering := false, kDeregistering := false, kFlush := false
    kStandardIO := false }

/-- The kind of a record made by `loggingRegisterThread`. -/
def registeringType : LoggingType :=
  { kMessage := false, kRegistering := true, kDeregistering := false, kFlush := false
    kStandardIO := false }

/-- The kind of a record made by `loggingDeregisterThread`. -/
def deregisteringType : LoggingType :=
  { kMessage := false, kRegistering := false, kDeregistering := true, kFlush := false
    kStandardIO := false }

/-- A trace in which, after the logger thread has ended, the threads 1 and 2
    are inside the `while` loop of `LogPrintLine` at the same time: thread 3
    logs "S0" between the setting of `logThreadFinished` and the end of the
    logger thread; thread 1 logs "R1" and dequeues "S0"; thread 2 logs "T1" and
    dequeues "R1"; thread 1 handles "S0" and "T1", returns, logs "R2" and
    handles it; then thread 2 handles "R1". -/
def overtakingTrace : List Event :=
  [ Event.stop, Event.consumerLock, sampleLog 3 "S0", Event.threadExit,
    sampleLog 1 "R1", sampleLog 2 "T1",
    Event.inlineHandle 1, Event.inlineRelock 1, Event.inlineHandle 1, Event.inlineRelock 1,
    sampleLog 1 "R2", Event.inlineHandle 1, Event.inlineRelock 1,
    Event.inlineHandle 2, Event.inlineRelock 2 ]

/-- A trace in which one thread at a time holds a record: two threads log
    while the logger thread runs, the logger is stopped and ends, and thread 1
    logs once more. -/
def orderlyTrace : List Event :=
  [ sampleLog 1 "R1", sampleLog 2 "S1", Event.consumerLock, Event.consumerHandle,
    Event.stop, Event.consumerLock, Event.consumerHandle, Event.consumerLock,
    Event.threadExit, sampleLog 1 "R2", Event.inlineHandle 1, Event.inlineRelock 1 ]

/-- A trace in which the threads 1 and 2 each log two messages while the
    logger thread runs. -/
def loadTrace : List Event :=
  [ sampleLog 1 "a1", sampleLog 2 "b1", Event.consumerLock, sampleLog 2 "b2",
    Event.consumerHandle, sampleLog 1 "a2", Event.consumerLock ]

/-- Modelled from the spec: the sample table with two entries added, the name
    of one beginning with the name of the other. -/
def sampleDefsGpu : VerboseDefs :=
  { sampleDefs with
    verboseRows := sampleDefs.verboseRows ++
      [ (0x04000000, qs "VB_GPU", true, qs "GPU commercial flagging messages"),
        (0x08000000, qs "VB_GPUAUDIO", true, qs "GPU audio processing messages") ] }

/-- The moves of one step on the queue, the held records and the logs of
    enqueued and handled records. -/
inductive QueueMove (s s' : LogState) : Prop where
  | same (hq : s'.logQueue = s.logQueue) (hc : s'.consumerItem = s.consumerItem)
      (hi : s'.inlineItem = s.inlineItem) (he : s'.enqueued = s.enqueued)
      (hh : s'.handleItemCalls = s.handleItemCalls)
      (hl : s'.logConsoleCalls = s.logConsoleCalls)
  | enqueue (item : LoggingItem) (hq : s'.logQueue = s.logQueue ++ [item])
      (hc : s'.consumerItem = s.consumerItem) (hi : s'.inlineItem = s.inlineItem)
      (he : s'.enqueued = s.enqueued ++ [item])
      (hh : s'.handleItemCalls = s.handleItemCalls)
      (hl : s'.logConsoleCalls = s.logConsoleCalls)
  | enqueueInline (threadId : Nat) (item first : LoggingItem)
      (hf : s.logThreadFinished = true)
      (hv : QHash.value s.inlineItem threadId = none)
      (hq : s.logQueue ++ [item] = first :: s'.logQueue)
      (hc : s'.consumerItem = s.consumerItem)
      (hi : s'.inlineItem = QHash.insert threadId (some first) s.inlineItem)
      (he : s'.enqueued = s.enqueued ++ [item])
      (hh : s'.handleItemCalls = s.handleItemCalls)
      (hl : s'.logConsoleCalls = s.logConsoleCalls)
  | inlineDequeue (threadId : Nat) (first : LoggingItem)
      (hv : QHash.value s.inlineItem threadId = some none)
      (hq : s.logQueue = first :: s'.logQueue)
      (hc : s'.consumerItem = s.consumerItem)
      (hi : s'.inlineItem = QHash.insert threadId (some first) s.inlineItem)
      (he : s'.enqueued = s.enqueued)
      (hh : s'.handleItemCalls = s.handleItemCalls)
      (hl : s'.logConsoleCalls = s.logConsoleCalls)
  | inlineLeave (threadId : Nat)
      (hv : QHash.value s.inlineItem threadId = some none)
      (hq : s'.logQueue = s.logQueue)
      (hc : s'.consumerItem = s.consumerItem)
      (hi : s'.inlineItem = QHash.remove threadId s.inlineItem)
      (he : s'.enqueued = s.enqueued)
      (hh : s'.handleItemCalls = s.handleItemCalls)
      (hl : s'.logConsoleCalls = s.logConsoleCalls)
  | inlineHandle (threadId : Nat) (item : LoggingItem)
      (hv : QHash.value s.inlineItem threadId = some (some item))
      (hq : s'.logQueue = s.logQueue)
      (hc : s'.consumerItem = s.consumerItem)
      (hi : s'.inlineItem = QHash.insert threadId none s.inlineItem)
      (he : s'.enqueued = s.enqueued)
      (hh : s'.handleItemCalls = s.handleItemCalls ++ [item])
      (hl : s'.logConsoleCalls = s.logConsoleCalls ++ [item])
  | consumerDequeue (first : LoggingItem)
      (hc0 : s.consumerItem = none)
      (hq : s.logQueue = first :: s'.logQueue)
      (hc : s'.consumerItem = some first)
      (hi : s'.inlineItem = s.inlineItem)
      (he : s'.enqueued = s.enqueued)
      (hh : s'.handleItemCalls = s.handleItemCalls)
      (hl : s'.logConsoleCalls = s.logConsoleCalls)
  | consumerHandle (item : LoggingItem)
      (hc0 : s.consumerItem = some item)
      (hq : s'.logQueue = s.logQueue)
      (hc : s'.consumerItem = none)
      (hi : s'.inlineItem = s.inlineItem)
      (he : s'.enqueued = s.enqueued)
      (hh : s'.handleItemCalls = s.handleItemCalls ++ [item])
      (hl : s'.logConsoleCalls = s.logConsoleCalls ++ [item])

/-- The record `item` was passed to `handleItem` and `logConsole`, and nothing
    else happened to the queue, the logger thread, the finished flag, the held
    records and the log of enqueued records. -/
def HandledOne (s : LogState) (item : LoggingItem) (s' : LogState) : Prop :=
  s'.logQueue = s.logQueue ∧ s'.logThread = s.logThread
  ∧ s'.logThreadFinished = s.logThreadFinished ∧ s'.consumerItem = s.consumerItem
  ∧ s'.inlineItem = s.inlineItem ∧ s'.enqueued = s.enqueued
  ∧ s'.handleItemCalls = s.handleItemCalls ++ [item]
  ∧ s'.logConsoleCalls = s.logConsoleCalls ++ [item]

/-- Whether at most one record is held in every state of the run of a trace. -/
def singleHolder (env : LogEnv) (defs : VerboseDefs) : List Event → LogState → Bool
  | [], s => decide ((heldItems s).length ≤ 1)
  | e :: rest, s =>
    decide ((heldItems s).length ≤ 1) && singleHolder env defs rest (step env defs s e)

/-- Every record enqueued so far is handled, held by a thread, or still in the
    queue, in this order; no thread is twice among the holders; and `logConsole`
    was called with the same records as `handleItem`. -/
def QueueInv (s : LogState) : Prop :=
  s.enqueued = s.handleItemCalls ++ heldItems s ++ s.logQueue
  ∧ (s.inlineItem.map (fun e => e.1)).Nodup
  ∧ s.logConsoleCalls = s.handleItemCalls

/-- The logger thread is in its loop and has not finished, no thread is in the
    inline loop of `LogPrintLine`, and every record enqueued so far is handled,
    held by the logger thread, or still in the queue, in this order. -/
def RunningInv (s : LogState) : Prop :=
  (∃ t, s.logThread = some t ∧ t.phase = ThreadPhase.inLoop)
  ∧ s.logThreadFinished = false ∧ s.inlineItem = [] ∧ QueueInv s

/-- The decimal digits of `n`, padded with zeros on the left to `width`
    characters. -/
def zeroPadded (width n : Nat) : QString :=
  List.replicate (width - (Nat.toDigits 10 n).length) '0' ++ Nat.toDigits 10 n

/-- The short-name character of a level: that of its entry in the level
    registry, or '-' when the level is not in the registry. -/
def shortnameOf (defs : VerboseDefs) (level : Int) : Char :=
  match QMap.value (loglevelInit defs) level with
  | none => '-'
  | some lev => lev.shortname

/-- The console line as its description spells it out: the message verbatim for
    a stdio-passthrough record; otherwise the timestamp, '.', the microseconds
    as six zero-padded digits, a space, the short-name character of the level,
    two spaces, the message and a newline. -/
def consoleLineSpec (env : LogEnv) (defs : VerboseDefs) (item : LoggingItem) : QString :=
  if item.m_type.kStandardIO then item.m_message
  else
    env.strftime item.m_epoch ++ ['.'] ++ zeroPadded 6 item.m_usec ++ [' ']
      ++ [shortnameOf defs item.m_level] ++ [' ', ' '] ++ item.m_message ++ ['\n']

/-- Whether every maximal run of '%' in the rest of a text has even length,
    `odd` saying that an odd number of '%' of the current run has been read. -/
def percentRunsEvenAux : Bool → QString → Bool
  | odd, [] => !odd
  | odd, c :: cs =>
    if c = '%' then percentRunsEvenAux (!odd) cs
    else !odd && percentRunsEvenAux false cs

/-- Whether every maximal run of '%' in the text has even length. -/
def percentRunsEven (s : QString) : Bool := percentRunsEvenAux false s

/-- Whether no two '%' are adjacent in the text. -/
def noAdjacentPercent : QString → Bool
  | c :: d :: rest => !(c == '%' && d == '%') && noAdjacentPercent (d :: rest)
  | _ => true

/-- The text in which, from left to right, each pair of adjacent '%' is
    replaced by one '%'. -/
def collapsePercent : QString → QString
  | [] => []
  | [c] => [c]
  | c :: d :: rest =>
    if c = '%' ∧ d = '%' then '%' :: collapsePercent rest
    else c :: collapsePercent (d :: rest)

/-! ## The lock operations of the logging code -/

/-- The five mutexes of `logging.cpp`. -/
inductive Mutex where
  | logQueueMutex
  | logThreadMutex
  | logThreadTidMutex
  | verboseMapMutex
  | loglevelMapMutex
deriving DecidableEq, Repr

/-- A lock operation of a thread: `QMutexLocker` construction, `relock()` and
    the return from `QWaitCondition::wait` lock a mutex; the destruction of a
    `QMutexLocker`, `unlock()` and the entry into `QWaitCondition::wait` unlock
    it. -/
inductive LockOp where
  | lock (m : Mutex)
  | unlock (m : Mutex)
deriving DecidableEq, Repr

section LockDefs

open Mutex LockOp

/-- The lock operations of `LoggingItem::setThreadTid`. -/
def setThreadTidLocks : List LockOp := [lock logThreadTidMutex, unlock logThreadTidMutex]

/-- The lock operations of `LoggingItem::getThreadTid`. -/
def getThreadTidLocks : List LockOp := [lock logThreadTidMutex, unlock logThreadTidMutex]

/-- The lock operations of `LoggingItem::getThreadName`: none when the record
    carries its name. -/
def getThreadNameLocks (hasName : Bool) : List LockOp :=
  if hasName then [] else [lock logThreadMutex, unlock logThreadMutex]

/-- The lock operations of `LoggingItem::create`: those of the constructor,
    which calls `setThreadTid`. -/
def createLocks : List LockOp := setThreadTidLocks

/-- The lock operations of `LoggerThread::fillItem`, which calls
    `getThreadName`. -/
def fillItemLocks (hasName : Bool) : List LockOp := getThreadNameLocks hasName

/-- The lock operations of `LoggerThread::handleItem`: for a registering
    record `getThreadTid` and then the locker of `logThreadMutex`; for a
    deregistering record the locker of `logThreadTidMutex`, in a block of its
    own, and then the locker of `logThreadMutex`. -/
def handleItemLocks (registering deregistering : Bool) : List LockOp :=
  if registering then getThreadTidLocks ++ [lock logThreadMutex, unlock logThreadMutex]
  else if deregistering then
    [lock logThreadTidMutex, unlock logThreadTidMutex, lock logThreadMutex,
      unlock logThreadMutex]
  else []

/-- The lock operations of `LoggerThread::logConsole`: the locker of
    `loglevelMapMutex` around the lookup of the short name, when the record is
    written and is not a stdio-passthrough record. -/
def logConsoleLocks (skipped stdio : Bool) : List LockOp :=
  if skipped || stdio then [] else [lock loglevelMapMutex, unlock loglevelMapMutex]

/-- The lock operations of one `wait(&logQueueMutex, ms)` on a wait
    condition. -/
def waitLocks : List LockOp := [unlock logQueueMutex, lock logQueueMutex]

/-- The lock operations of `LoggerThread::flush`, called with `logQueueMutex`
    held, for a run of its loop with `waits` waits. -/
def flushLocks (waits : Nat) : List LockOp := (List.replicate waits waitLocks).flatten

/-- The branches that the processing of one record takes. -/
structure RecordPath where
  hasName : Bool
  registering : Bool
  deregistering : Bool
  skipped : Bool
  stdio : Bool
deriving DecidableEq, Repr

/-- The lock operations of one round of the `while` loop of `LogPrintLine`
    after the dequeue. -/
def inlineRecordLocks (r : RecordPath) : List LockOp :=
  [unlock logQueueMutex] ++ handleItemLocks r.registering r.deregistering
    ++ logConsoleLocks r.skipped r.stdio ++ [lock logQueueMutex]

/-- The lock operations of one round of the loop of `LoggerThread::run` that
    dequeues a record. -/
def consumerRecordLocks (r : RecordPath) : List LockOp :=
  [unlock logQueueMutex] ++ fillItemLocks r.hasName
    ++ handleItemLocks r.registering r.deregistering
    ++ logConsoleLocks r.skipped r.stdio ++ [lock logQueueMutex]

/-- The branch that a `LogPrintLine` call takes after the enqueue. -/
inductive LogPrintLinePath where
  | enqueueOnly
  | inline (records : List RecordPath)
  | flush (waits : Nat)

/-- The lock operations of `LogPrintLine`. -/
def LogPrintLineLocks : LogPrintLinePath → List LockOp
  | .enqueueOnly => [lock logQueueMutex] ++ createLocks ++ [unlock logQueueMutex]
  | .inline records =>
    [lock logQueueMutex] ++ createLocks ++ (records.map inlineRecordLocks).flatten
      ++ [unlock logQueueMutex]
  | .flush waits =>
    [lock logQueueMutex] ++ createLocks ++ flushLocks waits ++ [unlock logQueueMutex]

/-- The lock operations of a `LOG` whose text takes no lock: none when the
    test of the macro fails. -/
def logMacroLocks : Option LogPrintLinePath → List LockOp
  | none => []
  | some p => LogPrintLineLocks p

/-- The lock operations of `loggingRegisterThread`. -/
def loggingRegisterThreadLocks (finished : Bool) : List LockOp :=
  if finished then [] else [lock logQueueMutex] ++ createLocks ++ [unlock logQueueMutex]

/-- The lock operations of `loggingDeregisterThread`. -/
def loggingDeregisterThreadLocks (finished : Bool) : List LockOp :=
  if finished then [] else [lock logQueueMutex] ++ createLocks ++ [unlock logQueueMutex]

/-- The lock operations of `verboseInit`: its two lockers, destroyed in the
    reverse order. -/
def verboseInitLocks : List LockOp :=
  [lock verboseMapMutex, lock loglevelMapMutex, unlock loglevelMapMutex,
    unlock verboseMapMutex]

/-- The lock operations of `logLevelGet`. -/
def logLevelGetLocks (initialized : Bool) : List LockOp :=
  [lock loglevelMapMutex]
    ++ (if initialized then []
        else [unlock loglevelMapMutex] ++ verboseInitLocks ++ [lock loglevelMapMutex])
    ++ [unlock loglevelMapMutex]

/-- The lock operations of `logLevelGetName`. -/
def logLevelGetNameLocks (initialized : Bool) : List LockOp :=
  [lock loglevelMapMutex]
    ++ (if initialized then []
        else [unlock loglevelMapMutex] ++ verboseInitLocks ++ [lock loglevelMapMutex])
    ++ [unlock loglevelMapMutex]

/-- The lock operations of `verboseArgParse`; `verboseHelp` takes no lock. -/
def verboseArgParseLocks (initialized : Bool) : List LockOp :=
  (if initialized then [] else verboseInitLocks)
    ++ [lock verboseMapMutex, unlock verboseMapMutex]

/-- The lock operations of `logPropagateCalc`, which calls `logLevelGetName`. -/
def logPropagateCalcLocks (initialized : Bool) : List LockOp :=
  logLevelGetNameLocks initialized

/-- The branches that a `logStart` call takes: whether the logger thread is
    running; whether the text of its `LOG` is computed, with
    `verboseInitialized` as it is then, and the path of the `LogPrintLine` call
    of that `LOG` when the test of the macro passes; `verboseInitialized` at
    `logPropagateCalc`; whether `logThread` exists; and whether the `LOG` of the
    `LoggerThread` constructor calls `LogPrintLine`. -/
structure LogStartPath where
  running : Bool
  textComputed : Bool
  initializedAtText : Bool
  log : Option LogPrintLinePath
  initializedAtCalc : Bool
  threadExists : Bool
  constructorLogs : Bool

/-- The lock operations of `logStart`.  When the constructor of `LoggerThread`
    calls `LogPrintLine`, the thread blocks at the lock of `logQueueMutex`,
    which it holds, and the operations end there. -/
def logStartLocks (p : LogStartPath) : List LockOp :=
  if p.running then []
  else
    (if p.textComputed then logLevelGetNameLocks p.initializedAtText else [])
      ++ logMacroLocks p.log
      ++ logPropagateCalcLocks p.initializedAtCalc
      ++ [lock logQueueMutex]
      ++ (if !p.threadExists && p.constructorLogs then [lock logQueueMutex]
          else [unlock logQueueMutex])

/-- One round of the loop of `LoggerThread::run`: a wait on the empty queue, or
    the processing of a record. -/
inductive LoopRound where
  | wait
  | record (r : RecordPath)

/-- The lock operations of one round of the loop of `LoggerThread::run`. -/
def roundLocks : LoopRound → List LockOp
  | .wait => waitLocks
  | .record r => consumerRecordLocks r

/-- The lock operations of `LoggerThread::run` between `RunProlog` and
    `RunEpilog`: its `LOG` calls, then the loop with the queue lock held
    between the rounds. -/
def runLocks (logs : List (Option LogPrintLinePath)) (rounds : List LoopRound) :
    List LockOp :=
  (logs.map logMacroLocks).flatten ++ [lock logQueueMutex]
    ++ (rounds.map roundLocks).flatten ++ [unlock logQueueMutex]

/-- The lock operations of `LoggerThread::stop`. -/
def stopLocks (waits : Nat) : List LockOp :=
  [lock logQueueMutex] ++ flushLocks waits ++ [unlock logQueueMutex]

/-- The mutexes held after the operations `ops`, `held` being held before. -/
def heldAfter : List Mutex → List LockOp → List Mutex
  | held, [] => held
  | held, LockOp.lock m :: rest => heldAfter (m :: held) rest
  | held, LockOp.unlock m :: rest => heldAfter (held.erase m) rest

/-- The nested acquisitions in the operations `ops`: the pairs (`x`, `m`) where
    `m` is locked while another mutex `x` is held. -/
def nestedPairs : List Mutex → List LockOp → List (Mutex × Mutex)
  | _, [] => []
  | held, LockOp.lock m :: rest =>
    (held.filter (fun x => decide (x ≠ m))).map (fun x => (x, m))
      ++ nestedPairs (m :: held) rest
  | held, LockOp.unlock m :: rest => nestedPairs (held.erase m) rest

/-- The two nested acquisitions of the code. -/
def allowedNesting : List (Mutex × Mutex) :=
  [(Mutex.logQueueMutex, Mutex.logThreadTidMutex),
    (Mutex.verboseMapMutex, Mutex.loglevelMapMutex)]

/-- From the held mutexes `held` the operations `ops` lead to `held'`, and
    every nested acquisition on the way is one of `allowedNesting`. -/
def SafeLocks (held held' : List Mutex) (ops : List LockOp) : Prop :=
  heldAfter held ops = held' ∧ ∀ p ∈ nestedPairs held ops, p ∈ allowedNesting

instance (held held' : List Mutex) (ops : List LockOp) :
    Decidable (SafeLocks held held' ops) := by
  unfold SafeLocks; infer_instance

end LockDefs

/-! ## Binary property lists (libmythbase/mythbinaryplist.cpp) -/

/-- A `QVariant` as the parser produces it.  A real number and a date are kept
    as the bytes read: the floating-point conversion is not modelled.  The
    entries of a map are a `QMap QString QVariant`. -/
inductive QVariant where
  | invalid
  | bool (b : Bool)
  | uLongLong (n : Nat)
  | double (bytes : List Nat)
  | dateTime (bytes : Option (List Nat))
  | byteArray (bytes : List Nat)
  | string (text : QString)
  | list (items : List QVariant)
  | map (entries : List (QString × QVariant))

/-- Why a run of the parser has no result: the recursion of `ParseBinaryNode`
    is deeper than the fuel, or a byte outside the array is read. -/
inductive ParseStop where
  | outOfFuel
  | outOfBounds
deriving DecidableEq, Repr

/-- Modelled from the spec: `QVariant::canConvert<QString>()` for the variants
    that the parser produces. -/
def QVariant.canConvertString : QVariant → Bool
  | .invalid => false
  | .list _ => false
  | .map _ => false
  | _ => true

/-- The members of `MythBinaryPList` that the parser reads: the bytes, the
    offset table (as an index into the bytes) and the sizes and counts of the
    trailer; `keyText` is `QVariant::toString`, which Qt defines, on a
    dictionary key. -/
structure PList where
  data : List Nat
  offsetTable : Nat
  offsetSize : Nat
  parmSize : Nat
  numObjs : Nat
  rootObj : Nat
  keyText : QVariant → QString

/-- The byte at the index `p`. -/
def readByte (data : List Nat) (p : Nat) : Except ParseStop Nat :=
  match data.get? p with
  | some b => .ok b
  | none => .error .outOfBounds

/-- The `n` bytes from the index `p` on. -/
def readBytes (data : List Nat) : Nat → Nat → Except ParseStop (List Nat)
  | 0, _ => .ok []
  | n + 1, p => do
    let b ← readByte data p
    let rest ← readBytes data n (p + 1)
    pure (b :: rest)

/-- The bytes from the index `p` up to a zero byte. -/
def readCString (data : List Nat) (p : Nat) : Except ParseStop (List Nat) :=
  if p < data.length then
    if (data.drop p).contains 0 then .ok ((data.drop p).takeWhile (fun b => b != 0))
    else .error .outOfBounds
  else .error .outOfBounds

/-- The big-endian value of a list of bytes. -/
def bigEndian (bytes : List Nat) : Nat := bytes.foldl (fun acc b => acc * 256 + b) 0

/-- Source `convert_int<T>` for a `T` of `n` bytes at the index `p`. -/
def convert_int (data : List Nat) (n p : Nat) : Except ParseStop Nat := do
  let bytes ← readBytes data n p
  pure (bigEndian bytes)

/-- Source `GetBinaryUInt(Data, Size)` (the branch that is not
    `HAVE_BIGENDIAN` for the size 3). -/
def GetBinaryUInt (data : List Nat) (p size : Nat) : Except ParseStop Nat :=
  if size = 1 then readByte data p
  else if size = 2 then convert_int data 2 p
  else if size = 4 then convert_int data 4 p
  else if size = 8 then convert_int data 8 p
  else if size = 3 then do
    let b0 ← readByte data p
    let b1 ← readByte data (p + 1)
    let b2 ← readByte data (p + 2)
    pure (b0 + b1 * 256 + b2 * 65536)
  else .ok 0

/-- Source `GetBinaryObject(Num)`: the index of the object, or `none` for the
    null pointer. -/
def GetBinaryObject (pl : PList) (num : Nat) : Except ParseStop (Option Nat) :=
  if num > pl.numObjs then .ok none
  else do
    let offset ← GetBinaryUInt pl.data (pl.offsetTable + (num * pl.offsetSize) % 2 ^ 64)
      pl.offsetSize
    pure (some offset)

/-- Source `ParseBinaryUInt(Data)`: the value and the pointer after the
    call. -/
def ParseBinaryUInt (data : List Nat) (p : Nat) : Except ParseStop (Nat × Nat) := do
  let b ← readByte data p
  if b &&& 0xf0 ≠ 0x10 then pure (0, p)
  else
    let size := 2 ^ (b &&& 0x0f)
    let result ← GetBinaryUInt data (p + 1) size
    pure (result, p + 1 + size)

/-- Source `GetBinaryCount(Data)`: the count and the pointer after the call. -/
def GetBinaryCount (data : List Nat) (p : Nat) : Except ParseStop (Nat × Nat) := do
  let b ← readByte data p
  if b &&& 0x0f = 0x0f then ParseBinaryUInt data (p + 1)
  else pure (b &&& 0x0f, p + 1)

/-- The bytes that `QString::fromLatin1(str, size)` and `QByteArray(str, size)`
    take for `size = static_cast<int>(count)`: `size` bytes, or the bytes up to
    a zero byte when `size` is negative. -/
def readSized (data : List Nat) (p count : Nat) : Except ParseStop (List Nat) :=
  if count % 2 ^ 32 < 2 ^ 31 then readBytes data (count % 2 ^ 32) p
  else readCString data p

/-- Source `ParseBinaryString(Data)`. -/
def ParseBinaryString (data : List Nat) (p : Nat) : Except ParseStop QVariant := do
  let b ← readByte data p
  if b &&& 0xf0 ≠ 0x50 then pure (.string [])
  else
    let (count, q) ← GetBinaryCount data p
    if count = 0 then pure (.string [])
    else
      let bytes ← readSized data q count
      pure (.string (bytes.map Char.ofNat))

/-- Source `ParseBinaryReal(Data)`: the 4 or 8 bytes of the number, or no
    bytes for the value 0.0.  `1ULL << count` is `sizeof(float)` for the count
    2 and `sizeof(double)` for the count 3. -/
def ParseBinaryReal (data : List Nat) (p : Nat) : Except ParseStop QVariant := do
  let b ← readByte data p
  if b &&& 0xf0 ≠ 0x20 then pure (.double [])
  else
    let (count, q) ← GetBinaryCount data p
    if count = 0 then pure (.double [])
    else if count = 2 then do
      let bytes ← readBytes data 4 q
      pure (.double bytes)
    else if count = 3 then do
      let bytes ← readBytes data 8 q
      pure (.double bytes)
    else pure (.double [])

/-- Source `ParseBinaryDate(Data)`: the 8 bytes of the seconds, or a null
    date. -/
def ParseBinaryDate (data : List Nat) (p : Nat) : Except ParseStop QVariant := do
  let b ← readByte data p
  if b &&& 0xf0 ≠ 0x30 then pure (.dateTime none)
  else
    let (count, q) ← GetBinaryCount data p
    if count ≠ 3 then pure (.dateTime none)
    else
      let bytes ← readBytes data 8 q
      pure (.dateTime (some bytes))

/-- Source `ParseBinaryData(Data)`. -/
def ParseBinaryData (data : List Nat) (p : Nat) : Except ParseStop QVariant := do
  let b ← readByte data p
  if b &&& 0xf0 ≠ 0x40 then pure (.byteArray [])
  else
    let (count, q) ← GetBinaryCount data p
    if count = 0 then pure (.byteArray [])
    else
      let bytes ← readSized data q count
      pure (.byteArray bytes)

/-- The loop of `ParseBinaryUnicode`: the 16-bit units read, `n` rounds
    left. -/
def unicodeLoop (data : List Nat) : Nat → Nat → Except ParseStop (List Nat)
  | 0, _ => .ok []
  | n + 1, p => do
    let twobyte ← convert_int data 2 p
    let rest ← unicodeLoop data n (p + 2)
    pure (twobyte :: rest)

/-- Source `ParseBinaryUnicode(Data)`: `QString::fromUtf16` takes
    `static_cast<int>(count)` units, or the units up to a zero unit when that
    size is negative; every unit is taken as one character. -/
def ParseBinaryUnicode (data : List Nat) (p : Nat) : Except ParseStop QVariant := do
  let b ← readByte data p
  if b &&& 0xf0 ≠ 0x60 then pure (.string [])
  else
    let (count, q) ← GetBinaryCount data p
    if count = 0 then pure (.string [])
    else
      let units ← unicodeLoop data count q
      if count % 2 ^ 32 < 2 ^ 31 then pure (.string ((units.take (count % 2 ^ 32)).map Char.ofNat))
      else pure (.string ((units.takeWhile (fun u => u != 0)).map Char.ofNat))

/-- The `for` loop of `ParseBinaryArray`, `n` rounds left; `node` is
    `ParseBinaryNode`. -/
def arrayLoop (pl : PList) (node : Nat → Except ParseStop QVariant) :
    Nat → Nat → List QVariant → Except ParseStop (List QVariant)
  | 0, _, result => .ok result
  | n + 1, p, result => do
    let obj ← GetBinaryUInt pl.data p pl.parmSize
    let val ← node obj
    arrayLoop pl node n (p + pl.parmSize) (result ++ [val])

/-- Source `ParseBinaryArray(Data)`; `node` is `ParseBinaryNode`. -/
def ParseBinaryArray (pl : PList) (node : Nat → Except ParseStop QVariant) (p : Nat) :
    Except ParseStop (List QVariant) := do
  let b ← readByte pl.data p
  if b &&& 0xf0 ≠ 0xA0 then pure []
  else
    let (count, q) ← GetBinaryCount pl.data p
    if count = 0 then pure []
    else arrayLoop pl node count q []

/-- The `for` loop of `ParseBinaryDict`, `n` rounds left: the loop is left
    when a key cannot be converted to a string. -/
def dictLoop (pl : PList) (node : Nat → Except ParseStop QVariant) (off : Nat) :
    Nat → Nat → QMap QString QVariant → Except ParseStop (QMap QString QVariant)
  | 0, _, result => .ok result
  | n + 1, p, result => do
    let keyobj ← GetBinaryUInt pl.data p pl.parmSize
    let valobj ← GetBinaryUInt pl.data (p + off) pl.parmSize
    let key ← node keyobj
    let val ← node valobj
    if !key.canConvertString then pure result
    else
      dictLoop pl node off n (p + pl.parmSize) (QMap.insert (pl.keyText key) val result)

/-- Source `ParseBinaryDict(Data)`; `node` is `ParseBinaryNode`. -/
def ParseBinaryDict (pl : PList) (node : Nat → Except ParseStop QVariant) (p : Nat) :
    Except ParseStop (QMap QString QVariant) := do
  let b ← readByte pl.data p
  if b &&& 0xf0 ≠ 0xD0 then pure []
  else
    let (count, q) ← GetBinaryCount pl.data p
    if count = 0 then pure []
    else dictLoop pl node ((pl.parmSize * count) % 2 ^ 64) count q []

/-- Source `ParseBinaryNode(Num)`, with the depth of the recursion bounded by
    the fuel. -/
def ParseBinaryNode (pl : PList) : Nat → Nat → Except ParseStop QVariant
  | 0, _ => .error .outOfFuel
  | fuel + 1, num => do
    match ← GetBinaryObject pl num with
    | none => pure .invalid
    | some p =>
      let b ← readByte pl.data p
      let type := b &&& 0xf0
      let size := b &&& 0x0f
      if type = 0xC0 ∨ type = 0xA0 then do
        let items ← ParseBinaryArray pl (ParseBinaryNode pl fuel) p
        pure (.list items)
      else if type = 0xD0 then do
        let entries ← ParseBinaryDict pl (ParseBinaryNode pl fuel) p
        pure (.map entries)
      else if type = 0x50 then ParseBinaryString pl.data p
      else if type = 0x10 then do
        let r ← ParseBinaryUInt pl.data p
        pure (.uLongLong r.1)
      else if type = 0x20 then ParseBinaryReal pl.data p
      else if type = 0x30 then ParseBinaryDate pl.data p
      else if type = 0x40 then ParseBinaryData pl.data p
      else if type = 0x60 then ParseBinaryUnicode pl.data p
      else if type = 0x00 then
        if size = 0x09 then pure (.bool true)
        else if size = 0x08 then pure (.bool false)
        else pure .invalid
      else pure .invalid

/-- Source `ParseBinaryPList(Data)`: the new `m_result`. -/
def ParseBinaryPList (keyText : QVariant → QString) (fuel : Nat) (data : List Nat) :
    Except ParseStop QVariant :=
  let size := data.length % 2 ^ 32
  if size < 34 then .ok .invalid
  else if data.take 6 ≠ [98, 112, 108, 105, 115, 116] ∨ (data.drop 6).take 2 ≠ [48, 48] then
    .ok .invalid
  else do
    let trailer := size - 26
    let offsetSize ← readByte data trailer
    let parmSize ← readByte data (trailer + 1)
    let numObjs ← convert_int data 8 (trailer + 2)
    let rootObj ← convert_int data 8 (trailer + 10)
    let offsetTable ← convert_int data 8 (trailer + 18)
    if numObjs = 0 ∨ parmSize = 0 ∨ offsetSize = 0 then pure .invalid
    else
      ParseBinaryNode
        { data := data, offsetTable := offsetTable, offsetSize := offsetSize
          parmSize := parmSize, numObjs := numObjs, rootObj := rootObj, keyText := keyText }
        fuel rootObj

/-- The text of a key that is a string; the samples have no other keys. -/
def sampleKeyText : QVariant → QString
  | .string text => text
  | _ => []

/-- A binary property list of 43 bytes whose one object, the root, is an
    array with one element, which refers to the array itself: "bplist00"; at
    the index 8 the array (0xA1) with the element 0; at the index 10 the offset
    table with the offset 8 of object 0; six unused bytes; and the trailer
    (offset size 1, reference size 1, 1 object, root object 0, offset table at
    10). -/
def selfReferringPlist : List Nat :=
  [98, 112, 108, 105, 115, 116, 48, 48,
   0xA1, 0x00,
   0x08,
   0, 0, 0, 0, 0, 0,
   1, 1,
   0, 0, 0, 0, 0, 0, 0, 1,
   0, 0, 0, 0, 0, 0, 0, 0,
   0, 0, 0, 0, 0, 0, 0, 10]

/-- A binary property list whose root is the array of the boolean true and the
    integer 5: objects at the indices 8 (the array), 11 and 12; the offset
    table at 14. -/
def smallPlist : List Nat :=
  [98, 112, 108, 105, 115, 116, 48, 48,
   0xA2, 0x01, 0x02,
   0x09,
   0x10, 0x05,
   0x08, 0x0B, 0x0C,
   0, 0, 0, 0, 0, 0,
   1, 1,
   0, 0, 0, 0, 0, 0, 0, 3,
   0, 0, 0, 0, 0, 0, 0, 0,
   0, 0, 0, 0, 0, 0, 0, 14]

/-! ## The registry of IPTV stream handlers (libmythtv/iptvstreamhandler.cpp) -/

/-- Source `QMap::erase` for the entry of a key. -/
def QMap.erase {K V : Type} [DecidableEq K] (k : K) (m : QMap K V) : QMap K V :=
  m.filter (fun e => !decide (e.1 = k))

/-- An `IPTVStreamHandler*`: the object's address `id` and its member
    `_device`.  Modelled from the spec: the base class `StreamHandler`, which
    is not part of the excerpt, keeps the constructor's argument in
    `_device`. -/
structure IPTVStreamHandler where
  id : Nat
  device : QString
deriving DecidableEq, Repr

/-- The static members `s_handlers` and `s_handlers_refcnt` (a `uint` per
    key), the number of handlers made by `new` so far (a new handler gets an
    address that no earlier handler had), and three logs: the handlers that
    `Get` returned, the handlers that were passed to `Return`, and the
    addresses of the handlers that were closed and deleted. -/
structure Registry where
  s_handlers : QMap QString IPTVStreamHandler
  s_handlers_refcnt : QMap QString Nat
  allocated : Nat
  obtained : List IPTVStreamHandler
  returned : List IPTVStreamHandler
  closed : List Nat

/-- The registry before the first call: empty maps. -/
def Registry.empty : Registry :=
  { s_handlers := [], s_handlers_refcnt := [], allocated := 0
    obtained := [], returned := [], closed := [] }

namespace IPTVStreamHandler

/-- Source `IPTVStreamHandler::Get(devname)`: the handler returned and the
    registry after the call.  `operator[]` on the count of a key that is not
    in the map starts from 0; the increment is made in 32 bits. -/
def Get (devname : QString) (s : Registry) : IPTVStreamHandler × Registry :=
  let devkey := QString.toUpper devname
  match QMap.value s.s_handlers devkey with
  | none =>
    let newhandler : IPTVStreamHandler := { id := s.allocated, device := devkey }
    (newhandler,
      { s with
        s_handlers := QMap.insert devkey newhandler s.s_handlers
        s_handlers_refcnt := QMap.insert devkey 1 s.s_handlers_refcnt
        allocated := s.allocated + 1
        obtained := s.obtained ++ [newhandler] })
  | some handler =>
    let rcount := (((QMap.value s.s_handlers_refcnt devkey).getD 0) + 1) % 2 ^ 32
    (handler,
      { s with
        s_handlers_refcnt := QMap.insert devkey rcount s.s_handlers_refcnt
        obtained := s.obtained ++ [handler] })

/-- Source `IPTVStreamHandler::Return(ref)`: the value of `ref` after the
    call (`none` is `NULL`) and the registry after the call. -/
def Return (ref : IPTVStreamHandler) (s : Registry) : Option IPTVStreamHandler × Registry :=
  let s := { s with returned := s.returned ++ [ref] }
  let devname := ref.device
  match QMap.value s.s_handlers_refcnt devname with
  | none => (some ref, s)
  | some rcount =>
    if rcount > 1 then
      (none, { s with s_handlers_refcnt := QMap.insert devname (rcount - 1) s.s_handlers_refcnt })
    else
      let s1 :=
        match QMap.value s.s_handlers devname with
        | some handler =>
          if handler.id = ref.id then
            { s with
              closed := s.closed ++ [ref.id]
              s_handlers := QMap.erase devname s.s_handlers }
          else s
        | none => s
      (none, { s1 with s_handlers_refcnt := QMap.erase devname s1.s_handlers_refcnt })

end IPTVStreamHandler

/-- A call of the registry. -/
inductive RegistryCall where
  | get (devname : QString)
  | ret (ref : IPTVStreamHandler)
deriving DecidableEq, Repr

/-- The registry after one call. -/
def RegistryCall.apply (s : Registry) : RegistryCall → Registry
  | .get devname => (IPTVStreamHandler.Get devname s).2
  | .ret ref => (IPTVStreamHandler.Return ref s).2

/-- The registry after a sequence of calls. -/
def Registry.run (s : Registry) (calls : List RegistryCall) : Registry :=
  calls.foldl RegistryCall.apply s

/-- The number of calls of `Get` minus the number of calls of `Return` for
    the device name `key`. -/
def Registry.outstanding (s : Registry) (key : QString) : Nat :=
  (s.obtained.filter (fun h => decide (h.device = key))).length -
    (s.returned.filter (fun h => decide (h.device = key))).length

/-- Every handler passed to `Return` was obtained from `Get`, and is returned
    at most as many times as it was obtained. -/
def wellReturned : List RegistryCall → Registry → Bool
  | [], _ => true
  | .get devname :: rest, s => wellReturned rest (IPTVStreamHandler.Get devname s).2
  | .ret ref :: rest, s =>
    decide (s.returned.count ref < s.obtained.count ref) &&
      wellReturned rest (IPTVStreamHandler.Return ref s).2

/-- At every call of `Get`, fewer than `2 ^ 32 - 1` handles of the device name
    are out, so that fewer than `2 ^ 32` are out after it. -/
def withinCount : List RegistryCall → Registry → Bool
  | [], _ => true
  | .get devname :: rest, s =>
    decide (s.outstanding (QString.toUpper devname) + 1 < 2 ^ 32) &&
      withinCount rest (IPTVStreamHandler.Get devname s).2
  | .ret ref :: rest, s => withinCount rest (IPTVStreamHandler.Return ref s).2

/-- The invariant of the registry between two calls. -/
structure RegistryInv (s : Registry) : Prop where
  keys : ∀ key, (QMap.value s.s_handlers key).isSome = (QMap.value s.s_handlers_refcnt key).isSome
  stored : ∀ key h, QMap.value s.s_handlers key = some h →
    h.device = key ∧ s.returned.count h < s.obtained.count h ∧
      QMap.value s.s_handlers_refcnt key = some (s.obtained.count h - s.returned.count h)
  out : ∀ h, s.returned.count h < s.obtained.count h → QMap.value s.s_handlers h.device = some h
  le : ∀ h, s.returned.count h ≤ s.obtained.count h
  fresh : ∀ h ∈ s.obtained, h.id < s.allocated
  perKey : ∀ key,
    (s.obtained.filter (fun h => decide (h.device = key))).length =
      (s.returned.filter (fun h => decide (h.device = key))).length +
        (QMap.value s.s_handlers_refcnt key).getD 0

/-- A run of five calls: two handles of one device, under names that differ
    in letter case, both returned, and the device opened again. -/
def sampleCalls : List RegistryCall :=
  [.get (qs "udp!1"), .get (qs "UDP!1"), .ret { id := 0, device := qs "UDP!1" },
   .ret { id := 0, device := qs "UDP!1" }, .get (qs "Udp!1")]

/-! ## Characters, strings and maps -/

theorem toNat_ofNat_small (n : Nat) (h : n < 200) : (Char.ofNat n).toNat = n := by
  interval_cases n <;> rfl

theorem char_toLower_idem (c : Char) : c.toLower.toLower = c.toLower := by
  unfold Char.toLower
  simp only []
  split
  · rename_i h
    split
    · rename_i h2
      exfalso
      have : (Char.ofNat (c.toNat + 32)).toNat = c.toNat + 32 :=
        toNat_ofNat_small _ (by omega)
      omega
    · rfl
  · simp_all

theorem QString.toLower_idem (s : QString) :
    QString.toLower (QString.toLower s) = QString.toLower s := by
  simp [QString.toLower, char_toLower_idem]

theorem QString.toLower_append (s t : QString) :
    QString.toLower (s ++ t) = QString.toLower s ++ QString.toLower t := by
  simp [QString.toLower]

namespace QMap

variable {K V : Type} [DecidableEq K] [LT K] [DecidableRel (fun a b : K => a < b)]

theorem value_insert (m : QMap K V) (k k' : K) (v : V) :
    value (insert k v m) k' = if k' = k then some v else value m k' := by
  induction m with
  | nil => simp [insert, value]
  | cons e rest ih =>
    obtain ⟨k0, v0⟩ := e
    by_cases h1 : k = k0
    · subst h1
      by_cases h2 : k' = k <;> simp [insert, value, h2]
    · by_cases h3 : k < k0
      · by_cases h2 : k' = k <;> simp [insert, value, h1, h2, h3]
      · by_cases h2 : k' = k
        · subst h2
          simp [insert, value, h1, h3, ih]
        · simp [insert, value, h1, h2, h3, ih]

theorem mem_insert (m : QMap K V) (k : K) (v : V) (e : K × V)
    (h : e ∈ insert k v m) : e = (k, v) ∨ e ∈ m := by
  induction m with
  | nil => simpa [insert] using h
  | cons e0 rest ih =>
    obtain ⟨k0, v0⟩ := e0
    by_cases h1 : k = k0
    · simp only [insert, h1, if_true, List.mem_cons] at h
      rcases h with h | h
      · left; rw [h, h1]
      · right; exact List.mem_cons_of_mem _ h
    · by_cases h3 : k < k0
      · simp only [insert, h1, h3, if_true, if_false, List.mem_cons] at h
        rcases h with h | h | h
        · left; exact h
        · right; rw [h]; exact List.mem_cons_self _ _
        · right; exact List.mem_cons_of_mem _ h
      · simp only [insert, h1, h3, if_false, List.mem_cons] at h
        rcases h with h | h
        · right; rw [h]; exact List.mem_cons_self _ _
        · rcases ih h with h | h
          · left; exact h
          · right; exact List.mem_cons_of_mem _ h

omit [LT K] [DecidableRel (fun a b : K => a < b)] in
theorem mem_of_value (m : QMap K V) (k : K) (v : V) (h : value m k = some v) :
    (k, v) ∈ m := by
  induction m with
  | nil => simp [value] at h
  | cons e rest ih =>
    obtain ⟨k0, v0⟩ := e
    by_cases h1 : k = k0
    · simp only [value, h1, if_true, Option.some.injEq] at h
      rw [h1, ← h]; exact List.mem_cons_self _ _
    · simp only [value, h1, if_false] at h
      exact List.mem_cons_of_mem _ (ih h)

omit [LT K] [DecidableRel (fun a b : K => a < b)] in
theorem value_isSome_of_mem (m : QMap K V) (k : K) (v : V) (h : (k, v) ∈ m) :
    (value m k).isSome = true := by
  induction m with
  | nil => simp at h
  | cons e rest ih =>
    obtain ⟨k0, v0⟩ := e
    by_cases h1 : k = k0
    · simp [value, h1]
    · simp only [List.mem_cons, Prod.mk.injEq, h1, false_and, false_or] at h
      simp [value, h1, ih h]

end QMap

/-! ## Invariants of the registries -/

/-- What `verboseAdd` guarantees of every stored entry. -/
theorem verboseAdd_inv (m : VerboseMap) (mask : Nat) (name : QString) (additive : Bool)
    (helptext : QString)
    (hm : ∀ e ∈ m, e.2.name = e.1 ∧ QString.toLower e.1 = e.1 ∧ e.2.mask < 2 ^ 64) :
    ∀ e ∈ verboseAdd m mask name additive helptext,
      e.2.name = e.1 ∧ QString.toLower e.1 = e.1 ∧ e.2.mask < 2 ^ 64 := by
  intro e he
  rcases QMap.mem_insert _ _ _ _ he with h | h
  · subst h
    refine ⟨rfl, QString.toLower_idem _, ?_⟩
    exact Nat.mod_lt _ (by decide)
  · exact hm e h

theorem verboseRows_inv (rows : List (Nat × QString × Bool × QString)) (m : VerboseMap)
    (hm : ∀ e ∈ m, e.2.name = e.1 ∧ QString.toLower e.1 = e.1 ∧ e.2.mask < 2 ^ 64) :
    ∀ e ∈ rows.foldl (fun m r => verboseAdd m r.1 r.2.1 r.2.2.1 r.2.2.2) m,
      e.2.name = e.1 ∧ QString.toLower e.1 = e.1 ∧ e.2.mask < 2 ^ 64 := by
  induction rows generalizing m with
  | nil => exact hm
  | cons r rest ih =>
    simp only [List.foldl_cons]
    exact ih _ (verboseAdd_inv m _ _ _ _ hm)

theorem verboseInit_inv (defs : VerboseDefs) :
    ∀ e ∈ verboseInit defs,
      e.2.name = e.1 ∧ QString.toLower e.1 = e.1 ∧ e.2.mask < 2 ^ 64 :=
  verboseRows_inv _ [] (fun e he => absurd he (List.not_mem_nil e))

theorem verboseInit_value (defs : VerboseDefs) (k : QString) (d : VerboseDef)
    (h : QMap.value (verboseInit defs) k = some d) :
    d.name = k ∧ QString.toLower k = k ∧ d.mask < 2 ^ 64 :=
  verboseInit_inv defs (k, d) (QMap.mem_of_value _ _ _ h)

theorem verboseInit_isSome_iff (defs : VerboseDefs) (t : QString) :
    (QMap.value (verboseInit defs) t).isSome = true ↔
      ∃ e ∈ verboseInit defs, e.2.name = t := by
  constructor
  · intro h
    obtain ⟨d, hd⟩ := Option.isSome_iff_exists.mp h
    exact ⟨(t, d), QMap.mem_of_value _ _ _ hd, (verboseInit_value defs t d hd).1⟩
  · intro h
    obtain ⟨e, he, hn⟩ := h
    have h1 := (verboseInit_inv defs e he).1
    rw [← hn, h1]
    exact QMap.value_isSome_of_mem _ e.1 e.2 he

/-! ## Splitting -/

theorem splitAux_word (w cur : QString) (f : Bool)
    (hw : w.all isWordChar = true) :
    QString.splitAux w cur f = [cur.reverse ++ w] := by
  induction w generalizing cur f with
  | nil => simp [QString.splitAux]
  | cons c cs ih =>
    simp only [List.all_cons, Bool.and_eq_true] at hw
    simp [QString.splitAux, hw.1, ih _ _ hw.2]

theorem splitAux_append_word (p w cur : QString) (f : Bool) (sep : Char)
    (hsep : isWordChar sep = false) (hw : w.all isWordChar = true)
    (hend : endsInSep p f = false) :
    QString.splitAux (p ++ sep :: w) cur f = QString.splitAux p cur f ++ [w] := by
  induction p generalizing cur f with
  | nil =>
    simp only [endsInSep] at hend
    subst hend
    simp [QString.splitAux, hsep, splitAux_word w [] true hw]
  | cons c cs ih =>
    simp only [endsInSep] at hend
    by_cases hc : isWordChar c = true
    · simp only [hc, Bool.not_true] at hend
      simp [QString.splitAux, hc, ih _ _ hend]
    · simp only [Bool.not_eq_true] at hc
      simp only [hc, Bool.not_false] at hend
      cases f <;> simp [QString.splitAux, hc, ih _ _ hend]

theorem splitAux_nil_mem (p cur : QString) (f : Bool)
    (hend : endsInSep p f = true) (hcur : f = true → cur = []) :
    [] ∈ QString.splitAux p cur f := by
  induction p generalizing cur f with
  | nil =>
    simp only [endsInSep] at hend
    simp [QString.splitAux, hcur hend]
  | cons c cs ih =>
    simp only [endsInSep] at hend
    by_cases hc : isWordChar c = true
    · simp only [hc, Bool.not_true] at hend
      simp only [QString.splitAux, hc, if_true]
      exact ih _ _ hend (by simp)
    · simp only [Bool.not_eq_true] at hc
      simp only [hc, Bool.not_false] at hend
      cases f
      · simp only [QString.splitAux, hc, Bool.false_eq_true, if_false, List.mem_cons]
        right
        exact ih _ _ hend (fun _ => rfl)
      · simp only [QString.splitAux, hc, Bool.false_eq_true, if_false, if_true]
        exact ih _ _ hend (fun _ => hcur rfl)

/-! ## One token -/

theorem splitReverse_snd (tok : QString) :
    (splitReverse tok).2 = tokenNormalForm tok := by
  have e1 : qs "no" = ['n', 'o'] := rfl
  have e2 : qs "none" = ['n', 'o', 'n', 'e'] := rfl
  unfold splitReverse tokenNormalForm
  generalize QString.toLower tok = t
  simp only [e1, e2, QString.left, QString.right]
  by_cases h1 : t = ['n', 'o', 'n', 'e']
  · simp [h1]
  · match t, h1 with
    | [], _ => simp [List.isPrefixOf]
    | [a], _ => simp [List.isPrefixOf]
    | a :: b :: rest, h1 =>
      have hlen : (a :: b :: rest).length - ((a :: b :: rest).length - 2) = 2 := by
        simp only [List.length_cons]; omega
      rw [hlen]
      by_cases h2 : a = 'n' ∧ b = 'o'
      · obtain ⟨ha, hb⟩ := h2
        subst ha hb
        simp [h1, List.isPrefixOf]
      · have h3 : ¬ (List.take 2 (a :: b :: rest) = ['n', 'o']) := by
          intro h
          simp only [List.take_succ_cons, List.take_zero, List.cons.injEq, and_true] at h
          exact h2 h
        have h5 : List.isPrefixOf ['n', 'o'] (a :: b :: rest) = false := by
          simp only [List.isPrefixOf, Bool.and_true, Bool.and_eq_false_imp, beq_iff_eq]
          intro ha
          simp only [beq_eq_false_iff_ne, ne_eq]
          intro hb
          exact h2 ⟨ha.symm, hb.symm⟩
        simp [h1, h5, h2]

theorem verboseOption_isSome_iff (defs : VerboseDefs) (g : Globals) (tok : QString) :
    (verboseOption defs g tok).isSome = true ↔ TokenValid defs tok := by
  unfold TokenValid
  rw [← verboseInit_isSome_iff]
  unfold verboseOption
  have hsnd := splitReverse_snd tok
  generalize splitReverse tok = p at hsnd
  obtain ⟨r, o⟩ := p
  simp only at hsnd
  subst hsnd
  generalize tokenNormalForm tok = t
  have d1 : qs "important" ≠ qs "help" := by decide
  have d2 : qs "extra" ≠ qs "help" := by decide
  have d3 : qs "default" ≠ qs "help" := by decide
  by_cases h1 : t = qs "help"
  · simp [h1]
  · by_cases h2 : t = qs "important"
    · simp [h2, d1]
    · by_cases h3 : t = qs "extra"
      · simp [h3, d2]
      · by_cases h4 : t = qs "default"
        · subst h4
          simp only [h1, h2, h3, if_false, if_true]
          split <;> simp [d3]
        · simp only [h1, h2, h3, h4, if_false, false_or, not_false_eq_true, and_true, ne_eq]
          cases hv : QMap.value (verboseInit defs) t with
          | none => simp
          | some item =>
            simp only [Option.isSome_some, iff_true]
            split
            · rfl
            · split
              · split <;> rfl
              · rfl

theorem verboseOption_user (defs : VerboseDefs) (g g' : Globals) (tok : QString)
    (h : verboseOption defs g tok = some g') :
    g'.userDefaultValueInt = g.userDefaultValueInt ∧
    g'.userDefaultValueStr = g.userDefaultValueStr ∧
    g'.haveUserDefaultValues = g.haveUserDefaultValues := by
  unfold verboseOption at h
  generalize splitReverse tok = p at h
  obtain ⟨r, o⟩ := p
  simp only at h
  split at h
  · cases h
  · split at h
    · cases h; exact ⟨rfl, rfl, rfl⟩
    · split at h
      · cases h; exact ⟨rfl, rfl, rfl⟩
      · split at h
        · split at h <;> (cases h; exact ⟨rfl, rfl, rfl⟩)
        · split at h
          · split at h
            · cases h; exact ⟨rfl, rfl, rfl⟩
            · split at h
              · split at h <;> (cases h; exact ⟨rfl, rfl, rfl⟩)
              · cases h; exact ⟨rfl, rfl, rfl⟩
          · cases h

/-! ## The loop over the tokens -/

theorem verboseLoop_fst_iff (defs : VerboseDefs) (ts : List QString) (g : Globals) :
    (verboseLoop defs ts g).1 = true ↔ ∀ t ∈ ts, TokenValid defs t := by
  induction ts generalizing g with
  | nil => simp [verboseLoop]
  | cons t rest ih =>
    simp only [verboseLoop, List.mem_cons, forall_eq_or_imp]
    rw [← verboseOption_isSome_iff defs g t]
    cases hv : verboseOption defs g t with
    | none => simp
    | some g' => simp [ih g']

theorem verboseLoop_user (defs : VerboseDefs) (ts : List QString) (g : Globals) :
    (verboseLoop defs ts g).2.userDefaultValueInt = g.userDefaultValueInt ∧
    (verboseLoop defs ts g).2.userDefaultValueStr = g.userDefaultValueStr ∧
    (verboseLoop defs ts g).2.haveUserDefaultValues = g.haveUserDefaultValues := by
  induction ts generalizing g with
  | nil => simp [verboseLoop]
  | cons t rest ih =>
    simp only [verboseLoop]
    cases hv : verboseOption defs g t with
    | none => simp
    | some g' =>
      obtain ⟨h1, h2, h3⟩ := verboseOption_user defs g g' t hv
      obtain ⟨i1, i2, i3⟩ := ih g'
      exact ⟨i1.trans h1, i2.trans h2, i3.trans h3⟩

theorem verboseLoop_append (defs : VerboseDefs) (ts : List QString) (w : QString)
    (g gP : Globals) (h : verboseLoop defs ts g = (true, gP)) :
    verboseLoop defs (ts ++ [w]) g = verboseLoop defs [w] gP := by
  induction ts generalizing g with
  | nil =>
    simp only [verboseLoop, Prod.mk.injEq, true_and] at h
    subst h
    rfl
  | cons t rest ih =>
    simp only [verboseLoop, List.cons_append] at h ⊢
    cases hv : verboseOption defs g t with
    | none => rw [hv] at h; simp at h
    | some g' =>
      rw [hv] at h
      exact ih g' h

/-! ## A registry name as a token -/

theorem not_controlWord (n : QString) (h : controlWords.contains n = false) :
    n ≠ qs "help" ∧ n ≠ qs "important" ∧ n ≠ qs "extra" ∧ n ≠ qs "default" := by
  simp only [controlWords, List.contains_eq_any_beq, List.any_cons, List.any_nil,
    Bool.or_false, Bool.or_eq_false_iff, beq_eq_false_iff_ne, ne_eq] at h
  exact h

theorem splitReverse_plain (n : QString) (hl : QString.toLower n = n)
    (hp : plainName n = true) : splitReverse n = (false, n) := by
  unfold splitReverse
  simp only [hl]
  simp only [plainName, Bool.and_eq_true, Bool.or_eq_true, beq_iff_eq, bne_iff_ne, ne_eq] at hp
  have h : ¬ (n ≠ qs "none" ∧ QString.left n 2 = qs "no") := by
    rintro ⟨h1, h2⟩
    rcases hp.1.2 with h3 | h3
    · exact h1 h3
    · exact h3 h2
  simp [h]

theorem splitReverse_inverted (n : QString) (hl : QString.toLower n = n)
    (hp : invertibleName n = true) : splitReverse (qs "no" ++ n) = (true, n) := by
  have e1 : qs "no" = ['n', 'o'] := rfl
  have e2 : qs "none" = ['n', 'o', 'n', 'e'] := rfl
  have e3 : qs "ne" = ['n', 'e'] := rfl
  have e4 : QString.toLower ['n', 'o'] = ['n', 'o'] := by decide
  unfold splitReverse
  simp only [invertibleName, Bool.and_eq_true, bne_iff_ne, ne_eq, e3] at hp
  have hne : n ≠ ['n', 'e'] := hp.1.2
  simp only [e1, e2, QString.toLower_append, hl, e4, QString.left, QString.right]
  have hlen : (['n', 'o'] ++ n).length - ((['n', 'o'] ++ n).length - 2) = 2 := by
    simp only [List.length_append, List.length_cons, List.length_nil]; omega
  rw [hlen]
  simp [hne]

theorem verboseOption_plain (defs : VerboseDefs) (g : Globals) (X : VerboseDef)
    (hX : IsVerboseEntry defs X) (hp : plainName X.name = true) :
    verboseOption defs g X.name =
      some (if X.additive then
              (if g.verboseMask &&& X.mask = 0 then
                { g with verboseMask := g.verboseMask ||| X.mask
                         verboseString := g.verboseString ++ ' ' :: X.name }
               else g)
            else { g with verboseMask := X.mask, verboseString := X.name }) := by
  have hl := (verboseInit_value defs X.name X hX).2.1
  have hc : controlWords.contains X.name = false := by
    simp only [plainName, Bool.and_eq_true, Bool.not_eq_true'] at hp
    exact hp.2
  obtain ⟨c1, c2, c3, c4⟩ := not_controlWord _ hc
  unfold verboseOption
  rw [splitReverse_plain _ hl hp]
  unfold IsVerboseEntry at hX
  simp only [c1, c2, c3, c4, if_false, hX]
  cases X.additive
  · simp
  · by_cases hm : g.verboseMask &&& X.mask = 0 <;> simp [hm]

theorem verboseOption_inverted (defs : VerboseDefs) (g : Globals) (X : VerboseDef)
    (hX : IsVerboseEntry defs X) (hp : invertibleName X.name = true) :
    verboseOption defs g (qs "no" ++ X.name) =
      some { g with verboseMask := g.verboseMask &&& not64 X.mask
                    verboseString :=
                      QString.remove g.verboseString (' ' :: X.name)
                        ++ qs " no" ++ X.name } := by
  have hl := (verboseInit_value defs X.name X hX).2.1
  have hc : controlWords.contains X.name = false := by
    simp only [invertibleName, Bool.and_eq_true, Bool.not_eq_true'] at hp
    exact hp.2
  obtain ⟨c1, c2, c3, c4⟩ := not_controlWord _ hc
  unfold verboseOption
  rw [splitReverse_inverted _ hl hp]
  unfold IsVerboseEntry at hX
  simp only [c1, c2, c3, c4, if_false, hX, if_true]

/-! ## The whole call -/

theorem verboseFinish_true (g : Globals) :
    (verboseFinish (true, g)).1 = GENERIC_EXIT_OK ∧
    (verboseFinish (true, g)).2.verboseMask = g.verboseMask ∧
    (verboseFinish (true, g)).2.verboseString = g.verboseString := by
  simp only [verboseFinish]
  split <;> exact ⟨rfl, rfl, rfl⟩

theorem verboseFinish_fst (r : Bool × Globals) :
    (verboseFinish r).1 = GENERIC_EXIT_OK ↔ r.1 = true := by
  obtain ⟨b, g⟩ := r
  cases b
  · simp [verboseFinish]
  · simp [verboseFinish_true]

theorem verboseArgParse_ok_iff (defs : VerboseDefs) (g : Globals) (arg : QString) :
    (verboseArgParse defs g arg).1 = GENERIC_EXIT_OK ↔
      (QString.startsWith arg '-' = false ∧
        ∀ t ∈ QString.splitNonWord arg, TokenValid defs t) := by
  unfold verboseArgParse
  cases h : QString.startsWith arg '-'
  · simp only [Bool.false_eq_true, if_false, true_and]
    rw [verboseFinish_fst, verboseLoop_fst_iff]
  · simp

theorem not_tokenValid_nil (defs : VerboseDefs)
    (hempty : QMap.value (verboseInit defs) [] = none) : ¬ TokenValid defs [] := by
  intro h
  have e : tokenNormalForm [] = [] := by decide
  unfold TokenValid at h
  rw [e] at h
  rcases h.1 with h1 | h1 | h1 | h1
  · exact absurd h1 (by decide)
  · exact absurd h1 (by decide)
  · exact absurd h1 (by decide)
  · have := (verboseInit_isSome_iff defs []).mpr h1
    rw [hempty] at this
    simp at this

theorem verboseArgParse_append (defs : VerboseDefs) (g : Globals) (P w : QString)
    (hempty : QMap.value (verboseInit defs) [] = none)
    (hP : (verboseArgParse defs g P).1 = GENERIC_EXIT_OK)
    (hw : w.all isWordChar = true) :
    ∃ gP, verboseLoop defs (QString.splitNonWord P) (verboseReset defs g) = (true, gP) ∧
      verboseArgParse defs g P = verboseFinish (true, gP) ∧
      verboseArgParse defs g (P ++ ',' :: w) = verboseFinish (verboseLoop defs [w] gP) := by
  obtain ⟨hs, hv⟩ := (verboseArgParse_ok_iff defs g P).mp hP
  have hloop := (verboseLoop_fst_iff defs (QString.splitNonWord P) (verboseReset defs g)).mpr hv
  have hnil : [] ∉ QString.splitNonWord P := fun hm => not_tokenValid_nil defs hempty (hv [] hm)
  have hend : endsInSep P false = false := by
    cases hE : endsInSep P false with
    | false => rfl
    | true => exact absurd (splitAux_nil_mem P [] false hE (by simp)) hnil
  have hne : P ≠ [] := by
    intro hp; subst hp
    exact hnil (by simp [QString.splitNonWord, QString.splitAux])
  have hs2 : QString.startsWith (P ++ ',' :: w) '-' = false := by
    cases P with
    | nil => exact absurd rfl hne
    | cons c cs => simpa [QString.startsWith] using hs
  have hsplit : QString.splitNonWord (P ++ ',' :: w) = QString.splitNonWord P ++ [w] :=
    splitAux_append_word P w [] false ',' (by decide) hw hend
  refine ⟨(verboseLoop defs (QString.splitNonWord P) (verboseReset defs g)).2, ?_, ?_, ?_⟩
  · rw [← hloop]
  · unfold verboseArgParse
    simp only [hs, Bool.false_eq_true, if_false]
    rw [← hloop]
  · unfold verboseArgParse
    simp only [hs2, Bool.false_eq_true, if_false, hsplit]
    rw [verboseLoop_append defs _ w _ _ (by rw [← hloop])]

theorem verboseLoop_cons (defs : VerboseDefs) (t : QString) (ts : List QString)
    (g g' : Globals) (h : verboseOption defs g t = some g') :
    verboseLoop defs (t :: ts) g = verboseLoop defs ts g' := by
  simp [verboseLoop, h]

theorem verboseArgParse_eq_loop (defs : VerboseDefs) (g : Globals) (arg : QString)
    (ts : List QString) (h1 : QString.startsWith arg '-' = false)
    (h2 : QString.splitNonWord arg = ts) :
    verboseArgParse defs g arg
      = verboseFinish (verboseLoop defs ts (verboseReset defs g)) := by
  simp [verboseArgParse, h1, h2]

theorem lor_lor_self (m x : Nat) : m ||| x ||| x = m ||| x := by
  rw [Nat.lor_assoc, Nat.or_self]

/-! ## C1: re-parsing the description -/

/-- C1, as stated, fails: with the sample table, `verboseArgParse` accepts
    "general,record,noaudio" and leaves the description " general record noaudio"
    with mask 6; that description begins with a space, so its first token is
    empty and `verboseArgParse` rejects it, leaving the default mask 2. -/
theorem verboseArgParse_description_rejected :
    (verboseArgParse sampleDefs (initialGlobals sampleDefs)
      (qs "general,record,noaudio")).1 = GENERIC_EXIT_OK ∧
    (verboseArgParse sampleDefs (initialGlobals sampleDefs)
      (qs "general,record,noaudio")).2.verboseString = qs " general record noaudio" ∧
    (verboseArgParse sampleDefs (initialGlobals sampleDefs)
      (qs "general,record,noaudio")).2.verboseMask = 6 ∧
    (verboseArgParse sampleDefs
      (verboseArgParse sampleDefs (initialGlobals sampleDefs)
        (qs "general,record,noaudio")).2
      (verboseArgParse sampleDefs (initialGlobals sampleDefs)
        (qs "general,record,noaudio")).2.verboseString).1
      = GENERIC_EXIT_INVALID_CMDLINE ∧
    (verboseArgParse sampleDefs
      (verboseArgParse sampleDefs (initialGlobals sampleDefs)
        (qs "general,record,noaudio")).2
      (verboseArgParse sampleDefs (initialGlobals sampleDefs)
        (qs "general,record,noaudio")).2.verboseString).2.verboseMask = 2 := by
  decide

/-- C1, amended: in every table that holds "general" and "record" as additive
    entries and holds "audio", and from any globals, `verboseArgParse` accepts
    "general,record,noaudio"; parsing the description it produced, once
    normalised as `logPropagateCalc` and `verboseHelp` normalise it
    (`verboseMaskArg`), returns OK and yields the same `verboseMask`. -/
theorem verboseArgParse_reparse_normalised (defs : VerboseDefs) (g : Globals)
    (G R A : VerboseDef)
    (hG : QMap.value (verboseInit defs) (qs "general") = some G) (hGa : G.additive = true)
    (hR : QMap.value (verboseInit defs) (qs "record") = some R) (hRa : R.additive = true)
    (hA : QMap.value (verboseInit defs) (qs "audio") = some A) :
    (verboseArgParse defs g (qs "general,record,noaudio")).1 = GENERIC_EXIT_OK ∧
    (verboseArgParse defs (verboseArgParse defs g (qs "general,record,noaudio")).2
      (verboseMaskArg
        (verboseArgParse defs g (qs "general,record,noaudio")).2.verboseString)).1
      = GENERIC_EXIT_OK ∧
    (verboseArgParse defs (verboseArgParse defs g (qs "general,record,noaudio")).2
      (verboseMaskArg
        (verboseArgParse defs g (qs "general,record,noaudio")).2.verboseString)).2.verboseMask
      = (verboseArgParse defs g (qs "general,record,noaudio")).2.verboseMask := by
  have nG := (verboseInit_value defs _ G hG).1
  have nR := (verboseInit_value defs _ R hR).1
  have nA := (verboseInit_value defs _ A hA).1
  have stepG : ∀ g : Globals, verboseOption defs g (qs "general") =
      some (if g.verboseMask &&& G.mask = 0 then
              { g with verboseMask := g.verboseMask ||| G.mask
                       verboseString := g.verboseString ++ qs " general" }
            else g) := by
    intro g
    have h := verboseOption_plain defs g G (by unfold IsVerboseEntry; rw [nG]; exact hG)
      (by rw [nG]; decide)
    rw [nG, hGa] at h
    exact h
  have stepR : ∀ g : Globals, verboseOption defs g (qs "record") =
      some (if g.verboseMask &&& R.mask = 0 then
              { g with verboseMask := g.verboseMask ||| R.mask
                       verboseString := g.verboseString ++ qs " record" }
            else g) := by
    intro g
    have h := verboseOption_plain defs g R (by unfold IsVerboseEntry; rw [nR]; exact hR)
      (by rw [nR]; decide)
    rw [nR, hRa] at h
    exact h
  have stepA : ∀ g : Globals, verboseOption defs g (qs "noaudio") =
      some { g with verboseMask := g.verboseMask &&& not64 A.mask
                    verboseString :=
                      QString.remove g.verboseString (qs " audio") ++ qs " noaudio" } := by
    intro g
    have h := verboseOption_inverted defs g A (by unfold IsVerboseEntry; rw [nA]; exact hA)
      (by rw [nA]; decide)
    have a1 : qs "no" ++ qs "audio" = qs "noaudio" := rfl
    have a2 : ∀ x : QString, x ++ qs " no" ++ qs "audio" = x ++ qs " noaudio" :=
      fun x => by rw [List.append_assoc]; rfl
    have a3 : ' ' :: qs "audio" = qs " audio" := rfl
    rw [nA, a1, a2, a3] at h
    exact h
  have fin1 : ∀ g : Globals, (verboseFinish (true, g)).1 = GENERIC_EXIT_OK :=
    fun g => (verboseFinish_true g).1
  have fin2 : ∀ g : Globals, (verboseFinish (true, g)).2.verboseMask = g.verboseMask :=
    fun g => (verboseFinish_true g).2.1
  have fin3 : ∀ g : Globals, (verboseFinish (true, g)).2.verboseString = g.verboseString :=
    fun g => (verboseFinish_true g).2.2
  rw [verboseArgParse_eq_loop defs g (qs "general,record,noaudio")
    [qs "general", qs "record", qs "noaudio"] (by decide) (by decide)]
  by_cases c1 : verboseDefaultInt defs &&& G.mask = 0
  · by_cases c2 : (verboseDefaultInt defs ||| G.mask) &&& R.mask = 0
    · simp only [verboseLoop, stepG, stepR, stepA, verboseReset, c1, c2, if_true, if_false,
        fin1, fin2, fin3, true_and]
      rw [verboseArgParse_eq_loop defs _ _
        [qs "general", qs "general", qs "record", qs "noaudio"] (by decide) (by decide)]
      by_cases c3 : (verboseDefaultInt defs ||| G.mask) &&& G.mask = 0
      · simp only [verboseLoop, stepG, stepR, stepA, verboseReset, c1, c2, c3, if_true,
          if_false, fin1, fin2, fin3, true_and, lor_lor_self]
      · simp only [verboseLoop, stepG, stepR, stepA, verboseReset, c1, c2, c3, if_true,
          if_false, fin1, fin2, fin3, true_and]
    · simp only [verboseLoop, stepG, stepR, stepA, verboseReset, c1, c2, if_true, if_false,
        fin1, fin2, fin3, true_and]
      rw [verboseArgParse_eq_loop defs _ _
        [qs "general", qs "general", qs "noaudio"] (by decide) (by decide)]
      by_cases c3 : (verboseDefaultInt defs ||| G.mask) &&& G.mask = 0
      · simp only [verboseLoop, stepG, stepR, stepA, verboseReset, c1, c2, c3, if_true,
          if_false, fin1, fin2, fin3, true_and, lor_lor_self]
      · simp only [verboseLoop, stepG, stepR, stepA, verboseReset, c1, c2, c3, if_true,
          if_false, fin1, fin2, fin3, true_and]
  · by_cases c2 : verboseDefaultInt defs &&& R.mask = 0
    · simp only [verboseLoop, stepG, stepR, stepA, verboseReset, c1, c2, if_true, if_false,
        fin1, fin2, fin3, true_and]
      rw [verboseArgParse_eq_loop defs _ _
        [qs "general", qs "record", qs "noaudio"] (by decide) (by decide)]
      simp only [verboseLoop, stepG, stepR, stepA, verboseReset, c1, c2, if_true,
        if_false, fin1, fin2, fin3, true_and]
    · simp only [verboseLoop, stepG, stepR, stepA, verboseReset, c1, c2, if_true, if_false,
        fin1, fin2, fin3, true_and]
      rw [verboseArgParse_eq_loop defs _ _
        [qs "general", qs "noaudio"] (by decide) (by decide)]
      simp only [verboseLoop, stepG, stepR, stepA, verboseReset, c1, c2, if_true,
        if_false, fin1, fin2, fin3, true_and]

/-- C1, amended, at the sample table: "general,record,noaudio" gives mask 6 and
    the description " general record noaudio", whose normal form
    "general,record,noaudio" parses to mask 6 again. -/
theorem verboseArgParse_reparse_normalised_witness :
    (QMap.value (verboseInit sampleDefs) (qs "general")
        = some ⟨2, qs "general", true, qs "General info"⟩ ∧
      QMap.value (verboseInit sampleDefs) (qs "record")
        = some ⟨4, qs "record", true, qs "Recording related messages"⟩ ∧
      QMap.value (verboseInit sampleDefs) (qs "audio")
        = some ⟨0x400, qs "audio", true, qs "Audio related messages"⟩) ∧
    (verboseArgParse sampleDefs (initialGlobals sampleDefs)
      (qs "general,record,noaudio")).1 = GENERIC_EXIT_OK ∧
    (verboseArgParse sampleDefs
      (verboseArgParse sampleDefs (initialGlobals sampleDefs)
        (qs "general,record,noaudio")).2
      (verboseMaskArg
        (verboseArgParse sampleDefs (initialGlobals sampleDefs)
          (qs "general,record,noaudio")).2.verboseString)).1 = GENERIC_EXIT_OK ∧
    (verboseArgParse sampleDefs
      (verboseArgParse sampleDefs (initialGlobals sampleDefs)
        (qs "general,record,noaudio")).2
      (verboseMaskArg
        (verboseArgParse sampleDefs (initialGlobals sampleDefs)
          (qs "general,record,noaudio")).2.verboseString)).2.verboseMask
      = (verboseArgParse sampleDefs (initialGlobals sampleDefs)
          (qs "general,record,noaudio")).2.verboseMask :=
  ⟨⟨by decide, by decide, by decide⟩,
    verboseArgParse_reparse_normalised sampleDefs (initialGlobals sampleDefs)
      ⟨2, qs "general", true, qs "General info"⟩
      ⟨4, qs "record", true, qs "Recording related messages"⟩
      ⟨0x400, qs "audio", true, qs "Audio related messages"⟩
      (by decide) rfl (by decide) rfl (by decide)⟩

/-! ## C2: an argument that begins with a dash -/

/-- C2, as stated, fails: with the sample table, after "all,nodatabase" has set
    the mask 0xfffffffffffeffff and the description "all nodatabase", the call
    `verboseArgParse("-bad")` returns GENERIC_EXIT_INVALID_CMDLINE and leaves
    the mask 2 and the description " general": both were changed. -/
theorem verboseArgParse_dash_changes_selection :
    (verboseArgParse sampleDefs (initialGlobals sampleDefs) (qs "all,nodatabase")).1
      = GENERIC_EXIT_OK ∧
    (verboseArgParse sampleDefs (initialGlobals sampleDefs)
      (qs "all,nodatabase")).2.verboseMask = 0xfffffffffffeffff ∧
    (verboseArgParse sampleDefs (initialGlobals sampleDefs)
      (qs "all,nodatabase")).2.verboseString = qs "all nodatabase" ∧
    (verboseArgParse sampleDefs
      (verboseArgParse sampleDefs (initialGlobals sampleDefs) (qs "all,nodatabase")).2
      (qs "-bad")).1 = GENERIC_EXIT_INVALID_CMDLINE ∧
    (verboseArgParse sampleDefs
      (verboseArgParse sampleDefs (initialGlobals sampleDefs) (qs "all,nodatabase")).2
      (qs "-bad")).2.verboseMask = 2 ∧
    (verboseArgParse sampleDefs
      (verboseArgParse sampleDefs (initialGlobals sampleDefs) (qs "all,nodatabase")).2
      (qs "-bad")).2.verboseString = qs " general" := by
  decide

/-- C2, amended: for every argument that begins with a dash `verboseArgParse`
    returns GENERIC_EXIT_INVALID_CMDLINE, leaves `verboseMask` and
    `verboseString` at the built-in default (VB_GENERAL, " general") whatever an
    earlier parse had set them to, and leaves the remembered user default as it
    was. -/
theorem verboseArgParse_dash (defs : VerboseDefs) (g : Globals) (arg : QString)
    (h : QString.startsWith arg '-' = true) :
    verboseArgParse defs g arg =
      (GENERIC_EXIT_INVALID_CMDLINE,
        { g with verboseMask := verboseDefaultInt defs
                 verboseString := verboseDefaultStr }) := by
  simp [verboseArgParse, h, verboseReset]

/-- C2, amended, at "-bad" after "all,nodatabase" with the sample table. -/
theorem verboseArgParse_dash_witness :
    QString.startsWith (qs "-bad") '-' = true ∧
    verboseArgParse sampleDefs
        (verboseArgParse sampleDefs (initialGlobals sampleDefs) (qs "all,nodatabase")).2
        (qs "-bad") =
      (GENERIC_EXIT_INVALID_CMDLINE,
        { verboseMask := 2, verboseString := qs " general",
          userDefaultValueInt := 0xfffffffffffeffff,
          userDefaultValueStr := qs "all nodatabase",
          haveUserDefaultValues := true }) :=
  ⟨by decide, verboseArgParse_dash sampleDefs _ (qs "-bad") (by decide)⟩

/-! ## C3: "none" followed by an additive entry -/

/-- C3: when the table holds the non-additive entry "none" with mask 0, then for
    every additive entry `X` (whose name is a plain token) the call
    `verboseArgParse("none," + X.name)` returns OK and leaves `verboseMask`
    equal to `X.mask`: the default bit is gone unless it is a bit of `X`. -/
theorem verboseArgParse_none_then_additive (defs : VerboseDefs) (g : Globals)
    (N X : VerboseDef)
    (hN : QMap.value (verboseInit defs) (qs "none") = some N)
    (hNa : N.additive = false) (hN0 : N.mask = 0)
    (hX : IsVerboseEntry defs X) (hXa : X.additive = true)
    (hp : plainName X.name = true) :
    (verboseArgParse defs g (qs "none," ++ X.name)).1 = GENERIC_EXIT_OK ∧
    (verboseArgParse defs g (qs "none," ++ X.name)).2.verboseMask = X.mask := by
  have nN := (verboseInit_value defs _ N hN).1
  have hw : X.name.all isWordChar = true := by
    simp only [plainName, Bool.and_eq_true] at hp
    exact hp.1.1
  have stepN : ∀ g : Globals, verboseOption defs g (qs "none") =
      some { g with verboseMask := N.mask, verboseString := N.name } := by
    intro g
    have h := verboseOption_plain defs g N (by unfold IsVerboseEntry; rw [nN]; exact hN)
      (by rw [nN]; decide)
    rw [hNa] at h
    rw [nN] at h ⊢
    exact h
  have hsplit : QString.splitNonWord (qs "none," ++ X.name) = [qs "none", X.name] :=
    splitAux_append_word (qs "none") X.name [] false ',' (by decide) hw (by decide)
  have hs : QString.startsWith (qs "none," ++ X.name) '-' = false := rfl
  rw [verboseArgParse_eq_loop defs g _ _ hs hsplit,
    verboseLoop_cons defs _ _ _ _ (stepN _),
    verboseLoop_cons defs _ _ _ _ (verboseOption_plain defs _ X hX hp)]
  simp only [verboseLoop, hXa, if_true, hN0, Nat.zero_and, Nat.zero_or]
  exact ⟨(verboseFinish_true _).1, (verboseFinish_true _).2.1⟩

/-- C3 at the sample table: "none,jobqueue" yields exactly the jobqueue bit. -/
theorem verboseArgParse_none_then_additive_witness :
    (QMap.value (verboseInit sampleDefs) (qs "none")
        = some ⟨0, qs "none", false, qs "NO debug output"⟩ ∧
      IsVerboseEntry sampleDefs
        ⟨0x1000, qs "jobqueue", true, qs "JobQueue related messages"⟩ ∧
      plainName (qs "jobqueue") = true) ∧
    (verboseArgParse sampleDefs (initialGlobals sampleDefs) (qs "none,jobqueue")).1
      = GENERIC_EXIT_OK ∧
    (verboseArgParse sampleDefs (initialGlobals sampleDefs)
      (qs "none,jobqueue")).2.verboseMask = 0x1000 :=
  ⟨⟨by decide, by decide, by decide⟩,
    verboseArgParse_none_then_additive sampleDefs (initialGlobals sampleDefs)
      ⟨0, qs "none", false, qs "NO debug output"⟩
      ⟨0x1000, qs "jobqueue", true, qs "JobQueue related messages"⟩
      (by decide) rfl rfl (by decide) rfl (by decide)⟩

/-! ## C4: when the call returns OK -/

/-- C4: `verboseArgParse` returns GENERIC_EXIT_OK exactly when the argument
    does not begin with a dash and every token of the split, in its normal form
    (lower-cased, a leading "no" stripped unless the token is "none"), is
    "important", "extra", "default" or the name of a registry entry, and is not
    "help"; in every other case it returns GENERIC_EXIT_INVALID_CMDLINE. -/
theorem verboseArgParse_outcome (defs : VerboseDefs) (g : Globals) (arg : QString) :
    ((verboseArgParse defs g arg).1 = GENERIC_EXIT_OK ↔
      (QString.startsWith arg '-' = false ∧
        ∀ t ∈ QString.splitNonWord arg, TokenValid defs t)) ∧
    ((verboseArgParse defs g arg).1 ≠ GENERIC_EXIT_OK →
      (verboseArgParse defs g arg).1 = GENERIC_EXIT_INVALID_CMDLINE) := by
  refine ⟨verboseArgParse_ok_iff defs g arg, ?_⟩
  intro h
  cases hc : (verboseArgParse defs g arg).1 with
  | GENERIC_EXIT_OK => exact absurd hc h
  | GENERIC_EXIT_INVALID_CMDLINE => rfl

/-- C4 at the sample table: "general,NOaudio;Default" is accepted, since its
    tokens have the normal forms "general", "audio" and "default";
    "general,help" and "-general" are rejected. -/
theorem verboseArgParse_outcome_witness :
    (verboseArgParse sampleDefs (initialGlobals sampleDefs)
      (qs "general,NOaudio;Default")).1 = GENERIC_EXIT_OK ∧
    (verboseArgParse sampleDefs (initialGlobals sampleDefs)
      (qs "general,help")).1 = GENERIC_EXIT_INVALID_CMDLINE ∧
    (verboseArgParse sampleDefs (initialGlobals sampleDefs)
      (qs "-general")).1 = GENERIC_EXIT_INVALID_CMDLINE :=
  ⟨(verboseArgParse_outcome sampleDefs (initialGlobals sampleDefs)
      (qs "general,NOaudio;Default")).1.mpr ⟨by decide, by decide⟩,
    (verboseArgParse_outcome sampleDefs (initialGlobals sampleDefs)
      (qs "general,help")).2
      (fun h => absurd ((verboseArgParse_outcome sampleDefs (initialGlobals sampleDefs)
        (qs "general,help")).1.mp h).2 (by decide)),
    (verboseArgParse_outcome sampleDefs (initialGlobals sampleDefs)
      (qs "-general")).2
      (fun h => absurd ((verboseArgParse_outcome sampleDefs (initialGlobals sampleDefs)
        (qs "-general")).1.mp h).1 (by decide))⟩

/-! ## Bits and separators -/

theorem plainName_word (n : QString) (hp : plainName n = true) :
    n.all isWordChar = true := by
  simp only [plainName, Bool.and_eq_true] at hp
  exact hp.1.1

theorem invertibleName_word (n : QString) (hp : invertibleName n = true) :
    n.all isWordChar = true := by
  simp only [invertibleName, Bool.and_eq_true] at hp
  exact hp.1.1

theorem append_comma (P w : QString) : P ++ qs "," ++ w = P ++ ',' :: w := by
  rw [List.append_assoc]; rfl

theorem append_no (P w : QString) :
    P ++ qs ",no" ++ w = P ++ ',' :: (qs "no" ++ w) := by
  rw [List.append_assoc]; rfl

theorem and_singleBit (m x : Nat) (hx : SingleBit x) :
    m &&& x = 0 ∨ (m &&& x ≠ 0 ∧ m ||| x = m) := by
  obtain ⟨k, _, rfl⟩ := hx
  rw [Nat.and_two_pow]
  cases hb : m.testBit k with
  | false => left; simp
  | true =>
    right
    refine ⟨by simp, ?_⟩
    apply Nat.eq_of_testBit_eq
    intro i
    rw [Nat.testBit_lor, Nat.testBit_two_pow]
    by_cases hki : k = i
    · subst hki; simp [hb]
    · simp [hki]

theorem testBit_not64 (x i : Nat) (hi : i < 64) :
    (not64 x).testBit i = !x.testBit i := by
  unfold not64
  have h : x % 2 ^ 64 < 2 ^ 64 := Nat.mod_lt _ (by decide)
  have e : 2 ^ 64 - 1 - x % 2 ^ 64 = 2 ^ 64 - (x % 2 ^ 64 + 1) := by omega
  rw [e, Nat.testBit_two_pow_sub_succ h, Nat.testBit_mod_two_pow]
  simp [hi]

/-! ## C5: a non-additive entry -/

/-- C5: in a table without an empty name, for every non-additive entry `E`
    (whose name is a plain token) and every argument `P` that `verboseArgParse`
    accepts, `verboseArgParse(P + "," + E.name)` returns OK and leaves
    `verboseMask = E.mask` and `verboseString = E.name`, whatever `P` selected. -/
theorem verboseArgParse_nonadditive_replaces (defs : VerboseDefs) (g : Globals)
    (E : VerboseDef) (P : QString)
    (hempty : QMap.value (verboseInit defs) [] = none)
    (hE : IsVerboseEntry defs E) (hEa : E.additive = false)
    (hp : plainName E.name = true)
    (hP : (verboseArgParse defs g P).1 = GENERIC_EXIT_OK) :
    (verboseArgParse defs g (P ++ qs "," ++ E.name)).1 = GENERIC_EXIT_OK ∧
    (verboseArgParse defs g (P ++ qs "," ++ E.name)).2.verboseMask = E.mask ∧
    (verboseArgParse defs g (P ++ qs "," ++ E.name)).2.verboseString = E.name := by
  obtain ⟨gP, _, _, h3⟩ :=
    verboseArgParse_append defs g P E.name hempty hP (plainName_word _ hp)
  rw [append_comma, h3, verboseLoop_cons defs _ _ _ _ (verboseOption_plain defs gP E hE hp)]
  simp only [verboseLoop, hEa, Bool.false_eq_true, if_false]
  exact verboseFinish_true _

/-- C5 at the sample table: "general,record,noaudio,all" leaves the mask and the
    description of "all". -/
theorem verboseArgParse_nonadditive_replaces_witness :
    (QMap.value (verboseInit sampleDefs) [] = none ∧
      IsVerboseEntry sampleDefs
        ⟨0xffffffffffffffff, qs "all", false, qs "ALL available debug output"⟩ ∧
      plainName (qs "all") = true ∧
      (verboseArgParse sampleDefs (initialGlobals sampleDefs)
        (qs "general,record,noaudio")).1 = GENERIC_EXIT_OK) ∧
    ((verboseArgParse sampleDefs (initialGlobals sampleDefs)
        (qs "general,record,noaudio" ++ qs "," ++ qs "all")).1 = GENERIC_EXIT_OK ∧
      (verboseArgParse sampleDefs (initialGlobals sampleDefs)
        (qs "general,record,noaudio" ++ qs "," ++ qs "all")).2.verboseMask
        = 0xffffffffffffffff ∧
      (verboseArgParse sampleDefs (initialGlobals sampleDefs)
        (qs "general,record,noaudio" ++ qs "," ++ qs "all")).2.verboseString
        = qs "all") :=
  ⟨⟨by decide, by decide, by decide, by decide⟩,
    verboseArgParse_nonadditive_replaces sampleDefs (initialGlobals sampleDefs)
      ⟨0xffffffffffffffff, qs "all", false, qs "ALL available debug output"⟩
      (qs "general,record,noaudio") (by decide) (by decide) rfl (by decide) (by decide)⟩

/-! ## C6: an additive entry -/

/-- C6: in a table without an empty name, for every additive entry `X` whose
    mask is a single bit (and whose name is a plain token) and every argument
    `P` that `verboseArgParse` accepts: after `P + "," + X.name` every bit of
    `X.mask` is set in `verboseMask` and every other bit is as `P` left it, and
    `P + "," + X.name + "," + X.name` yields the same `verboseMask` and the same
    `verboseString` as `P + "," + X.name`. -/
theorem verboseArgParse_additive_ors (defs : VerboseDefs) (g : Globals)
    (X : VerboseDef) (P : QString)
    (hempty : QMap.value (verboseInit defs) [] = none)
    (hX : IsVerboseEntry defs X) (hXa : X.additive = true)
    (hbit : SingleBit X.mask) (hp : plainName X.name = true)
    (hP : (verboseArgParse defs g P).1 = GENERIC_EXIT_OK) :
    (verboseArgParse defs g (P ++ qs "," ++ X.name)).1 = GENERIC_EXIT_OK ∧
    (verboseArgParse defs g (P ++ qs "," ++ X.name)).2.verboseMask &&& X.mask = X.mask ∧
    (∀ i, X.mask.testBit i = false →
      (verboseArgParse defs g (P ++ qs "," ++ X.name)).2.verboseMask.testBit i
        = (verboseArgParse defs g P).2.verboseMask.testBit i) ∧
    (verboseArgParse defs g (P ++ qs "," ++ X.name ++ qs "," ++ X.name)).1
      = GENERIC_EXIT_OK ∧
    (verboseArgParse defs g (P ++ qs "," ++ X.name ++ qs "," ++ X.name)).2.verboseMask
      = (verboseArgParse defs g (P ++ qs "," ++ X.name)).2.verboseMask ∧
    (verboseArgParse defs g (P ++ qs "," ++ X.name ++ qs "," ++ X.name)).2.verboseString
      = (verboseArgParse defs g (P ++ qs "," ++ X.name)).2.verboseString := by
  have hw := plainName_word _ hp
  -- one more `X.name` after any accepted argument `Q`
  have key : ∀ Q : QString, (verboseArgParse defs g Q).1 = GENERIC_EXIT_OK →
      (verboseArgParse defs g (Q ++ qs "," ++ X.name)).1 = GENERIC_EXIT_OK ∧
      (verboseArgParse defs g (Q ++ qs "," ++ X.name)).2.verboseMask
        = (verboseArgParse defs g Q).2.verboseMask ||| X.mask ∧
      ((verboseArgParse defs g Q).2.verboseMask &&& X.mask ≠ 0 →
        (verboseArgParse defs g (Q ++ qs "," ++ X.name)).2.verboseString
          = (verboseArgParse defs g Q).2.verboseString) := by
    intro Q hQ
    obtain ⟨gQ, _, h2, h3⟩ := verboseArgParse_append defs g Q X.name hempty hQ hw
    rw [append_comma, h3, h2,
      verboseLoop_cons defs _ _ _ _ (verboseOption_plain defs gQ X hX hp)]
    simp only [verboseLoop, hXa, if_true]
    rw [(verboseFinish_true gQ).2.1, (verboseFinish_true gQ).2.2]
    rcases and_singleBit gQ.verboseMask X.mask hbit with h0 | ⟨h0, h1⟩
    · simp only [h0, if_true, ne_eq, not_true_eq_false, false_implies, and_true]
      exact ⟨(verboseFinish_true _).1, (verboseFinish_true _).2.1⟩
    · simp only [h0, if_false, h1]
      exact ⟨(verboseFinish_true _).1, (verboseFinish_true _).2.1,
        fun _ => (verboseFinish_true _).2.2⟩
  obtain ⟨k1, k2, _⟩ := key P hP
  obtain ⟨j1, j2, j3⟩ := key (P ++ qs "," ++ X.name) k1
  have hset : (verboseArgParse defs g (P ++ qs "," ++ X.name)).2.verboseMask &&& X.mask
      = X.mask := by
    rw [k2]
    apply Nat.eq_of_testBit_eq
    intro i
    simp only [Nat.testBit_land, Nat.testBit_lor]
    cases (verboseArgParse defs g P).2.verboseMask.testBit i <;>
      cases X.mask.testBit i <;> rfl
  refine ⟨k1, hset, ?_, j1, ?_, ?_⟩
  · intro i hi
    rw [k2, Nat.testBit_lor, hi, Bool.or_false]
  · rw [j2]
    apply Nat.eq_of_testBit_eq
    intro i
    have := congrArg (fun n => Nat.testBit n i) hset
    simp only [Nat.testBit_land] at this
    rw [Nat.testBit_lor]
    cases h1 : (verboseArgParse defs g (P ++ qs "," ++ X.name)).2.verboseMask.testBit i <;>
      cases h2 : X.mask.testBit i <;> simp_all
  · apply j3
    rw [hset]
    obtain ⟨k, _, hk⟩ := hbit
    rw [hk]
    exact Nat.pos_iff_ne_zero.mp (Nat.two_pow_pos k)

/-- C6 at the sample table, with `P` = "general,record" and `X` = jobqueue
    (bit 12). -/
theorem verboseArgParse_additive_ors_witness :
    (QMap.value (verboseInit sampleDefs) [] = none ∧
      IsVerboseEntry sampleDefs
        ⟨0x1000, qs "jobqueue", true, qs "JobQueue related messages"⟩ ∧
      plainName (qs "jobqueue") = true ∧
      (verboseArgParse sampleDefs (initialGlobals sampleDefs) (qs "general,record")).1
        = GENERIC_EXIT_OK) ∧
    ((verboseArgParse sampleDefs (initialGlobals sampleDefs)
        (qs "general,record" ++ qs "," ++ qs "jobqueue")).1 = GENERIC_EXIT_OK ∧
      (verboseArgParse sampleDefs (initialGlobals sampleDefs)
        (qs "general,record" ++ qs "," ++ qs "jobqueue")).2.verboseMask &&& 0x1000
        = 0x1000 ∧
      (∀ i, (0x1000 : Nat).testBit i = false →
        (verboseArgParse sampleDefs (initialGlobals sampleDefs)
          (qs "general,record" ++ qs "," ++ qs "jobqueue")).2.verboseMask.testBit i
          = (verboseArgParse sampleDefs (initialGlobals sampleDefs)
              (qs "general,record")).2.verboseMask.testBit i) ∧
      (verboseArgParse sampleDefs (initialGlobals sampleDefs)
        (qs "general,record" ++ qs "," ++ qs "jobqueue" ++ qs "," ++ qs "jobqueue")).1
        = GENERIC_EXIT_OK ∧
      (verboseArgParse sampleDefs (initialGlobals sampleDefs)
        (qs "general,record" ++ qs "," ++ qs "jobqueue" ++ qs "," ++ qs "jobqueue")
        ).2.verboseMask
        = (verboseArgParse sampleDefs (initialGlobals sampleDefs)
            (qs "general,record" ++ qs "," ++ qs "jobqueue")).2.verboseMask ∧
      (verboseArgParse sampleDefs (initialGlobals sampleDefs)
        (qs "general,record" ++ qs "," ++ qs "jobqueue" ++ qs "," ++ qs "jobqueue")
        ).2.verboseString
        = (verboseArgParse sampleDefs (initialGlobals sampleDefs)
            (qs "general,record" ++ qs "," ++ qs "jobqueue")).2.verboseString) :=
  ⟨⟨by decide, by decide, by decide, by decide⟩,
    verboseArgParse_additive_ors sampleDefs (initialGlobals sampleDefs)
      ⟨0x1000, qs "jobqueue", true, qs "JobQueue related messages"⟩
      (qs "general,record") (by decide) (by decide) rfl ⟨12, by decide, by decide⟩
      (by decide) (by decide)⟩

/-! ## C7: an inverted entry -/

/-- C7: in a table without an empty name, for every entry `X` (additive or
    not; its name made of word characters, not a control word and not "ne") and
    every argument `P` that `verboseArgParse` accepts: after `P + ",no" + X.name`
    the call returns OK, `verboseMask` is the mask after `P` with the bits of
    `X.mask` cleared, and `verboseString` ends with " no" + `X.name`.  With
    `P` = "all" and `X` = database this is the case "all,nodatabase". -/
theorem verboseArgParse_inverted_clears (defs : VerboseDefs) (g : Globals)
    (X : VerboseDef) (P : QString)
    (hempty : QMap.value (verboseInit defs) [] = none)
    (hX : IsVerboseEntry defs X)
    (hp : invertibleName X.name = true)
    (hP : (verboseArgParse defs g P).1 = GENERIC_EXIT_OK) :
    (verboseArgParse defs g (P ++ qs ",no" ++ X.name)).1 = GENERIC_EXIT_OK ∧
    (verboseArgParse defs g (P ++ qs ",no" ++ X.name)).2.verboseMask
      = (verboseArgParse defs g P).2.verboseMask &&& not64 X.mask ∧
    (∀ i, i < 64 →
      (verboseArgParse defs g (P ++ qs ",no" ++ X.name)).2.verboseMask.testBit i
        = ((verboseArgParse defs g P).2.verboseMask.testBit i && !X.mask.testBit i)) ∧
    (qs " no" ++ X.name) <:+
      (verboseArgParse defs g (P ++ qs ",no" ++ X.name)).2.verboseString := by
  have hw : (qs "no" ++ X.name).all isWordChar = true := by
    rw [List.all_append, invertibleName_word _ hp]; rfl
  obtain ⟨gP, _, h2, h3⟩ :=
    verboseArgParse_append defs g P (qs "no" ++ X.name) hempty hP hw
  rw [append_no, h3, h2,
    verboseLoop_cons defs _ _ _ _ (verboseOption_inverted defs gP X hX hp)]
  simp only [verboseLoop]
  rw [(verboseFinish_true gP).2.1, (verboseFinish_true _).2.1, (verboseFinish_true _).2.2]
  refine ⟨(verboseFinish_true _).1, rfl, ?_, ?_⟩
  · intro i hi
    rw [Nat.testBit_land, testBit_not64 _ _ hi]
  · refine ⟨QString.remove gP.verboseString (' ' :: X.name), ?_⟩
    simp only [List.append_assoc]

/-- C7 at the sample table: "all,nodatabase" yields every bit of "all" except
    the database bit, 0xfffffffffffeffff, and the description "all nodatabase". -/
theorem verboseArgParse_inverted_clears_witness :
    (QMap.value (verboseInit sampleDefs) [] = none ∧
      IsVerboseEntry sampleDefs
        ⟨0x10000, qs "database", true, qs "Display all SQL commands executed"⟩ ∧
      invertibleName (qs "database") = true ∧
      (verboseArgParse sampleDefs (initialGlobals sampleDefs) (qs "all")).1
        = GENERIC_EXIT_OK) ∧
    ((verboseArgParse sampleDefs (initialGlobals sampleDefs)
        (qs "all" ++ qs ",no" ++ qs "database")).1 = GENERIC_EXIT_OK ∧
      (verboseArgParse sampleDefs (initialGlobals sampleDefs)
        (qs "all" ++ qs ",no" ++ qs "database")).2.verboseMask
        = (verboseArgParse sampleDefs (initialGlobals sampleDefs) (qs "all")).2.verboseMask
            &&& not64 0x10000 ∧
      (∀ i, i < 64 →
        (verboseArgParse sampleDefs (initialGlobals sampleDefs)
          (qs "all" ++ qs ",no" ++ qs "database")).2.verboseMask.testBit i
          = ((verboseArgParse sampleDefs (initialGlobals sampleDefs)
              (qs "all")).2.verboseMask.testBit i && !(0x10000 : Nat).testBit i)) ∧
      (qs " no" ++ qs "database") <:+
        (verboseArgParse sampleDefs (initialGlobals sampleDefs)
          (qs "all" ++ qs ",no" ++ qs "database")).2.verboseString) ∧
    ((verboseArgParse sampleDefs (initialGlobals sampleDefs)
        (qs "all,nodatabase")).2.verboseMask = 0xfffffffffffeffff ∧
      (verboseArgParse sampleDefs (initialGlobals sampleDefs)
        (qs "all,nodatabase")).2.verboseString = qs "all nodatabase") :=
  ⟨⟨by decide, by decide, by decide, by decide⟩,
    verboseArgParse_inverted_clears sampleDefs (initialGlobals sampleDefs)
      ⟨0x10000, qs "database", true, qs "Display all SQL commands executed"⟩ (qs "all")
      (by decide) (by decide) (by decide) (by decide),
    by decide⟩

/-! ## C8: the remembered default -/

theorem verboseArgParse_fst_indep (defs : VerboseDefs) (g g' : Globals) (arg : QString) :
    (verboseArgParse defs g arg).1 = (verboseArgParse defs g' arg).1 := by
  have h1 := verboseArgParse_ok_iff defs g arg
  have h2 := verboseArgParse_ok_iff defs g' arg
  cases c1 : (verboseArgParse defs g arg).1 <;> cases c2 : (verboseArgParse defs g' arg).1
  · rfl
  · rw [c1] at h1; rw [c2] at h2
    exact absurd (h2.mpr (h1.mp rfl)) (by decide)
  · rw [c1] at h1; rw [c2] at h2
    exact absurd (h1.mpr (h2.mp rfl)) (by decide)
  · rfl

theorem verboseArgParse_user (defs : VerboseDefs) (g : Globals) (arg : QString) :
    ((verboseArgParse defs g arg).1 = GENERIC_EXIT_INVALID_CMDLINE ∨
        g.haveUserDefaultValues = true →
      (verboseArgParse defs g arg).2.userDefaultValueInt = g.userDefaultValueInt ∧
      (verboseArgParse defs g arg).2.userDefaultValueStr = g.userDefaultValueStr ∧
      (verboseArgParse defs g arg).2.haveUserDefaultValues = g.haveUserDefaultValues) ∧
    ((verboseArgParse defs g arg).1 = GENERIC_EXIT_OK →
        g.haveUserDefaultValues = false →
      (verboseArgParse defs g arg).2.userDefaultValueInt
        = (verboseArgParse defs g arg).2.verboseMask ∧
      (verboseArgParse defs g arg).2.userDefaultValueStr
        = (verboseArgParse defs g arg).2.verboseString ∧
      (verboseArgParse defs g arg).2.haveUserDefaultValues = true) := by
  unfold verboseArgParse
  cases hs : QString.startsWith arg '-'
  · simp only [Bool.false_eq_true, if_false]
    obtain ⟨u1, u2, u3⟩ :=
      verboseLoop_user defs (QString.splitNonWord arg) (verboseReset defs g)
    generalize verboseLoop defs (QString.splitNonWord arg) (verboseReset defs g) = r at u1 u2 u3
    obtain ⟨b, g'⟩ := r
    simp only [verboseReset] at u1 u2 u3
    cases b
    · simp only [verboseFinish]
      exact ⟨fun _ => ⟨u1, u2, u3⟩, fun h => absurd h (by decide)⟩
    · simp only [verboseFinish]
      cases hh : g.haveUserDefaultValues
      · rw [hh] at u3
        simp [u3]
      · rw [hh] at u3
        simp [u3, u1, u2]
  · simp [verboseReset]

theorem runCalls_fail (defs : VerboseDefs) (pre : List QString) (g : Globals)
    (h : ∀ c ∈ (runCalls defs g pre).1, c = GENERIC_EXIT_INVALID_CMDLINE) :
    (runCalls defs g pre).2.userDefaultValueInt = g.userDefaultValueInt ∧
    (runCalls defs g pre).2.userDefaultValueStr = g.userDefaultValueStr ∧
    (runCalls defs g pre).2.haveUserDefaultValues = g.haveUserDefaultValues := by
  induction pre generalizing g with
  | nil => exact ⟨rfl, rfl, rfl⟩
  | cons a rest ih =>
    simp only [runCalls, List.mem_cons, forall_eq_or_imp] at h ⊢
    obtain ⟨i1, i2, i3⟩ := ih _ h.2
    obtain ⟨k1, k2, k3⟩ := (verboseArgParse_user defs g a).1 (Or.inl h.1)
    exact ⟨i1.trans k1, i2.trans k2, i3.trans k3⟩

theorem runCalls_have (defs : VerboseDefs) (post : List QString) (g : Globals)
    (h : g.haveUserDefaultValues = true) :
    (runCalls defs g post).2.userDefaultValueInt = g.userDefaultValueInt ∧
    (runCalls defs g post).2.userDefaultValueStr = g.userDefaultValueStr ∧
    (runCalls defs g post).2.haveUserDefaultValues = true := by
  induction post generalizing g with
  | nil => exact ⟨rfl, rfl, h⟩
  | cons a rest ih =>
    simp only [runCalls]
    obtain ⟨k1, k2, k3⟩ := (verboseArgParse_user defs g a).1 (Or.inr h)
    obtain ⟨i1, i2, i3⟩ := ih _ (k3.trans h)
    exact ⟨i1.trans k1, i2.trans k2, i3⟩

theorem verboseOption_default (defs : VerboseDefs) (g : Globals) :
    verboseOption defs g (qs "default") =
      some (if g.haveUserDefaultValues then
              { g with verboseMask := g.userDefaultValueInt
                       verboseString := g.userDefaultValueStr }
            else
              { g with verboseMask := verboseDefaultInt defs
                       verboseString := verboseDefaultStr }) := by
  unfold verboseOption
  rw [show splitReverse (qs "default") = (false, qs "default") from by decide]
  simp only [show ¬ (qs "default" = qs "help") from by decide,
    show ¬ (qs "default" = qs "important") from by decide,
    show ¬ (qs "default" = qs "extra") from by decide, if_false, if_true]
  split <;> rfl

theorem verboseArgParse_default (defs : VerboseDefs) (g : Globals) (P : QString)
    (hempty : QMap.value (verboseInit defs) [] = none)
    (hP : (verboseArgParse defs g P).1 = GENERIC_EXIT_OK) :
    (verboseArgParse defs g (P ++ qs ",default")).1 = GENERIC_EXIT_OK ∧
    (verboseArgParse defs g (P ++ qs ",default")).2.verboseMask
      = (if g.haveUserDefaultValues then g.userDefaultValueInt else verboseDefaultInt defs) ∧
    (verboseArgParse defs g (P ++ qs ",default")).2.verboseString
      = (if g.haveUserDefaultValues then g.userDefaultValueStr else verboseDefaultStr) := by
  obtain ⟨gP, h1, _, h3⟩ :=
    verboseArgParse_append defs g P (qs "default") hempty hP (by decide)
  obtain ⟨u1, u2, u3⟩ := verboseLoop_user defs (QString.splitNonWord P) (verboseReset defs g)
  rw [h1] at u1 u2 u3
  simp only [verboseReset] at u1 u2 u3
  have e : P ++ qs ",default" = P ++ ',' :: qs "default" := rfl
  rw [e, h3, verboseLoop_cons defs _ _ _ _ (verboseOption_default defs gP)]
  simp only [verboseLoop]
  refine ⟨(verboseFinish_true _).1, ?_, ?_⟩
  · rw [(verboseFinish_true _).2.1, u3]
    split <;> simp [u1]
  · rw [(verboseFinish_true _).2.2, u3]
    split <;> simp [u2]

theorem runCalls_append (defs : VerboseDefs) (xs ys : List QString) (g : Globals) :
    (runCalls defs g (xs ++ ys)).2 = (runCalls defs (runCalls defs g xs).2 ys).2 := by
  induction xs generalizing g with
  | nil => rfl
  | cons x rest ih =>
    simp only [List.cons_append, runCalls]
    exact ih _

/-- C8: in a table without an empty name, let the calls `pre`, made from the
    initial globals, all return an error, let the next call `a` return OK, and
    let any calls `post` follow.  Then (1) after `pre` nothing is remembered, and
    a "default" token, wherever it stands in a call, resets the selection to
    VB_GENERAL and " general"; (2) the call `a` sets `haveUserDefaultValues`
    and makes the remembered pair the mask and the description that it
    produced; (3) after `post` the remembered pair is still that of `a`, and a
    "default" token, wherever it stands in a later call, resets `verboseMask`
    and `verboseString` to exactly that pair. -/
theorem verboseArgParse_remembered_default (defs : VerboseDefs) (pre post : List QString)
    (a P : QString)
    (hempty : QMap.value (verboseInit defs) [] = none)
    (hpre : ∀ c ∈ (runCalls defs (initialGlobals defs) pre).1,
      c = GENERIC_EXIT_INVALID_CMDLINE)
    (ha : (verboseArgParse defs (globalsAfter defs pre) a).1 = GENERIC_EXIT_OK)
    (hP : (verboseArgParse defs (initialGlobals defs) P).1 = GENERIC_EXIT_OK) :
    ((globalsAfter defs pre).haveUserDefaultValues = false ∧
      (∀ ts g',
        verboseLoop defs ts (verboseReset defs (globalsAfter defs pre))
          = (true, g') →
        verboseOption defs g' (qs "default") =
          some { g' with verboseMask := verboseDefaultInt defs
                         verboseString := verboseDefaultStr }) ∧
      selection (verboseArgParse defs (globalsAfter defs pre)
        (P ++ qs ",default")).2 = (verboseDefaultInt defs, verboseDefaultStr)) ∧
    ((globalsAfter defs (pre ++ [a])).haveUserDefaultValues = true ∧
      remembered (globalsAfter defs (pre ++ [a]))
        = selection (globalsAfter defs (pre ++ [a]))) ∧
    ((globalsAfter defs (pre ++ a :: post)).haveUserDefaultValues = true ∧
      remembered (globalsAfter defs (pre ++ a :: post))
        = selection (globalsAfter defs (pre ++ [a])) ∧
      (∀ ts g',
        verboseLoop defs ts
          (verboseReset defs (globalsAfter defs (pre ++ a :: post)))
          = (true, g') →
        verboseOption defs g' (qs "default") =
          some { g' with
            verboseMask := (globalsAfter defs (pre ++ [a])).verboseMask
            verboseString := (globalsAfter defs (pre ++ [a])).verboseString }) ∧
      selection (verboseArgParse defs (globalsAfter defs (pre ++ a :: post))
        (P ++ qs ",default")).2
        = selection (globalsAfter defs (pre ++ [a]))) := by
  have eA : globalsAfter defs (pre ++ [a])
      = (verboseArgParse defs (globalsAfter defs pre) a).2 := by
    unfold globalsAfter
    rw [runCalls_append]
    rfl
  have eB : globalsAfter defs (pre ++ a :: post)
      = (runCalls defs (globalsAfter defs (pre ++ [a])) post).2 := by
    rw [eA]
    unfold globalsAfter
    rw [runCalls_append]
    rfl
  obtain ⟨p1, p2, p3⟩ := runCalls_fail defs pre (initialGlobals defs) hpre
  have p3' : (globalsAfter defs pre).haveUserDefaultValues = false := p3
  obtain ⟨a1, a2, a3⟩ := (verboseArgParse_user defs _ a).2 ha p3'
  rw [← eA] at a1 a2 a3
  obtain ⟨q1, q2, q3⟩ := runCalls_have defs post _ a3
  rw [← eB] at q1 q2 q3
  have hP1 := (verboseArgParse_fst_indep defs
    (globalsAfter defs pre) (initialGlobals defs) P).trans hP
  have hP2 := (verboseArgParse_fst_indep defs
    (globalsAfter defs (pre ++ a :: post)) (initialGlobals defs) P).trans hP
  obtain ⟨_, d2, d3⟩ := verboseArgParse_default defs _ P hempty hP1
  obtain ⟨_, e2, e3⟩ := verboseArgParse_default defs _ P hempty hP2
  rw [p3'] at d2 d3
  rw [q3] at e2 e3
  refine ⟨⟨p3', ?_, ?_⟩, ⟨a3, ?_⟩, ⟨q3, ?_, ?_, ?_⟩⟩
  · intro ts g' hl
    obtain ⟨_, _, u3⟩ := verboseLoop_user defs ts
      (verboseReset defs (globalsAfter defs pre))
    rw [hl] at u3
    simp only [verboseReset] at u3
    rw [verboseOption_default, u3, p3']
    rfl
  · simp only [selection, d2, d3]
    rfl
  · simp only [remembered, selection, a1, a2]
  · simp only [remembered, selection, q1, q2, a1, a2]
  · intro ts g' hl
    obtain ⟨u1, u2, u3⟩ := verboseLoop_user defs ts
      (verboseReset defs (globalsAfter defs (pre ++ a :: post)))
    rw [hl] at u1 u2 u3
    simp only [verboseReset] at u1 u2 u3
    rw [verboseOption_default, u3, q3, u1, u2, q1, q2, a1, a2]
    rfl
  · simp only [selection, e2, e3, q1, q2, a1, a2]
    rfl

/-- C8 at the sample table: "-bad" and "bogus" fail, "all,nodatabase" is the
    first call that returns OK, then "none", "general,nosuch" and "record"
    follow; "audio,default" then yields the mask and description of
    "all,nodatabase", and before the first success it yields the built-in
    default. -/
theorem verboseArgParse_remembered_default_witness :
    (QMap.value (verboseInit sampleDefs) [] = none ∧
      (∀ c ∈ (runCalls sampleDefs (initialGlobals sampleDefs) [qs "-bad", qs "bogus"]).1,
        c = GENERIC_EXIT_INVALID_CMDLINE) ∧
      (verboseArgParse sampleDefs (globalsAfter sampleDefs [qs "-bad", qs "bogus"])
        (qs "all,nodatabase")).1 = GENERIC_EXIT_OK ∧
      (verboseArgParse sampleDefs (initialGlobals sampleDefs) (qs "audio")).1 = GENERIC_EXIT_OK) ∧
    (
      ((globalsAfter sampleDefs [qs "-bad", qs "bogus"]).haveUserDefaultValues = false ∧
        (∀ ts g',
          verboseLoop sampleDefs ts (verboseReset sampleDefs (globalsAfter sampleDefs [qs
              "-bad", qs "bogus"]))
            = (true, g') →
          verboseOption sampleDefs g' (qs "default") =
            some { g' with verboseMask := verboseDefaultInt sampleDefs
                           verboseString := verboseDefaultStr }) ∧
        selection (verboseArgParse sampleDefs (globalsAfter sampleDefs [qs "-bad", qs "bogus"])
          ((qs "audio") ++ qs ",default")).2
          = (verboseDefaultInt sampleDefs, verboseDefaultStr)) ∧
      ((globalsAfter sampleDefs ([qs "-bad", qs "bogus"] ++ [(qs
          "all,nodatabase")])).haveUserDefaultValues = true ∧
        remembered (globalsAfter sampleDefs ([qs "-bad", qs "bogus"] ++ [(qs "all,nodatabase")]))
          = selection (globalsAfter sampleDefs ([qs "-bad", qs "bogus"] ++ [(qs
              "all,nodatabase")]))) ∧
      ((globalsAfter sampleDefs ([qs "-bad", qs "bogus"] ++
            (qs "all,nodatabase") :: [qs "none", qs "general,nosuch", qs
                "record"])).haveUserDefaultValues = true ∧
        remembered (globalsAfter sampleDefs ([qs "-bad", qs "bogus"] ++
            (qs "all,nodatabase") :: [qs "none", qs "general,nosuch", qs "record"]))
          = selection (globalsAfter sampleDefs ([qs "-bad", qs "bogus"] ++ [(qs
              "all,nodatabase")])) ∧
        (∀ ts g',
          verboseLoop sampleDefs ts
            (verboseReset sampleDefs (globalsAfter sampleDefs ([qs "-bad", qs "bogus"] ++
            (qs "all,nodatabase") :: [qs "none", qs "general,nosuch", qs "record"])))
            = (true, g') →
          verboseOption sampleDefs g' (qs "default") =
            some { g' with
              verboseMask := (globalsAfter sampleDefs ([qs "-bad", qs "bogus"] ++ [(qs
                  "all,nodatabase")])).verboseMask
              verboseString := (globalsAfter sampleDefs ([qs "-bad", qs "bogus"] ++ [(qs
                  "all,nodatabase")])).verboseString }) ∧
        selection (verboseArgParse sampleDefs (globalsAfter sampleDefs ([qs "-bad", qs "bogus"] ++
            (qs "all,nodatabase") :: [qs "none", qs "general,nosuch", qs "record"]))
          ((qs "audio") ++ qs ",default")).2
          = selection (globalsAfter sampleDefs ([qs "-bad", qs "bogus"] ++ [(qs
              "all,nodatabase")])))) ∧
    (selection (verboseArgParse sampleDefs
        (globalsAfter sampleDefs
          [qs "-bad", qs "bogus", qs "all,nodatabase", qs "none", qs "general,nosuch",
            qs "record"])
        (qs "audio,default")).2 = (0xfffffffffffeffff, qs "all nodatabase") ∧
      selection (verboseArgParse sampleDefs (globalsAfter sampleDefs [qs "-bad", qs "bogus"])
        (qs "audio,default")).2 = (2, qs " general")) :=
  ⟨⟨by decide, by decide, by decide, by decide⟩,
    verboseArgParse_remembered_default sampleDefs [qs "-bad", qs "bogus"]
      [qs "none", qs "general,nosuch", qs "record"] (qs "all,nodatabase") (qs "audio")
      (by decide) (by decide) (by decide) (by decide),
    by decide⟩

/-! ## The level registry -/

theorem QMap.insert_sorted {V : Type} (m : QMap Int V) (k : Int) (v : V)
    (hs : m.Pairwise (fun a b => a.1 < b.1)) :
    (QMap.insert k v m).Pairwise (fun a b => a.1 < b.1) := by
  induction m with
  | nil => simp [QMap.insert]
  | cons e rest ih =>
    obtain ⟨k0, v0⟩ := e
    rw [List.pairwise_cons] at hs
    by_cases h1 : k = k0
    · subst h1
      simp only [QMap.insert, if_true, List.pairwise_cons]
      exact ⟨fun b hb => hs.1 b hb, hs.2⟩
    · by_cases h3 : k < k0
      · simp only [QMap.insert, h1, h3, if_true, if_false]
        rw [List.pairwise_cons]
        refine ⟨?_, List.pairwise_cons.mpr hs⟩
        intro b hb
        rcases List.mem_cons.mp hb with hb | hb
        · rw [hb]; exact h3
        · exact lt_trans h3 (hs.1 b hb)
      · simp only [QMap.insert, h1, h3, if_false]
        rw [List.pairwise_cons]
        refine ⟨?_, ih hs.2⟩
        intro b hb
        rcases QMap.mem_insert _ _ _ _ hb with hb | hb
        · rw [hb]; show k0 < k; omega
        · exact hs.1 b hb

theorem QMap.value_of_mem_sorted {V : Type} (m : QMap Int V) (k : Int) (v : V)
    (hs : m.Pairwise (fun a b => a.1 < b.1)) (h : (k, v) ∈ m) :
    QMap.value m k = some v := by
  induction m with
  | nil => simp at h
  | cons e rest ih =>
    obtain ⟨k0, v0⟩ := e
    rw [List.pairwise_cons] at hs
    rcases List.mem_cons.mp h with h | h
    · simp only [Prod.mk.injEq] at h
      simp [QMap.value, h.1, h.2]
    · have hlt : k0 < k := hs.1 (k, v) h
      have hne : ¬ k = k0 := by omega
      simp only [QMap.value, hne, if_false]
      exact ih hs.2 h

theorem loglevelRows_inv (rows : List (Int × QString × Char)) (m : LoglevelMap)
    (hs : m.Pairwise (fun a b => a.1 < b.1))
    (hm : ∀ e ∈ m, e.2.value = e.1 ∧ QString.toLower e.2.name = e.2.name) :
    (rows.foldl (fun m r => loglevelAdd m r.1 r.2.1 r.2.2) m).Pairwise
        (fun a b => a.1 < b.1) ∧
    ∀ e ∈ rows.foldl (fun m r => loglevelAdd m r.1 r.2.1 r.2.2) m,
      e.2.value = e.1 ∧ QString.toLower e.2.name = e.2.name := by
  induction rows generalizing m with
  | nil => exact ⟨hs, hm⟩
  | cons r rest ih =>
    simp only [List.foldl_cons]
    apply ih
    · exact QMap.insert_sorted _ _ _ hs
    · intro e he
      rcases QMap.mem_insert _ _ _ _ he with h | h
      · subst h
        exact ⟨rfl, QString.toLower_idem _⟩
      · exact hm e h

theorem loglevelInit_inv (defs : VerboseDefs) :
    (loglevelInit defs).Pairwise (fun a b => a.1 < b.1) ∧
    ∀ e ∈ loglevelInit defs, e.2.value = e.1 ∧ QString.toLower e.2.name = e.2.name :=
  loglevelRows_inv _ [] List.Pairwise.nil (fun e he => absurd he (List.not_mem_nil e))

theorem logLevelFind_found (unknown : Int) (n : QString) (m : LoglevelMap)
    (h : ∃ e ∈ m, e.2.name = n) :
    ∃ e ∈ m, e.2.name = n ∧ logLevelFind unknown n m = e.2.value := by
  induction m with
  | nil => obtain ⟨e, he, _⟩ := h; simp at he
  | cons e0 rest ih =>
    obtain ⟨k0, it0⟩ := e0
    by_cases h0 : it0.name = n
    · exact ⟨(k0, it0), List.mem_cons_self _ _, h0, by simp [logLevelFind, h0]⟩
    · obtain ⟨e, he, hn⟩ := h
      rcases List.mem_cons.mp he with he | he
      · subst he; exact absurd hn h0
      · obtain ⟨e', he', hn', hf⟩ := ih ⟨e, he, hn⟩
        exact ⟨e', List.mem_cons_of_mem _ he', hn', by simp [logLevelFind, h0, hf]⟩

theorem logLevelFind_absent (unknown : Int) (n : QString) (m : LoglevelMap)
    (h : ∀ e ∈ m, e.2.name ≠ n) : logLevelFind unknown n m = unknown := by
  induction m with
  | nil => rfl
  | cons e0 rest ih =>
    obtain ⟨k0, it0⟩ := e0
    have h0 : ¬ it0.name = n := h (k0, it0) (List.mem_cons_self _ _)
    simp only [logLevelFind, h0, if_false]
    exact ih (fun e he => h e (List.mem_cons_of_mem _ he))

/-! ## C9: from a name to the level and back -/

/-- C9: for every entry of the level registry, with name `n`, and every string
    `N` that differs from `n` only in letter case,
    `logLevelGetName(logLevelGet(N))` is `n`. -/
theorem logLevelGetName_logLevelGet (defs : VerboseDefs) (e : Int × LoglevelDef) (N : QString)
    (he : e ∈ loglevelInit defs)
    (hN : QString.toLower N = QString.toLower e.2.name) :
    logLevelGetName defs (logLevelGet defs N) = e.2.name := by
  obtain ⟨hs, hm⟩ := loglevelInit_inv defs
  have hl := (hm e he).2
  rw [hl] at hN
  obtain ⟨e', he', hn', hf⟩ :=
    logLevelFind_found defs.LOG_UNKNOWN e.2.name (loglevelInit defs) ⟨e, he, rfl⟩
  unfold logLevelGet logLevelGetName
  rw [hN, hf, (hm e' he').1, QMap.value_of_mem_sorted _ e'.1 e'.2 hs he']
  exact hn'

/-- C9 at the sample table: "WaRnInG" resolves to level 4 and back to
    "warning". -/
theorem logLevelGetName_logLevelGet_witness :
    (((4 : Int), (⟨4, qs "warning", 'W'⟩ : LoglevelDef)) ∈ loglevelInit sampleDefs ∧
      QString.toLower (qs "WaRnInG") = QString.toLower (qs "warning")) ∧
    logLevelGetName sampleDefs (logLevelGet sampleDefs (qs "WaRnInG")) = qs "warning" :=
  ⟨⟨by decide, by decide⟩,
    logLevelGetName_logLevelGet sampleDefs (4, ⟨4, qs "warning", 'W'⟩) (qs "WaRnInG")
      (by decide) (by decide)⟩

/-! ## C10: the lookup by name -/

/-- C10: for every string `s`, `logLevelGet(s)` equals `logLevelGet` of the
    lower-cased `s`; it is the value of a registry entry whose stored name is
    the lower-cased `s` when there is one, and LOG_UNKNOWN when no entry has
    that name. -/
theorem logLevelGet_lookup (defs : VerboseDefs) (s : QString) :
    logLevelGet defs s = logLevelGet defs (QString.toLower s) ∧
    ((∃ e ∈ loglevelInit defs, e.2.name = QString.toLower s) →
      ∃ e ∈ loglevelInit defs, e.2.name = QString.toLower s ∧
        logLevelGet defs s = e.2.value) ∧
    ((∀ e ∈ loglevelInit defs, e.2.name ≠ QString.toLower s) →
      logLevelGet defs s = defs.LOG_UNKNOWN) := by
  refine ⟨?_, ?_, ?_⟩
  · unfold logLevelGet
    rw [QString.toLower_idem]
  · intro h
    exact logLevelFind_found _ _ _ h
  · intro h
    exact logLevelFind_absent _ _ _ h

/-- C10 at the sample table: "WaRnInG" is found as level 4, and "nosuch", which
    no entry is named, gives LOG_UNKNOWN. -/
theorem logLevelGet_lookup_witness :
    logLevelGet sampleDefs (qs "WaRnInG") = logLevelGet sampleDefs (qs "warning") ∧
    logLevelGet sampleDefs (qs "WaRnInG") = 4 ∧
    logLevelGet sampleDefs (qs "nosuch") = sampleDefs.LOG_UNKNOWN :=
  ⟨(logLevelGet_lookup sampleDefs (qs "WaRnInG")).1, by decide,
    (logLevelGet_lookup sampleDefs (qs "nosuch")).2.2 (by decide)⟩

/-! ## The queue: lookups and frames -/

namespace QHash
variable {K V : Type} [DecidableEq K]

theorem value_remove_self (m : QHash K V) (k : K) : value (remove k m) k = none := by
  induction m with
  | nil => rfl
  | cons e rest ih =>
    obtain ⟨k0, v0⟩ := e
    by_cases h : k0 = k
    · simpa [remove, List.filter, h] using ih
    · have h' : ¬ k = k0 := fun e => h e.symm
      simpa [remove, List.filter, h, value, h'] using ih

theorem value_remove_ne (m : QHash K V) (k k' : K) (h : k' ≠ k) :
    value (remove k m) k' = value m k' := by
  induction m with
  | nil => rfl
  | cons e rest ih =>
    obtain ⟨k0, v0⟩ := e
    by_cases h0 : k0 = k
    · subst h0
      have : ¬ k' = k0 := h
      simpa [remove, List.filter, value, this] using ih
    · by_cases h1 : k' = k0
      · simp [remove, List.filter, h0, value, h1]
      · simpa [remove, List.filter, h0, value, h1] using ih

theorem value_insert_self (m : QHash K V) (k : K) (v : V) :
    value (insert k v m) k = some v := by
  simp [insert, value]

theorem value_insert_ne (m : QHash K V) (k k' : K) (v : V) (h : k' ≠ k) :
    value (insert k v m) k' = value m k' := by
  simp only [insert, value, h, if_false]
  exact value_remove_ne m k k' h

end QHash

theorem SameQueue.refl (s : LogState) : SameQueue s s :=
  ⟨rfl, rfl, rfl, rfl, rfl, rfl, rfl, rfl⟩

theorem SameQueue.trans {a b c : LogState} (h1 : SameQueue a b) (h2 : SameQueue b c) :
    SameQueue a c := by
  obtain ⟨a1, a2, a3, a4, a5, a6, a7, a8⟩ := h1
  obtain ⟨b1, b2, b3, b4, b5, b6, b7, b8⟩ := h2
  exact ⟨b1.trans a1, b2.trans a2, b3.trans a3, b4.trans a4, b5.trans a5, b6.trans a6,
    b7.trans a7, b8.trans a8⟩

theorem handleRegistering_frame (env : LogEnv) (s : LogState) (item : LoggingItem) :
    SameQueue s (handleRegistering env s item).1 := by
  unfold handleRegistering
  simp only []
  split <;> exact ⟨rfl, rfl, rfl, rfl, rfl, rfl, rfl, rfl⟩

theorem handleDeregistering_frame (env : LogEnv) (s : LogState) (item : LoggingItem) :
    SameQueue s (handleDeregistering env s item).1 := by
  unfold handleDeregistering
  simp only []
  split <;> exact ⟨rfl, rfl, rfl, rfl, rfl, rfl, rfl, rfl⟩

theorem sendItem_frame (s : LogState) (item : LoggingItem) :
    SameQueue s (sendItem s item) := by
  unfold sendItem
  split
  · split <;> exact ⟨rfl, rfl, rfl, rfl, rfl, rfl, rfl, rfl⟩
  · exact SameQueue.refl s

theorem handleItem_frame (env : LogEnv) (s : LogState) (item : LoggingItem) :
    SameQueue s (handleItem env s item).1 := by
  unfold handleItem
  simp only []
  split
  · exact (handleRegistering_frame env s item).trans (sendItem_frame _ _)
  · split
    · exact (handleDeregistering_frame env s item).trans (sendItem_frame _ _)
    · exact sendItem_frame _ _

theorem deleteItem_frame (s : LogState) (item : LoggingItem) :
    SameQueue s (deleteItem s item).1 := by
  unfold deleteItem
  split <;> exact ⟨rfl, rfl, rfl, rfl, rfl, rfl, rfl, rfl⟩

theorem logConsole_frame (env : LogEnv) (defs : VerboseDefs) (t : LoggerThread)
    (s : LogState) (item : LoggingItem) :
    SameQueue s (logConsole env defs t s item).1 := by
  unfold logConsole
  split
  · exact SameQueue.refl s
  · split
    · exact SameQueue.refl s
    · exact SameQueue.trans ⟨rfl, rfl, rfl, rfl, rfl, rfl, rfl, rfl⟩ (deleteItem_frame _ _)

theorem create_frame (s : LogState) (c : Caller) (file function : QString) (line level : Int)
    (type : LoggingType) :
    SameQueue s (LoggingItem.create s c file function line level type).1 := by
  unfold LoggingItem.create setThreadTid
  split <;> exact ⟨rfl, rfl, rfl, rfl, rfl, rfl, rfl, rfl⟩

theorem quietLoop_eq (n : Nat) (args : QString) :
    quietLoop n args = args ++ (List.replicate n (qs " --quiet")).flatten := by
  induction n generalizing args with
  | zero => simp [quietLoop]
  | succ n ih =>
    rw [quietLoop, ih, List.replicate_succ, List.flatten_cons, List.append_assoc]

theorem toNat_max_zero (q : Int) : (max q 0).toNat = q.toNat := by
  rcases le_total q 0 with h | h
  · rw [max_eq_right h, Int.toNat_of_nonpos h]; rfl
  · rw [max_eq_left h]

theorem create_item (s : LogState) (c : Caller) (file function : QString) (line level : Int)
    (type : LoggingType) :
    (LoggingItem.create s c file function line level type).2.m_threadId = c.threadId
    ∧ (LoggingItem.create s c file function line level type).2.m_type = type
    ∧ (LoggingItem.create s c file function line level type).2.m_threadName = none
    ∧ (LoggingItem.create s c file function line level type).2.m_message = []
    ∧ (LoggingItem.create s c file function line level type).2.m_level = level
    ∧ (LoggingItem.create s c file function line level type).2.refcount = 1 := by
  unfold LoggingItem.create setThreadTid
  split <;> exact ⟨rfl, rfl, rfl, rfl, rfl, rfl⟩

theorem create_hash (s : LogState) (c : Caller) (file function : QString) (line level : Int)
    (type : LoggingType) :
    (LoggingItem.create s c file function line level type).1.logThreadHash = s.logThreadHash := by
  unfold LoggingItem.create setThreadTid
  split <;> rfl

theorem logStart_isRunning (env : LogEnv) (defs : VerboseDefs) (verboseString appName : QString)
    (pid : Int) (verboseThreads : Bool) (s s1 : LogState) (c : Caller) (logfile : QString)
    (progress quiet facility level : Int) (dblog propagate : Bool)
    (h : logStart env defs verboseString appName pid verboseThreads s c logfile progress quiet
      facility level dblog propagate = some s1) :
    ∃ t, s1.logThread = some t ∧ t.isRunning = true := by
  unfold logStart at h
  split at h
  · rename_i hr
    injection h with h
    subst h
    split at hr
    · exact ⟨_, by assumption, hr⟩
    · exact absurd hr (by simp)
  · simp only [] at h
    split at h
    · injection h with h
      subst h
      exact ⟨_, rfl, rfl⟩
    · split at h
      · exact absurd h (by simp)
      · injection h with h
        subst h
        exact ⟨_, rfl, rfl⟩

theorem processed_effect (env : LogEnv) (defs : VerboseDefs) (t : LoggerThread)
    (s : LogState) (item item' : LoggingItem) :
    HandledOne s item
      (deleteItem
        (logConsole env defs t
          { (handleItem env { s with handleItemCalls := s.handleItemCalls ++ [item] }
              item').1 with
            logConsoleCalls :=
              (handleItem env { s with handleItemCalls := s.handleItemCalls ++ [item] }
                item').1.logConsoleCalls ++ [item] }
          (handleItem env { s with handleItemCalls := s.handleItemCalls ++ [item] }
            item').2).1
        (logConsole env defs t
          { (handleItem env { s with handleItemCalls := s.handleItemCalls ++ [item] }
              item').1 with
            logConsoleCalls :=
              (handleItem env { s with handleItemCalls := s.handleItemCalls ++ [item] }
                item').1.logConsoleCalls ++ [item] }
          (handleItem env { s with handleItemCalls := s.handleItemCalls ++ [item] }
            item').2).2.1).1 := by
  obtain ⟨d1, d2, d3, d4, d5, d6, d7, d8⟩ := deleteItem_frame
    (logConsole env defs t
      { (handleItem env { s with handleItemCalls := s.handleItemCalls ++ [item] }
          item').1 with
        logConsoleCalls :=
          (handleItem env { s with handleItemCalls := s.handleItemCalls ++ [item] }
            item').1.logConsoleCalls ++ [item] }
      (handleItem env { s with handleItemCalls := s.handleItemCalls ++ [item] }
        item').2).1
    (logConsole env defs t
      { (handleItem env { s with handleItemCalls := s.handleItemCalls ++ [item] }
          item').1 with
        logConsoleCalls :=
          (handleItem env { s with handleItemCalls := s.handleItemCalls ++ [item] }
            item').1.logConsoleCalls ++ [item] }
      (handleItem env { s with handleItemCalls := s.handleItemCalls ++ [item] }
        item').2).2.1
  obtain ⟨c1, c2, c3, c4, c5, c6, c7, c8⟩ := logConsole_frame env defs t
    { (handleItem env { s with handleItemCalls := s.handleItemCalls ++ [item] }
        item').1 with
      logConsoleCalls :=
        (handleItem env { s with handleItemCalls := s.handleItemCalls ++ [item] }
          item').1.logConsoleCalls ++ [item] }
    (handleItem env { s with handleItemCalls := s.handleItemCalls ++ [item] }
      item').2
  obtain ⟨h1, h2, h3, h4, h5, h6, h7, h8⟩ := handleItem_frame env
    { s with handleItemCalls := s.handleItemCalls ++ [item] } item'
  simp only [] at c1 c2 c3 c4 c5 c6 c7 c8 h1 h2 h3 h4 h5 h6 h7 h8
  refine ⟨d1.trans (c1.trans h1), d2.trans (c2.trans h2), d3.trans (c3.trans h3),
    d4.trans (c4.trans h4), d5.trans (c5.trans h5), d6.trans (c6.trans h6),
    d7.trans (c7.trans h7), ?_⟩
  rw [d8, c8, h8]

theorem consumerProcess_effect (env : LogEnv) (defs : VerboseDefs) (t : LoggerThread)
    (s : LogState) (item : LoggingItem) :
    HandledOne s item (consumerProcess env defs t s item).1 :=
  processed_effect env defs t s item _

theorem inlineHandle_effect (env : LogEnv) (defs : VerboseDefs) (s : LogState)
    (threadId : Nat) (item : LoggingItem) (t : LoggerThread)
    (hv : QHash.value s.inlineItem threadId = some (some item))
    (ht : s.logThread = some t) :
    (inlineHandle env defs s threadId).logQueue = s.logQueue
    ∧ (inlineHandle env defs s threadId).logThread = s.logThread
    ∧ (inlineHandle env defs s threadId).logThreadFinished = s.logThreadFinished
    ∧ (inlineHandle env defs s threadId).consumerItem = s.consumerItem
    ∧ (inlineHandle env defs s threadId).inlineItem = QHash.insert threadId none s.inlineItem
    ∧ (inlineHandle env defs s threadId).enqueued = s.enqueued
    ∧ (inlineHandle env defs s threadId).handleItemCalls = s.handleItemCalls ++ [item]
    ∧ (inlineHandle env defs s threadId).logConsoleCalls = s.logConsoleCalls ++ [item] := by
  unfold inlineHandle
  split
  · rename_i item1 t1 hv1 ht1
    have e1 : item1 = item := by
      rw [hv] at hv1
      injection hv1 with hv1
      injection hv1 with hv1
      exact hv1.symm
    subst e1
    obtain ⟨p1, p2, p3, p4, p5, p6, p7, p8⟩ := processed_effect env defs t1 s item1 item1
    exact ⟨p1, p2, p3, p4, congrArg (QHash.insert threadId none) p5, p6, p7, p8⟩
  · rename_i hno
    exact absurd ht (hno item t hv)

theorem inlineHandle_noop (env : LogEnv) (defs : VerboseDefs) (s : LogState)
    (threadId : Nat)
    (h : (∀ item, QHash.value s.inlineItem threadId ≠ some (some item))
      ∨ s.logThread = none) :
    inlineHandle env defs s threadId = s := by
  unfold inlineHandle
  split
  · rename_i item t hv ht
    rcases h with h | h
    · exact absurd hv (h item)
    · rw [h] at ht
      exact absurd ht (by simp)
  · rfl

/-! ## The moves of a step -/

theorem inlineCondition_congr (s s' : LogState) (h1 : s'.logThread = s.logThread)
    (h2 : s'.logThreadFinished = s.logThreadFinished) :
    inlineCondition s' = inlineCondition s := by
  unfold inlineCondition
  rw [h1, h2]

theorem append_singleton_ne_nil {α : Type} (q : List α) (x : α) : q ++ [x] ≠ [] := by
  simp

/-- What `logPrintLineEnter` does. -/
theorem logPrintLineEnter_effect (env : LogEnv) (s : LogState) (c : Caller) (mask : Nat)
    (level : Int) (file : QString) (line : Int) (function : QString) (fromQString : Bool)
    (format : QString) (arguments : List QString) :
    ∃ item : LoggingItem,
      item.m_message = env.vsnprintf env.LOGLINE_MAX
        (if fromQString && format.contains '%' then escapePercent format else format) arguments
      ∧ item.m_threadId = c.threadId ∧ item.m_threadName = none
      ∧ item.m_type.kMessage = true
      ∧ item.m_type.kRegistering = false ∧ item.m_type.kDeregistering = false
      ∧ (logPrintLineEnter env s c mask level file line function fromQString format
          arguments).logThread = s.logThread
      ∧ (logPrintLineEnter env s c mask level file line function fromQString format
          arguments).logThreadFinished = s.logThreadFinished
      ∧ (logPrintLineEnter env s c mask level file line function fromQString format
          arguments).consumerItem = s.consumerItem
      ∧ (logPrintLineEnter env s c mask level file line function fromQString format
          arguments).enqueued = s.enqueued ++ [item]
      ∧ (logPrintLineEnter env s c mask level file line function fromQString format
          arguments).handleItemCalls = s.handleItemCalls
      ∧ (logPrintLineEnter env s c mask level file line function fromQString format
          arguments).logConsoleCalls = s.logConsoleCalls
      ∧ ((inlineCondition s = false
          ∧ (logPrintLineEnter env s c mask level file line function fromQString format
              arguments).logQueue = s.logQueue ++ [item]
          ∧ (logPrintLineEnter env s c mask level file line function fromQString format
              arguments).inlineItem = s.inlineItem)
        ∨ (inlineCondition s = true
          ∧ ∃ first, s.logQueue ++ [item]
              = first :: (logPrintLineEnter env s c mask level file line function fromQString
                  format arguments).logQueue
            ∧ (logPrintLineEnter env s c mask level file line function fromQString format
                arguments).inlineItem
              = QHash.insert c.threadId (some first) s.inlineItem)) := by
  obtain ⟨f1, f2, f3, f4, f5, f6, f7, f8⟩ := create_frame s c file function line level
    { kMessage := true, kRegistering := false, kDeregistering := false
      kFlush := mask &&& env.VB_FLUSH != 0
      kStandardIO := mask &&& env.VB_STDIO != 0 }
  obtain ⟨i1, i2, i3, i4, i5, i6⟩ := create_item s c file function line level
    { kMessage := true, kRegistering := false, kDeregistering := false
      kFlush := mask &&& env.VB_FLUSH != 0
      kStandardIO := mask &&& env.VB_STDIO != 0 }
  unfold logPrintLineEnter
  simp only []
  generalize LoggingItem.create s c file function line level
    { kMessage := true, kRegistering := false, kDeregistering := false
      kFlush := mask &&& env.VB_FLUSH != 0
      kStandardIO := mask &&& env.VB_STDIO != 0 } = r at f1 f2 f3 f4 f5 f6 f7 f8 i1 i2 i3 i4 i5 i6
  refine ⟨{ r.2 with m_message := (env.vsnprintf env.LOGLINE_MAX
      (if fromQString && format.contains '%' then escapePercent format else format)
      arguments) }, rfl, i1, i3, by rw [i2], by rw [i2], by rw [i2], ?_⟩
  have hc : inlineCondition
      { r.1 with
        logQueue := r.1.logQueue ++ [{ r.2 with m_message := (env.vsnprintf env.LOGLINE_MAX
          (if fromQString && format.contains '%' then escapePercent format else format)
          arguments) }]
        enqueued := r.1.enqueued ++ [{ r.2 with m_message := (env.vsnprintf env.LOGLINE_MAX
          (if fromQString && format.contains '%' then escapePercent format else format)
          arguments) }] } = inlineCondition s :=
    inlineCondition_congr _ _ f2 f3
  rw [hc]
  cases hcs : inlineCondition s
  · simp only [Bool.false_eq_true, if_false]
    refine ⟨f2, f3, f4, by rw [f6], f7, f8, Or.inl ⟨trivial, by rw [f1], f5⟩⟩
  · simp only [if_true]
    rw [f1]
    cases hq : s.logQueue with
    | nil =>
      simp only [List.nil_append]
      exact ⟨f2, f3, f4, by rw [f6], f7, f8, Or.inr ⟨trivial, _, rfl, by rw [f5]⟩⟩
    | cons first rest =>
      simp only [List.cons_append]
      exact ⟨f2, f3, f4, by rw [f6], f7, f8, Or.inr ⟨trivial, _, rfl, by rw [f5]⟩⟩

theorem inlineCondition_finished (s : LogState) (h : inlineCondition s = true) :
    s.logThreadFinished = true := by
  unfold inlineCondition at h
  split at h
  · simp only [Bool.and_eq_true] at h
    exact h.1
  · exact absurd h (by simp)

theorem value_eq_none_of_not_isSome {K V : Type} [DecidableEq K] (m : QHash K V) (k : K)
    (h : ¬ (QHash.value m k).isSome = true) : QHash.value m k = none := by
  cases hv : QHash.value m k with
  | none => rfl
  | some v => rw [hv] at h; exact absurd rfl h

theorem loggingRegisterThread_move (env : LogEnv) (s : LogState) (c : Caller)
    (name : QString) :
    QueueMove s (loggingRegisterThread env s c name)
    ∧ (loggingRegisterThread env s c name).logThread = s.logThread
    ∧ (loggingRegisterThread env s c name).logThreadFinished = s.logThreadFinished := by
  unfold loggingRegisterThread
  split
  · exact ⟨QueueMove.same rfl rfl rfl rfl rfl rfl, rfl, rfl⟩
  · obtain ⟨f1, f2, f3, f4, f5, f6, f7, f8⟩ := create_frame s c (qs "logging.cpp")
      (qs "loggingRegisterThread") 786 env.LOG_DEBUG
      { kMessage := false, kRegistering := true, kDeregistering := false,
        kFlush := false, kStandardIO := false }
    exact ⟨QueueMove.enqueue _ (by rw [← f1]) f4 f5 (by rw [← f6]) f7 f8, f2, f3⟩

theorem loggingDeregisterThread_move (env : LogEnv) (s : LogState) (c : Caller) :
    QueueMove s (loggingDeregisterThread env s c)
    ∧ (loggingDeregisterThread env s c).logThread = s.logThread
    ∧ (loggingDeregisterThread env s c).logThreadFinished = s.logThreadFinished := by
  unfold loggingDeregisterThread
  split
  · exact ⟨QueueMove.same rfl rfl rfl rfl rfl rfl, rfl, rfl⟩
  · obtain ⟨f1, f2, f3, f4, f5, f6, f7, f8⟩ := create_frame s c (qs "logging.cpp")
      (qs "loggingDeregisterThread") 804 env.LOG_DEBUG
      { kMessage := false, kRegistering := false, kDeregistering := true,
        kFlush := false, kStandardIO := false }
    exact ⟨QueueMove.enqueue _ (by rw [← f1]) f4 f5 (by rw [← f6]) f7 f8, f2, f3⟩

theorem inlineRelock_move (s : LogState) (threadId : Nat) :
    QueueMove s (inlineRelock s threadId)
    ∧ (inlineRelock s threadId).logThread = s.logThread
    ∧ (inlineRelock s threadId).logThreadFinished = s.logThreadFinished := by
  unfold inlineRelock
  split
  · rename_i hv
    split
    · exact ⟨QueueMove.inlineLeave threadId hv rfl rfl rfl rfl rfl rfl, rfl, rfl⟩
    · rename_i first rest hq
      exact ⟨QueueMove.inlineDequeue threadId first hv hq rfl rfl rfl rfl rfl, rfl, rfl⟩
  · exact ⟨QueueMove.same rfl rfl rfl rfl rfl rfl, rfl, rfl⟩

theorem inlineHandle_move (env : LogEnv) (defs : VerboseDefs) (s : LogState)
    (threadId : Nat) :
    QueueMove s (inlineHandle env defs s threadId)
    ∧ (inlineHandle env defs s threadId).logThread = s.logThread
    ∧ (inlineHandle env defs s threadId).logThreadFinished = s.logThreadFinished := by
  cases hv : QHash.value s.inlineItem threadId with
  | none =>
    rw [inlineHandle_noop env defs s threadId (Or.inl (fun item h => by rw [hv] at h; cases h))]
    exact ⟨QueueMove.same rfl rfl rfl rfl rfl rfl, rfl, rfl⟩
  | some o =>
    cases o with
    | none =>
      rw [inlineHandle_noop env defs s threadId
        (Or.inl (fun item h => by rw [hv] at h; cases h))]
      exact ⟨QueueMove.same rfl rfl rfl rfl rfl rfl, rfl, rfl⟩
    | some item =>
      cases ht : s.logThread with
      | none =>
        rw [inlineHandle_noop env defs s threadId (Or.inr ht)]
        exact ⟨QueueMove.same rfl rfl rfl rfl rfl rfl, ht, rfl⟩
      | some t =>
        obtain ⟨p1, p2, p3, p4, p5, p6, p7, p8⟩ :=
          inlineHandle_effect env defs s threadId item t hv ht
        exact ⟨QueueMove.inlineHandle threadId item hv p1 p4 p5 p6 p7 p8, p2.trans ht, p3⟩

theorem consumerHandle_move (env : LogEnv) (defs : VerboseDefs) (s : LogState) :
    QueueMove s (consumerHandle env defs s)
    ∧ (consumerHandle env defs s).logThread = s.logThread
    ∧ (consumerHandle env defs s).logThreadFinished = s.logThreadFinished := by
  unfold consumerHandle
  split
  · rename_i t item ht hc
    obtain ⟨p1, p2, p3, p4, p5, p6, p7, p8⟩ := consumerProcess_effect env defs t s item
    exact ⟨QueueMove.consumerHandle item hc p1 rfl p5 p6 p7 p8, p2, p3⟩
  · exact ⟨QueueMove.same rfl rfl rfl rfl rfl rfl, rfl, rfl⟩

theorem consumerLock_move (s : LogState) : QueueMove s (consumerLock s) := by
  unfold consumerLock
  split
  · rename_i t ht hc
    split
    · split
      · split
        · exact QueueMove.same rfl rfl rfl rfl rfl rfl
        · rename_i first rest hq
          exact QueueMove.consumerDequeue first hc hq rfl rfl rfl rfl rfl
      · exact QueueMove.same rfl rfl rfl rfl rfl rfl
    · exact QueueMove.same rfl rfl rfl rfl rfl rfl
  · exact QueueMove.same rfl rfl rfl rfl rfl rfl

theorem stop_move (s : LogState) : QueueMove s (stop s) := by
  unfold stop
  split <;> exact QueueMove.same rfl rfl rfl rfl rfl rfl

theorem threadExit_move (s : LogState) : QueueMove s (threadExit s) := by
  unfold threadExit
  split
  · split <;> exact QueueMove.same rfl rfl rfl rfl rfl rfl
  · exact QueueMove.same rfl rfl rfl rfl rfl rfl

theorem logPrintLineEnter_move (env : LogEnv) (s : LogState) (c : Caller) (mask : Nat)
    (level : Int) (file : QString) (line : Int) (function : QString) (fromQString : Bool)
    (format : QString) (arguments : List QString)
    (hv : QHash.value s.inlineItem c.threadId = none) :
    QueueMove s
      (logPrintLineEnter env s c mask level file line function fromQString format arguments) := by
  obtain ⟨item, -, -, -, -, -, -, -, -, e3, e4, e5, e6, h | h⟩ :=
    logPrintLineEnter_effect env s c mask level file line function fromQString format arguments
  · exact QueueMove.enqueue item h.2.1 e3 h.2.2 e4 e5 e6
  · obtain ⟨hc, first, hq, hi⟩ := h
    exact QueueMove.enqueueInline c.threadId item first (inlineCondition_finished s hc) hv hq
      e3 hi e4 e5 e6

/-- Every step is one of the moves. -/
theorem step_move (env : LogEnv) (defs : VerboseDefs) (s : LogState) (e : Event) :
    QueueMove s (step env defs s e) := by
  cases e with
  | logPrintLine c mask level file line function fromQString format arguments =>
    simp only [step]
    split
    · exact QueueMove.same rfl rfl rfl rfl rfl rfl
    · rename_i h
      exact logPrintLineEnter_move env s c mask level file line function fromQString format
        arguments (value_eq_none_of_not_isSome _ _ h)
  | inlineHandle threadId => exact (inlineHandle_move env defs s threadId).1
  | inlineRelock threadId => exact (inlineRelock_move s threadId).1
  | registerThread c name =>
    simp only [step]
    split
    · exact QueueMove.same rfl rfl rfl rfl rfl rfl
    · exact (loggingRegisterThread_move env s c name).1
  | deregisterThread c =>
    simp only [step]
    split
    · exact QueueMove.same rfl rfl rfl rfl rfl rfl
    · exact (loggingDeregisterThread_move env s c).1
  | stop => exact stop_move s
  | consumerLock => exact consumerLock_move s
  | consumerHandle => exact (consumerHandle_move env defs s).1
  | threadExit => exact threadExit_move s

/-! ## The order of the records -/

namespace QHash
variable {K V : Type} [DecidableEq K]

theorem value_eq_none_iff (m : QHash K V) (k : K) :
    value m k = none ↔ k ∉ m.map (fun e => e.1) := by
  induction m with
  | nil => simp [value]
  | cons e rest ih =>
    obtain ⟨k0, v0⟩ := e
    by_cases h : k = k0
    · simp [value, h]
    · simp only [value, h, if_false, List.map_cons, List.mem_cons, false_or]
      exact ih

theorem remove_of_value_none (m : QHash K V) (k : K) (h : value m k = none) :
    remove k m = m := by
  rw [value_eq_none_iff] at h
  unfold remove
  rw [List.filter_eq_self]
  intro e he
  have : e.1 ≠ k := fun heq => h (heq ▸ List.mem_map_of_mem (fun e => e.1) he)
  simpa using this

theorem nodup_remove (m : QHash K V) (k : K) (h : (m.map (fun e => e.1)).Nodup) :
    ((remove k m).map (fun e => e.1)).Nodup :=
  h.sublist ((List.filter_sublist m).map _)

theorem nodup_insert (m : QHash K V) (k : K) (v : V) (h : (m.map (fun e => e.1)).Nodup) :
    ((insert k v m).map (fun e => e.1)).Nodup := by
  unfold insert
  rw [List.map_cons, List.nodup_cons]
  refine ⟨?_, nodup_remove m k h⟩
  rw [← value_eq_none_iff]
  exact value_remove_self m k

end QHash

/-- The records held in a hash of holders. -/
theorem held_remove (m : QHash Nat (Option LoggingItem)) (k : Nat) (v : Option LoggingItem)
    (hn : (m.map (fun e => e.1)).Nodup) (hv : QHash.value m k = some v) :
    (m.filterMap (fun e => e.2)).Perm
      (v.toList ++ (QHash.remove k m).filterMap (fun e => e.2)) := by
  induction m with
  | nil => simp [QHash.value] at hv
  | cons e rest ih =>
    obtain ⟨k0, v0⟩ := e
    rw [List.map_cons, List.nodup_cons] at hn
    by_cases h : k = k0
    · subst h
      simp only [QHash.value, if_true, Option.some.injEq] at hv
      subst hv
      have hnone : QHash.value rest k = none := (QHash.value_eq_none_iff rest k).2 hn.1
      have hr : QHash.remove k ((k, v0) :: rest) = rest := by
        have : QHash.remove k ((k, v0) :: rest) = QHash.remove k rest := by
          simp [QHash.remove, List.filter]
        rw [this, QHash.remove_of_value_none rest k hnone]
      rw [hr]
      cases v0 <;> simp [List.filterMap_cons]
    · simp only [QHash.value, h, if_false] at hv
      have ih' := ih hn.2 hv
      have hne : k0 ≠ k := fun e => h e.symm
      have hr : QHash.remove k ((k0, v0) :: rest) = (k0, v0) :: QHash.remove k rest := by
        simp [QHash.remove, List.filter, hne]
      rw [hr]
      cases v0 with
      | none =>
        simpa [List.filterMap_cons] using ih'
      | some x =>
        simp only [List.filterMap_cons]
        exact (ih'.cons x).trans (List.perm_middle.symm)

theorem perm_eq_of_length_le_one {α : Type} (l l' : List α) (h : l.Perm l')
    (hl : l.length ≤ 1) : l = l' := by
  match l, hl with
  | [], _ => exact (List.nil_perm.1 h).symm
  | [a], _ => exact List.singleton_perm.1 h

theorem option_toList_append_length {α : Type} (c : Option α) (l : List α)
    (h : (c.toList ++ l).length ≤ 1) :
    (c = none ∧ l.length ≤ 1) ∨ (∃ x, c = some x ∧ l = []) := by
  cases c with
  | none => exact Or.inl ⟨rfl, by simpa using h⟩
  | some x =>
    refine Or.inr ⟨x, rfl, ?_⟩
    simp only [Option.toList, List.singleton_append, List.length_cons] at h
    exact List.length_eq_zero.1 (by omega)

/-- A move keeps the order of the records when at most one record is held
    before and after it. -/
theorem queueMove_inv (s s' : LogState) (hm : QueueMove s s') (hinv : QueueInv s)
    (h1 : (heldItems s).length ≤ 1) (h2 : (heldItems s').length ≤ 1) : QueueInv s' := by
  obtain ⟨heq, hnd, hlc⟩ := hinv
  unfold QueueInv
  unfold heldItems at *
  cases hm with
  | same hq hc hi he hh hl =>
    rw [hq, hc, hi, he, hh, hl]
    exact ⟨heq, hnd, hlc⟩
  | enqueue item hq hc hi he hh hl =>
    rw [hq, hc, hi, he, hh, hl, heq]
    exact ⟨by simp [List.append_assoc], hnd, hlc⟩
  | enqueueInline threadId item first hf hv hq hc hi he hh hl =>
    have hi' : s'.inlineItem = (threadId, some first) :: s.inlineItem := by
      rw [hi, QHash.insert, QHash.remove_of_value_none _ _ hv]
    have hnd' : (s'.inlineItem.map (fun e => e.1)).Nodup := by
      rw [hi]; exact QHash.nodup_insert _ _ _ hnd
    refine ⟨?_, hnd', by rw [hl, hh, hlc]⟩
    rw [hi', hc] at h2
    rw [hi', hc, he, hh]
    simp only [List.filterMap_cons] at h2 ⊢
    rcases option_toList_append_length _ _ h2 with ⟨hcn, hlen⟩ | ⟨x, -, hnil⟩
    · simp only [List.length_cons] at hlen
      have hn : s.inlineItem.filterMap (fun e => e.2) = [] :=
        List.length_eq_zero.1 (by omega)
      rw [hcn, hn] at heq ⊢
      rw [heq]
      simp only [Option.toList, List.append_nil, List.nil_append, List.append_assoc, hq,
        List.singleton_append]
    · exact absurd hnil (by simp)
  | inlineDequeue threadId first hv hq hc hi he hh hl =>
    have hnd' : (s'.inlineItem.map (fun e => e.1)).Nodup := by
      rw [hi]; exact QHash.nodup_insert _ _ _ hnd
    refine ⟨?_, hnd', by rw [hl, hh, hlc]⟩
    have hp := held_remove s.inlineItem threadId none hnd hv
    rw [hi, hc] at h2
    rw [hi, hc, he, hh]
    simp only [QHash.insert, List.filterMap_cons] at h2 ⊢
    rcases option_toList_append_length _ _ h2 with ⟨hcn, hlen⟩ | ⟨x, -, hnil⟩
    · simp only [List.length_cons] at hlen
      have hn : (QHash.remove threadId s.inlineItem).filterMap (fun e => e.2) = [] :=
        List.length_eq_zero.1 (by omega)
      rw [hn] at hp ⊢
      have hn0 : s.inlineItem.filterMap (fun e => e.2) = [] := by
        simpa using hp
      rw [hcn, hn0] at heq
      rw [hcn, heq, hq]
      simp
    · exact absurd hnil (by simp)
  | inlineLeave threadId hv hq hc hi he hh hl =>
    have hnd' : (s'.inlineItem.map (fun e => e.1)).Nodup := by
      rw [hi]; exact QHash.nodup_remove _ _ hnd
    refine ⟨?_, hnd', by rw [hl, hh, hlc]⟩
    have hp := held_remove s.inlineItem threadId none hnd hv
    simp only [Option.toList, List.nil_append] at hp
    have hlen : (s.inlineItem.filterMap (fun e => e.2)).length ≤ 1 := by
      simp only [List.length_append] at h1
      omega
    have he2 := perm_eq_of_length_le_one _ _ hp hlen
    rw [hi, hc, he, hh, hq, ← he2]
    exact heq
  | inlineHandle threadId item hv hq hc hi he hh hl =>
    have hnd' : (s'.inlineItem.map (fun e => e.1)).Nodup := by
      rw [hi]; exact QHash.nodup_insert _ _ _ hnd
    refine ⟨?_, hnd', by rw [hl, hh, hlc]⟩
    have hp := held_remove s.inlineItem threadId (some item) hnd hv
    simp only [Option.toList, List.singleton_append] at hp
    rcases option_toList_append_length _ _ h1 with ⟨hcn, hlen⟩ | ⟨x, -, hnil⟩
    · have he2 := perm_eq_of_length_le_one _ _ hp hlen
      have hn : (QHash.remove threadId s.inlineItem).filterMap (fun e => e.2) = [] := by
        rw [he2] at hlen
        simp only [List.length_cons] at hlen
        exact List.length_eq_zero.1 (by omega)
      rw [hn] at he2
      rw [hcn, he2] at heq
      rw [hi, hc, he, hh, hq, hcn]
      simp only [QHash.insert, List.filterMap_cons, hn]
      rw [heq]
      simp
    · rw [hnil] at hp
      exact absurd hp.length_eq (by simp)
  | consumerDequeue first hc0 hq hc hi he hh hl =>
    refine ⟨?_, by rw [hi]; exact hnd, by rw [hl, hh, hlc]⟩
    rw [hc, hi] at h2
    simp only [Option.toList, List.singleton_append, List.length_cons] at h2
    have hn : s.inlineItem.filterMap (fun e => e.2) = [] :=
      List.length_eq_zero.1 (by omega)
    rw [hc0, hn] at heq
    rw [hc, hi, he, hh, hn, heq, hq]
    simp
  | consumerHandle item hc0 hq hc hi he hh hl =>
    refine ⟨?_, by rw [hi]; exact hnd, by rw [hl, hh, hlc]⟩
    rw [hc0] at h1
    simp only [Option.toList, List.singleton_append, List.length_cons] at h1
    have hn : s.inlineItem.filterMap (fun e => e.2) = [] :=
      List.length_eq_zero.1 (by omega)
    rw [hc0, hn] at heq
    rw [hc, hi, he, hh, hn, hq, heq]
    simp

/-! ## Runs -/

theorem singleHolder_head (env : LogEnv) (defs : VerboseDefs) (tr : List Event) (s : LogState)
    (h : singleHolder env defs tr s = true) : (heldItems s).length ≤ 1 := by
  cases tr with
  | nil => simpa [singleHolder] using h
  | cons e rest =>
    simp only [singleHolder, Bool.and_eq_true, decide_eq_true_eq] at h
    exact h.1

theorem run_queueInv (env : LogEnv) (defs : VerboseDefs) (tr : List Event) (s : LogState)
    (hinv : QueueInv s) (h : singleHolder env defs tr s = true) :
    QueueInv (run env defs tr s) := by
  induction tr generalizing s with
  | nil => exact hinv
  | cons e rest ih =>
    have h1 := singleHolder_head env defs _ s h
    simp only [singleHolder, Bool.and_eq_true, decide_eq_true_eq] at h
    have h2 := singleHolder_head env defs rest _ h.2
    exact ih _ (queueMove_inv s _ (step_move env defs s e) hinv h1 h2) h.2

theorem freshRunning_queueInv (s : LogState) (h : FreshRunning s) : QueueInv s := by
  obtain ⟨-, -, hq, hc, hi, he, hh, hl⟩ := h
  unfold QueueInv heldItems
  rw [hq, hc, hi, he, hh, hl]
  exact ⟨rfl, List.nodup_nil, rfl⟩

theorem freshRunning_sample :
    FreshRunning (sampleState (some (sampleThread ThreadPhase.inLoop)) false) :=
  ⟨⟨_, rfl, rfl, rfl⟩, rfl, rfl, rfl, rfl, rfl, rfl, rfl⟩

theorem inlineLoop_none (env : LogEnv) (defs : VerboseDefs) (threadId : Nat) (fuel : Nat)
    (s : LogState) (h : QHash.value s.inlineItem threadId = none) :
    inlineLoop env defs threadId fuel s = s := by
  cases fuel with
  | zero => rfl
  | succ n => simp only [inlineLoop, h]

theorem inlineLoop_some (env : LogEnv) (defs : VerboseDefs) (threadId : Nat) (fuel : Nat)
    (s : LogState) (o : Option LoggingItem) (h : QHash.value s.inlineItem threadId = some o) :
    inlineLoop env defs threadId (fuel + 1) s
      = inlineLoop env defs threadId fuel
          (inlineRelock (inlineHandle env defs s threadId) threadId) := by
  simp only [inlineLoop, h]

theorem inlineRelock_leave (s : LogState) (threadId : Nat)
    (hv : QHash.value s.inlineItem threadId = some none) (hq : s.logQueue = []) :
    inlineRelock s threadId = { s with inlineItem := QHash.remove threadId s.inlineItem } := by
  unfold inlineRelock
  split
  · split
    · rfl
    · rename_i hq1
      rw [hq] at hq1
      cases hq1
  · rename_i hno
    exact absurd hv hno

theorem inlineRelock_dequeue (s : LogState) (threadId : Nat) (first : LoggingItem)
    (rest : List LoggingItem)
    (hv : QHash.value s.inlineItem threadId = some none) (hq : s.logQueue = first :: rest) :
    inlineRelock s threadId
      = { s with logQueue := rest
                 inlineItem := QHash.insert threadId (some first) s.inlineItem } := by
  unfold inlineRelock
  split
  · split
    · rename_i hq1
      rw [hq] at hq1
      cases hq1
    · rename_i first1 rest1 hq1
      rw [hq] at hq1
      injection hq1 with h1 h2
      subst h1
      subst h2
      rfl
  · rename_i hno
    exact absurd hv hno

/-- The inline loop of one thread empties the queue. -/
theorem inlineLoop_drain (env : LogEnv) (defs : VerboseDefs) (threadId : Nat)
    (t : LoggerThread) (q : List LoggingItem) :
    ∀ (s : LogState) (first : LoggingItem) (fuel : Nat),
      s.logThread = some t → QHash.value s.inlineItem threadId = some (some first) →
      s.logQueue = q → q.length + 1 ≤ fuel →
      (inlineLoop env defs threadId fuel s).logQueue = []
      ∧ (inlineLoop env defs threadId fuel s).handleItemCalls
          = s.handleItemCalls ++ first :: q
      ∧ (inlineLoop env defs threadId fuel s).logConsoleCalls
          = s.logConsoleCalls ++ first :: q
      ∧ (inlineLoop env defs threadId fuel s).enqueued = s.enqueued
      ∧ QHash.value (inlineLoop env defs threadId fuel s).inlineItem threadId = none := by
  induction q with
  | nil =>
    intro s first fuel ht hv hq hfuel
    obtain ⟨n, rfl⟩ : ∃ n, fuel = n + 1 := ⟨fuel - 1, by omega⟩
    obtain ⟨p1, p2, p3, p4, p5, p6, p7, p8⟩ :=
      inlineHandle_effect env defs s threadId first t hv ht
    rw [inlineLoop_some env defs threadId n s _ hv]
    have hv1 : QHash.value (inlineHandle env defs s threadId).inlineItem threadId
        = some none := by
      rw [p5]; exact QHash.value_insert_self _ _ _
    have hr := inlineRelock_leave (inlineHandle env defs s threadId) threadId hv1
      (p1.trans hq)
    rw [hr, inlineLoop_none _ _ _ _ _ (QHash.value_remove_self _ _)]
    exact ⟨p1.trans hq, p7, p8, p6, QHash.value_remove_self _ _⟩
  | cons x rest ih =>
    intro s first fuel ht hv hq hfuel
    obtain ⟨n, rfl⟩ : ∃ n, fuel = n + 1 := ⟨fuel - 1, by omega⟩
    obtain ⟨p1, p2, p3, p4, p5, p6, p7, p8⟩ :=
      inlineHandle_effect env defs s threadId first t hv ht
    rw [inlineLoop_some env defs threadId n s _ hv]
    have hv1 : QHash.value (inlineHandle env defs s threadId).inlineItem threadId
        = some none := by
      rw [p5]; exact QHash.value_insert_self _ _ _
    have hr := inlineRelock_dequeue (inlineHandle env defs s threadId) threadId x rest hv1
      (p1.trans hq)
    rw [hr]
    simp only [List.length_cons] at hfuel
    obtain ⟨r1, r2, r3, r4, r5⟩ := ih
      { inlineHandle env defs s threadId with
        logQueue := rest
        inlineItem := QHash.insert threadId (some x)
          (inlineHandle env defs s threadId).inlineItem } x n
      (p2.trans ht) (QHash.value_insert_self _ _ _) rfl (by omega)
    refine ⟨r1, ?_, ?_, r4.trans p6, r5⟩
    · rw [r2]
      show (inlineHandle env defs s threadId).handleItemCalls ++ x :: rest = _
      rw [p7]
      simp
    · rw [r3]
      show (inlineHandle env defs s threadId).logConsoleCalls ++ x :: rest = _
      rw [p8]
      simp

theorem inlineCondition_true (s : LogState) (t : LoggerThread) (ht : s.logThread = some t)
    (hf : s.logThreadFinished = true) (hr : t.isRunning = false) :
    inlineCondition s = true := by
  unfold inlineCondition
  rw [ht, hf]
  simp only [hr, Bool.not_false, Bool.and_self]

/-- How a step changes the logger thread and the finished flag. -/
theorem step_thread (env : LogEnv) (defs : VerboseDefs) (s : LogState) (e : Event) :
    ((step env defs s e).logThread = s.logThread
      ∧ (step env defs s e).logThreadFinished = s.logThreadFinished)
    ∨ (e = Event.stop ∧ (step env defs s e).logThreadFinished = s.logThreadFinished
      ∧ ∃ t, s.logThread = some t
        ∧ (step env defs s e).logThread = some { t with m_aborted := true })
    ∨ (e = Event.consumerLock ∧ (step env defs s e).logThreadFinished = true
      ∧ ∃ t, s.logThread = some t ∧ t.phase = ThreadPhase.inLoop ∧ t.m_aborted = true
        ∧ s.logQueue = [] ∧ s.consumerItem = none
        ∧ (step env defs s e).logThread = some { t with phase := ThreadPhase.exited })
    ∨ (e = Event.threadExit ∧ (step env defs s e).logThreadFinished = s.logThreadFinished
      ∧ ∃ t, s.logThread = some t ∧ t.phase = ThreadPhase.exited
        ∧ (step env defs s e).logThread = some { t with phase := ThreadPhase.notRunning }) := by
  cases e with
  | logPrintLine c mask level file line function fromQString format arguments =>
    left
    simp only [step]
    split
    · exact ⟨rfl, rfl⟩
    · obtain ⟨item, -, -, -, -, -, -, e7, e8, -⟩ :=
        logPrintLineEnter_effect env s c mask level file line function fromQString format
          arguments
      exact ⟨e7, e8⟩
  | inlineHandle threadId => exact Or.inl (inlineHandle_move env defs s threadId).2
  | inlineRelock threadId => exact Or.inl (inlineRelock_move s threadId).2
  | registerThread c name =>
    left
    simp only [step]
    split
    · exact ⟨rfl, rfl⟩
    · exact (loggingRegisterThread_move env s c name).2
  | deregisterThread c =>
    left
    simp only [step]
    split
    · exact ⟨rfl, rfl⟩
    · exact (loggingDeregisterThread_move env s c).2
  | stop =>
    simp only [step, stop]
    split
    · rename_i t ht
      exact Or.inr (Or.inl ⟨trivial, rfl, t, ht, rfl⟩)
    · exact Or.inl ⟨rfl, rfl⟩
  | consumerLock =>
    simp only [step, consumerLock]
    split
    · rename_i t ht hc
      split
      · rename_i hp
        split
        · split
          · exact Or.inl ⟨rfl, rfl⟩
          · exact Or.inl ⟨rfl, rfl⟩
        · rename_i hcond
          simp only [Bool.or_eq_true, Bool.not_eq_true', not_or, Bool.not_eq_false] at hcond
          refine Or.inr (Or.inr (Or.inl ⟨trivial, rfl, t, ht, hp, hcond.1, ?_, hc, rfl⟩))
          exact List.isEmpty_iff.1 hcond.2
      · exact Or.inl ⟨rfl, rfl⟩
    · exact Or.inl ⟨rfl, rfl⟩
  | consumerHandle => exact Or.inl (consumerHandle_move env defs s).2
  | threadExit =>
    simp only [step, threadExit]
    split
    · rename_i t ht
      split
      · rename_i hp
        exact Or.inr (Or.inr (Or.inr ⟨trivial, rfl, t, ht, hp, rfl⟩))
      · exact Or.inl ⟨rfl, rfl⟩
    · exact Or.inl ⟨rfl, rfl⟩

/-- The finished flag is set by the logger thread alone, with the abort flag set
    and the queue empty. -/
theorem step_finished (env : LogEnv) (defs : VerboseDefs) (s : LogState) (e : Event)
    (h0 : s.logThreadFinished = false) (h1 : (step env defs s e).logThreadFinished = true) :
    e = Event.consumerLock
    ∧ ∃ t, s.logThread = some t ∧ t.phase = ThreadPhase.inLoop ∧ t.m_aborted = true
      ∧ s.logQueue = [] ∧ s.consumerItem = none := by
  rcases step_thread env defs s e with h | h | h | h
  · rw [h.2, h0] at h1; cases h1
  · rw [h.2.1, h0] at h1; cases h1
  · obtain ⟨he, -, t, ht, hp, ha, hq, hc, -⟩ := h
    exact ⟨he, t, ht, hp, ha, hq, hc⟩
  · rw [h.2.1, h0] at h1; cases h1

theorem step_finished_mono (env : LogEnv) (defs : VerboseDefs) (s : LogState) (e : Event)
    (h0 : s.logThreadFinished = true) : (step env defs s e).logThreadFinished = true := by
  rcases step_thread env defs s e with h | h | h | h
  · rw [h.2, h0]
  · rw [h.2.1, h0]
  · exact h.2.1
  · rw [h.2.1, h0]

theorem run_finished_mono (env : LogEnv) (defs : VerboseDefs) (tr : List Event)
    (s : LogState) (h0 : s.logThreadFinished = true) :
    (run env defs tr s).logThreadFinished = true := by
  induction tr generalizing s with
  | nil => exact h0
  | cons e rest ih => exact ih _ (step_finished_mono env defs s e h0)

theorem consumer_held (s : LogState) (hi : s.inlineItem = []) :
    (heldItems s).length ≤ 1 := by
  unfold heldItems
  rw [hi]
  cases s.consumerItem <;> simp

theorem queueMove_inline_nil (s s' : LogState) (hm : QueueMove s s')
    (hf : s.logThreadFinished = false) (hi : s.inlineItem = []) : s'.inlineItem = [] := by
  cases hm with
  | same hq hc hi' he hh hl => rw [hi', hi]
  | enqueue item hq hc hi' he hh hl => rw [hi', hi]
  | enqueueInline threadId item first hf' hv hq hc hi' he hh hl =>
    rw [hf] at hf'; cases hf'
  | inlineDequeue threadId first hv hq hc hi' he hh hl =>
    rw [hi] at hv; cases hv
  | inlineLeave threadId hv hq hc hi' he hh hl =>
    rw [hi] at hv; cases hv
  | inlineHandle threadId item hv hq hc hi' he hh hl =>
    rw [hi] at hv; cases hv
  | consumerDequeue first hc0 hq hc hi' he hh hl => rw [hi', hi]
  | consumerHandle item hc0 hq hc hi' he hh hl => rw [hi', hi]

/-- The running logger keeps its invariant as long as it has not finished. -/
theorem step_runningInv (env : LogEnv) (defs : VerboseDefs) (s : LogState) (e : Event)
    (hinv : RunningInv s) (h1 : (step env defs s e).logThreadFinished = false) :
    RunningInv (step env defs s e) := by
  obtain ⟨⟨t, ht, hp⟩, hf, hi, hq⟩ := hinv
  have hi' := queueMove_inline_nil s _ (step_move env defs s e) hf hi
  refine ⟨?_, h1, hi', queueMove_inv s _ (step_move env defs s e) hq (consumer_held s hi)
    (consumer_held _ hi')⟩
  rcases step_thread env defs s e with h | h | h | h
  · exact ⟨t, h.1.trans ht, hp⟩
  · obtain ⟨-, -, t', ht', hs⟩ := h
    rw [ht] at ht'
    injection ht' with ht'
    subst ht'
    exact ⟨_, hs, hp⟩
  · rw [h.2.1] at h1; cases h1
  · obtain ⟨-, -, t', ht', hp', -⟩ := h
    rw [ht] at ht'
    injection ht' with ht'
    subst ht'
    rw [hp] at hp'
    cases hp'

theorem run_runningInv (env : LogEnv) (defs : VerboseDefs) (tr : List Event) (s : LogState)
    (hinv : RunningInv s) (h1 : (run env defs tr s).logThreadFinished = false) :
    RunningInv (run env defs tr s) := by
  induction tr generalizing s with
  | nil => exact hinv
  | cons e rest ih =>
    have hs : (step env defs s e).logThreadFinished = false := by
      cases hf : (step env defs s e).logThreadFinished with
      | false => rfl
      | true =>
        have := run_finished_mono env defs rest _ hf
        rw [run] at h1
        rw [this] at h1
        cases h1
    exact ih _ (step_runningInv env defs s e hinv hs) h1

theorem queueMove_enqueued (s s' : LogState) (hm : QueueMove s s') :
    ∃ l, s'.enqueued = s.enqueued ++ l := by
  cases hm with
  | same hq hc hi he hh hl => exact ⟨[], by rw [he, List.append_nil]⟩
  | enqueue item hq hc hi he hh hl => exact ⟨_, he⟩
  | enqueueInline threadId item first hf hv hq hc hi he hh hl => exact ⟨_, he⟩
  | inlineDequeue threadId first hv hq hc hi he hh hl =>
    exact ⟨[], by rw [he, List.append_nil]⟩
  | inlineLeave threadId hv hq hc hi he hh hl => exact ⟨[], by rw [he, List.append_nil]⟩
  | inlineHandle threadId item hv hq hc hi he hh hl =>
    exact ⟨[], by rw [he, List.append_nil]⟩
  | consumerDequeue first hc0 hq hc hi he hh hl => exact ⟨[], by rw [he, List.append_nil]⟩
  | consumerHandle item hc0 hq hc hi he hh hl => exact ⟨[], by rw [he, List.append_nil]⟩

theorem run_enqueued (env : LogEnv) (defs : VerboseDefs) (tr : List Event) (s : LogState) :
    ∃ l, (run env defs tr s).enqueued = s.enqueued ++ l := by
  induction tr generalizing s with
  | nil => exact ⟨[], by simp [run]⟩
  | cons e rest ih =>
    obtain ⟨l1, h1⟩ := queueMove_enqueued s _ (step_move env defs s e)
    obtain ⟨l2, h2⟩ := ih (step env defs s e)
    exact ⟨l1 ++ l2, by rw [run, h2, h1, List.append_assoc]⟩

theorem stop_runningInv (s : LogState) (hinv : RunningInv s) : RunningInv (stop s) := by
  obtain ⟨⟨t, ht, hp⟩, hf, hi, hq⟩ := hinv
  unfold stop
  rw [ht]
  exact ⟨⟨_, rfl, hp⟩, hf, hi, hq⟩

theorem stop_aborted (s : LogState) (t : LoggerThread) (ht : s.logThread = some t) :
    (stop s).logThread = some { t with m_aborted := true } ∧ (stop s).logQueue = s.logQueue
    ∧ (stop s).handleItemCalls = s.handleItemCalls ∧ (stop s).enqueued = s.enqueued := by
  unfold stop
  rw [ht]
  exact ⟨rfl, rfl, rfl, rfl⟩

theorem consumerLock_dequeue (s : LogState) (t : LoggerThread) (first : LoggingItem)
    (rest : List LoggingItem) (ht : s.logThread = some t) (hp : t.phase = ThreadPhase.inLoop)
    (hc : s.consumerItem = none) (hq : s.logQueue = first :: rest) :
    (consumerLock s).logQueue = rest ∧ (consumerLock s).consumerItem = some first
    ∧ (consumerLock s).logThread = s.logThread
    ∧ (consumerLock s).logThreadFinished = s.logThreadFinished
    ∧ (consumerLock s).inlineItem = s.inlineItem ∧ (consumerLock s).enqueued = s.enqueued
    ∧ (consumerLock s).handleItemCalls = s.handleItemCalls
    ∧ (consumerLock s).logConsoleCalls = s.logConsoleCalls := by
  unfold consumerLock
  split
  · rename_i t1 ht1 hc1
    rw [ht] at ht1
    injection ht1 with ht1
    subst ht1
    rw [if_pos hp]
    have hcond : (!t.m_aborted || !s.logQueue.isEmpty) = true := by
      rw [hq]; simp
    rw [if_pos hcond]
    split
    · rename_i hq1
      rw [hq] at hq1
      cases hq1
    · rename_i first1 rest1 hq1
      rw [hq] at hq1
      injection hq1 with h1 h2
      subst h1
      subst h2
      exact ⟨rfl, rfl, rfl, rfl, rfl, rfl, rfl, rfl⟩
  · rename_i hno
    exact absurd hc (hno t ht)

theorem consumerLock_finish (s : LogState) (t : LoggerThread) (ht : s.logThread = some t)
    (hp : t.phase = ThreadPhase.inLoop) (ha : t.m_aborted = true)
    (hc : s.consumerItem = none) (hq : s.logQueue = []) :
    (consumerLock s).logThreadFinished = true
    ∧ (consumerLock s).handleItemCalls = s.handleItemCalls
    ∧ (consumerLock s).logQueue = [] := by
  unfold consumerLock
  split
  · rename_i t1 ht1 hc1
    rw [ht] at ht1
    injection ht1 with ht1
    subst ht1
    rw [if_pos hp]
    have hcond : ¬ ((!t.m_aborted || !s.logQueue.isEmpty) = true) := by
      rw [hq, ha]; simp
    rw [if_neg hcond]
    exact ⟨rfl, rfl, hq⟩
  · rename_i hno
    exact absurd hc (hno t ht)

theorem consumerHandle_effect (env : LogEnv) (defs : VerboseDefs) (s : LogState)
    (t : LoggerThread) (item : LoggingItem) (ht : s.logThread = some t)
    (hc : s.consumerItem = some item) :
    (consumerHandle env defs s).logQueue = s.logQueue
    ∧ (consumerHandle env defs s).consumerItem = none
    ∧ (consumerHandle env defs s).logThread = s.logThread
    ∧ (consumerHandle env defs s).logThreadFinished = s.logThreadFinished
    ∧ (consumerHandle env defs s).inlineItem = s.inlineItem
    ∧ (consumerHandle env defs s).enqueued = s.enqueued
    ∧ (consumerHandle env defs s).handleItemCalls = s.handleItemCalls ++ [item]
    ∧ (consumerHandle env defs s).logConsoleCalls = s.logConsoleCalls ++ [item] := by
  unfold consumerHandle
  split
  · rename_i t1 item1 ht1 hc1
    rw [hc] at hc1
    injection hc1 with hc1
    subst hc1
    obtain ⟨p1, p2, p3, p4, p5, p6, p7, p8⟩ := consumerProcess_effect env defs t1 s item
    exact ⟨p1, rfl, p2, p3, p5, p6, p7, p8⟩
  · rename_i hno
    exact absurd hc (hno t item ht)

theorem consumerHandle_idle (env : LogEnv) (defs : VerboseDefs) (s : LogState)
    (hc : s.consumerItem = none) : consumerHandle env defs s = s := by
  unfold consumerHandle
  split
  · rename_i t1 item1 ht1 hc1
    rw [hc] at hc1
    cases hc1
  · rfl

/-- The logger thread alone, with nothing held, handles the whole queue in
    order. -/
theorem run_consumeSteps (env : LogEnv) (defs : VerboseDefs) (t : LoggerThread)
    (q : List LoggingItem) :
    ∀ s : LogState, s.logThread = some t → t.phase = ThreadPhase.inLoop →
      s.consumerItem = none → s.logQueue = q →
      (run env defs (consumeSteps q.length) s).logQueue = []
      ∧ (run env defs (consumeSteps q.length) s).consumerItem = none
      ∧ (run env defs (consumeSteps q.length) s).logThread = s.logThread
      ∧ (run env defs (consumeSteps q.length) s).logThreadFinished = s.logThreadFinished
      ∧ (run env defs (consumeSteps q.length) s).inlineItem = s.inlineItem
      ∧ (run env defs (consumeSteps q.length) s).enqueued = s.enqueued
      ∧ (run env defs (consumeSteps q.length) s).handleItemCalls = s.handleItemCalls ++ q
      ∧ (run env defs (consumeSteps q.length) s).logConsoleCalls
          = s.logConsoleCalls ++ q := by
  induction q with
  | nil =>
    intro s ht hp hc hq
    exact ⟨hq, hc, rfl, rfl, rfl, rfl, (List.append_nil _).symm, (List.append_nil _).symm⟩
  | cons x rest ih =>
    intro s ht hp hc hq
    obtain ⟨a1, a2, a3, a4, a5, a6, a7, a8⟩ := consumerLock_dequeue s t x rest ht hp hc hq
    obtain ⟨b1, b2, b3, b4, b5, b6, b7, b8⟩ :=
      consumerHandle_effect env defs (consumerLock s) t x (a3.trans ht) a2
    obtain ⟨c1, c2, c3, c4, c5, c6, c7, c8⟩ :=
      ih (consumerHandle env defs (consumerLock s)) (b3.trans (a3.trans ht)) hp b2
        (b1.trans a1)
    show (run env defs (consumeSteps rest.length)
        (consumerHandle env defs (consumerLock s))).logQueue = [] ∧ _
    refine ⟨c1, c2, c3.trans (b3.trans a3), c4.trans (b4.trans a4), c5.trans (b5.trans a5),
      c6.trans (b6.trans a6), ?_, ?_⟩
    · show (run env defs (consumeSteps rest.length)
        (consumerHandle env defs (consumerLock s))).handleItemCalls = _
      rw [c7, b7, a7]; simp
    · show (run env defs (consumeSteps rest.length)
        (consumerHandle env defs (consumerLock s))).logConsoleCalls = _
      rw [c8, b8, a8]; simp

/-- From a state of the running logger, the logger thread alone handles every
    record enqueued so far. -/
theorem run_drain (env : LogEnv) (defs : VerboseDefs) (s : LogState) (hinv : RunningInv s) :
    (run env defs (Event.consumerHandle :: consumeSteps s.logQueue.length) s).logQueue = []
    ∧ (run env defs (Event.consumerHandle :: consumeSteps s.logQueue.length) s).consumerItem
        = none
    ∧ (run env defs (Event.consumerHandle :: consumeSteps s.logQueue.length) s).logThread
        = s.logThread
    ∧ (run env defs (Event.consumerHandle :: consumeSteps s.logQueue.length)
        s).logThreadFinished = false
    ∧ (run env defs (Event.consumerHandle :: consumeSteps s.logQueue.length) s).enqueued
        = s.enqueued
    ∧ (run env defs (Event.consumerHandle :: consumeSteps s.logQueue.length)
        s).handleItemCalls = s.enqueued
    ∧ (run env defs (Event.consumerHandle :: consumeSteps s.logQueue.length)
        s).logConsoleCalls = s.enqueued := by
  obtain ⟨⟨t, ht, hp⟩, hf, hi, heq, -, hlc⟩ := hinv
  unfold heldItems at heq
  rw [hi] at heq
  simp only [List.filterMap_nil, List.append_nil] at heq
  have hrun0 : run env defs (Event.consumerHandle :: consumeSteps s.logQueue.length) s
      = run env defs (consumeSteps s.logQueue.length) (consumerHandle env defs s) := rfl
  rw [hrun0]
  cases hc : s.consumerItem with
  | none =>
    rw [consumerHandle_idle env defs s hc]
    obtain ⟨c1, c2, c3, c4, c5, c6, c7, c8⟩ := run_consumeSteps env defs t s.logQueue s ht hp
      hc rfl
    rw [hc] at heq
    simp only [Option.toList, List.append_nil] at heq
    refine ⟨c1, c2, c3, c4.trans hf, c6, ?_, ?_⟩
    · rw [c7, heq]
    · rw [c8, heq, hlc]
  | some item =>
    obtain ⟨b1, b2, b3, b4, b5, b6, b7, b8⟩ := consumerHandle_effect env defs s t item ht hc
    have hrun := run_consumeSteps env defs t s.logQueue (consumerHandle env defs s)
      (b3.trans ht) hp b2 b1
    obtain ⟨c1, c2, c3, c4, c5, c6, c7, c8⟩ := hrun
    rw [hc] at heq
    simp only [Option.toList] at heq
    refine ⟨c1, c2, c3.trans b3, c4.trans (b4.trans hf), c6.trans b6, ?_, ?_⟩
    · rw [c7, b7, heq]
    · rw [c8, b8, heq, hlc]

theorem emitted_cons (env : LogEnv) (e : Event) (tr : List Event) :
    emitted env (e :: tr) = emitted env [e] ++ emitted env tr := by
  cases e <;> simp [emitted]

/-- While no stop is requested, the steps of producers that log and of the
    logger thread keep the logger running, and the enqueued messages are the
    emitted ones. -/
theorem step_live (env : LogEnv) (defs : VerboseDefs) (s : LogState) (e : Event)
    (hinv : RunningInv s) (hlive : ∃ t, s.logThread = some t ∧ t.m_aborted = false)
    (he : e.isLogOrConsumer = true) :
    RunningInv (step env defs s e)
    ∧ (∃ t, (step env defs s e).logThread = some t ∧ t.m_aborted = false)
    ∧ (step env defs s e).enqueued.map (fun i => i.m_message)
        = s.enqueued.map (fun i => i.m_message) ++ emitted env [e] := by
  obtain ⟨t, ht, ha⟩ := hlive
  have hthread : (step env defs s e).logThread = s.logThread
      ∧ (step env defs s e).logThreadFinished = s.logThreadFinished := by
    rcases step_thread env defs s e with h | h | h | h
    · exact h
    · rw [h.1] at he; cases he
    · obtain ⟨-, -, t', ht', -, ha', -⟩ := h
      rw [ht] at ht'
      injection ht' with ht'
      subst ht'
      rw [ha] at ha'
      cases ha'
    · rw [h.1] at he; cases he
  have hf := hinv.2.1
  have hi := hinv.2.2.1
  refine ⟨step_runningInv env defs s e hinv (hthread.2.trans hf), ⟨t, hthread.1.trans ht, ha⟩,
    ?_⟩
  cases e with
  | logPrintLine c mask level file line function fromQString format arguments =>
    obtain ⟨item, e1, -, -, -, -, -, -, -, -, e10, -⟩ :=
      logPrintLineEnter_effect env s c mask level file line function fromQString format
        arguments
    have hstep : step env defs s
        (Event.logPrintLine c mask level file line function fromQString format arguments)
        = logPrintLineEnter env s c mask level file line function fromQString format
            arguments := by
      simp only [step, hi, QHash.value, Option.isSome_none, Bool.false_eq_true, if_false]
    rw [hstep, e10]
    simp only [List.map_append, List.map_cons, List.map_nil, emitted, e1]
  | consumerLock =>
    have : (step env defs s Event.consumerLock).enqueued = s.enqueued := by
      simp only [step, consumerLock]
      split
      · split
        · split
          · split <;> rfl
          · rfl
        · rfl
      · rfl
    rw [this]
    simp [emitted]
  | consumerHandle =>
    have : (step env defs s Event.consumerHandle).enqueued = s.enqueued := by
      simp only [step, consumerHandle]
      split
      · exact (consumerProcess_effect env defs _ s _).2.2.2.2.2.1
      · rfl
    rw [this]
    simp [emitted]
  | inlineHandle threadId => cases he
  | inlineRelock threadId => cases he
  | registerThread c name => cases he
  | deregisterThread c => cases he
  | stop => cases he
  | threadExit => cases he

theorem run_live (env : LogEnv) (defs : VerboseDefs) (tr : List Event) (s : LogState)
    (hinv : RunningInv s) (hlive : ∃ t, s.logThread = some t ∧ t.m_aborted = false)
    (he : ∀ e ∈ tr, e.isLogOrConsumer = true) :
    RunningInv (run env defs tr s)
    ∧ (run env defs tr s).enqueued.map (fun i => i.m_message)
        = s.enqueued.map (fun i => i.m_message) ++ emitted env tr := by
  induction tr generalizing s with
  | nil => exact ⟨hinv, by simp [run, emitted]⟩
  | cons e rest ih =>
    obtain ⟨h1, h2, h3⟩ := step_live env defs s e hinv hlive (he e (List.mem_cons_self _ _))
    obtain ⟨r1, r2⟩ := ih _ h1 h2 (fun x hx => he x (List.mem_cons_of_mem _ hx))
    refine ⟨r1, ?_⟩
    rw [run, r2, h3, emitted_cons env e rest, List.append_assoc]

theorem freshRunning_runningInv (s : LogState) (h : FreshRunning s) :
    RunningInv s ∧ ∃ t, s.logThread = some t ∧ t.m_aborted = false := by
  have hq := freshRunning_queueInv s h
  obtain ⟨⟨t, ht, hp, ha⟩, hf, -, -, hi, -⟩ := h
  exact ⟨⟨⟨t, ht, hp⟩, hf, hi, hq⟩, t, ht, ha⟩

/-! ## Thread names -/

theorem sendItem_hash (s : LogState) (item : LoggingItem) :
    (sendItem s item).logThreadHash = s.logThreadHash := by
  unfold sendItem
  split
  · split <;> rfl
  · rfl

theorem deleteItem_hash (s : LogState) (item : LoggingItem) :
    (deleteItem s item).1.logThreadHash = s.logThreadHash
    ∧ (deleteItem s item).2.m_threadName = item.m_threadName := by
  unfold deleteItem
  split <;> exact ⟨rfl, rfl⟩

theorem logConsole_hash (env : LogEnv) (defs : VerboseDefs) (t : LoggerThread)
    (s : LogState) (item : LoggingItem) :
    (logConsole env defs t s item).1.logThreadHash = s.logThreadHash
    ∧ (logConsole env defs t s item).2.1.m_threadName = item.m_threadName := by
  unfold logConsole
  split
  · exact ⟨rfl, rfl⟩
  · split
    · exact ⟨rfl, rfl⟩
    · exact ⟨(deleteItem_hash _ _).1, (deleteItem_hash _ _).2⟩

/-- The name map and the record's name after `consumerProcess` are those after
    `handleItem`. -/
theorem consumerProcess_hash (env : LogEnv) (defs : VerboseDefs) (t : LoggerThread)
    (s : LogState) (item : LoggingItem) :
    (consumerProcess env defs t s item).1.logThreadHash
      = (handleItem env { s with handleItemCalls := s.handleItemCalls ++ [item] }
          (fillItem t s item)).1.logThreadHash
    ∧ (consumerProcess env defs t s item).2.m_threadName
      = (handleItem env { s with handleItemCalls := s.handleItemCalls ++ [item] }
          (fillItem t s item)).2.m_threadName := by
  unfold consumerProcess
  simp only []
  refine ⟨?_, ?_⟩
  · rw [(deleteItem_hash _ _).1, (logConsole_hash _ _ _ _ _).1]
    rfl
  · rw [(deleteItem_hash _ _).2, (logConsole_hash _ _ _ _ _).2]
    rfl

theorem handleItem_plain (env : LogEnv) (s : LogState) (item : LoggingItem)
    (h1 : item.m_type.kRegistering = false) (h2 : item.m_type.kDeregistering = false) :
    (handleItem env s item).1.logThreadHash = s.logThreadHash
    ∧ (handleItem env s item).2 = item := by
  unfold handleItem
  simp only [h1, h2, Bool.false_eq_true, if_false]
  exact ⟨sendItem_hash _ _, trivial⟩

theorem handleItem_registering (env : LogEnv) (s : LogState) (item : LoggingItem)
    (h1 : item.m_type.kRegistering = true) :
    (handleItem env s item).1.logThreadHash
      = QHash.insert item.m_threadId (item.m_threadName.getD []) s.logThreadHash
    ∧ (handleItem env s item).2.m_threadName = item.m_threadName := by
  unfold handleItem
  simp only [h1, if_true]
  rw [sendItem_hash]
  unfold handleRegistering
  simp only []
  split <;> exact ⟨rfl, rfl⟩

theorem handleItem_deregistering (env : LogEnv) (s : LogState) (item : LoggingItem)
    (h1 : item.m_type.kRegistering = false) (h2 : item.m_type.kDeregistering = true) :
    (handleItem env s item).1.logThreadHash = QHash.remove item.m_threadId s.logThreadHash
    ∧ (handleItem env s item).2.m_threadName
      = match QHash.value s.logThreadHash item.m_threadId with
        | some name => some name
        | none => item.m_threadName := by
  unfold handleItem
  simp only [h1, h2, Bool.false_eq_true, if_false, if_true]
  rw [sendItem_hash]
  cases hv : QHash.value s.logThreadHash item.m_threadId with
  | none =>
    simp only [handleDeregistering, hv]
    exact ⟨(QHash.remove_of_value_none _ _ hv).symm, trivial⟩
  | some name =>
    simp only [handleDeregistering, hv]
    exact ⟨trivial, trivial⟩

/-- A record that is not a registration leaves with the registered name of its
    thread, or with "thread_unknown". -/
theorem consumerProcess_name (env : LogEnv) (defs : VerboseDefs) (t : LoggerThread)
    (s : LogState) (item : LoggingItem) (hn : item.m_threadName = none)
    (h1 : item.m_type.kRegistering = false) :
    (consumerProcess env defs t s item).2.m_threadName
      = some ((QHash.value s.logThreadHash item.m_threadId).getD (qs "thread_unknown")) := by
  rw [(consumerProcess_hash env defs t s item).2]
  have hfill : (fillItem t s item).m_threadName
      = some ((QHash.value s.logThreadHash item.m_threadId).getD (qs "thread_unknown")) := by
    simp only [fillItem, getThreadName, hn]
  cases h2 : item.m_type.kDeregistering with
  | false =>
    rw [(handleItem_plain env _ (fillItem t s item) h1 h2).2]
    exact hfill
  | true =>
    rw [(handleItem_deregistering env _ (fillItem t s item) h1 h2).2]
    show (match QHash.value s.logThreadHash item.m_threadId with
      | some name => some name
      | none => (fillItem t s item).m_threadName) = _
    rw [hfill]
    cases QHash.value s.logThreadHash item.m_threadId <;> rfl

/-- What `consumerProcess` does to the name of the thread `T` in the map. -/
theorem consumerProcess_value (env : LogEnv) (defs : VerboseDefs) (t : LoggerThread)
    (s : LogState) (item : LoggingItem) (T : Nat) :
    (item.m_threadId ≠ T ∨
        (item.m_type.kRegistering = false ∧ item.m_type.kDeregistering = false) →
      QHash.value (consumerProcess env defs t s item).1.logThreadHash T
        = QHash.value s.logThreadHash T)
    ∧ (item.m_threadId = T → item.m_type.kRegistering = false →
        item.m_type.kDeregistering = true →
      QHash.value (consumerProcess env defs t s item).1.logThreadHash T = none)
    ∧ (∀ X, item.m_threadId = T → item.m_type.kRegistering = true →
        item.m_threadName = some X →
      QHash.value (consumerProcess env defs t s item).1.logThreadHash T = some X) := by
  rw [(consumerProcess_hash env defs t s item).1]
  refine ⟨?_, ?_, ?_⟩
  · intro h
    cases h1 : item.m_type.kRegistering with
    | true =>
      rcases h with h | h
      · rw [(handleItem_registering env _ (fillItem t s item) h1).1]
        exact QHash.value_insert_ne _ _ _ _ (fun e => h e.symm)
      · rw [h.1] at h1; cases h1
    | false =>
      cases h2 : item.m_type.kDeregistering with
      | true =>
        rcases h with h | h
        · rw [(handleItem_deregistering env _ (fillItem t s item) h1 h2).1]
          exact QHash.value_remove_ne _ _ _ (fun e => h e.symm)
        · rw [h.2] at h2; cases h2
      | false =>
        rw [(handleItem_plain env _ (fillItem t s item) h1 h2).1]
  · intro hid h1 h2
    rw [(handleItem_deregistering env _ (fillItem t s item) h1 h2).1]
    subst hid
    exact QHash.value_remove_self _ _
  · intro X hid h1 hX
    rw [(handleItem_registering env _ (fillItem t s item) h1).1]
    subst hid
    have : (fillItem t s item).m_threadName = some X := by
      simp only [fillItem, getThreadName, hX]
    rw [this]
    exact QHash.value_insert_self _ _ _

theorem consumeQueue_append (env : LogEnv) (defs : VerboseDefs) (t : LoggerThread)
    (a b : List LoggingItem) (s : LogState) :
    (consumeQueue env defs t (a ++ b) s).1
      = (consumeQueue env defs t b (consumeQueue env defs t a s).1).1
    ∧ (consumeQueue env defs t (a ++ b) s).2
      = (consumeQueue env defs t a s).2
        ++ (consumeQueue env defs t b (consumeQueue env defs t a s).1).2 := by
  induction a generalizing s with
  | nil => exact ⟨rfl, rfl⟩
  | cons x rest ih =>
    obtain ⟨h1, h2⟩ := ih (consumerProcess env defs t s x).1
    constructor
    · exact h1
    · exact congrArg (List.cons (consumerProcess env defs t s x).2) h2

/-- While no record of the thread `T` registers it, and none deregisters it
    unless it has no name, the records of `T` leave with the name that `T` has
    in the map, or with "thread_unknown". -/
theorem consumeQueue_names (env : LogEnv) (defs : VerboseDefs) (t : LoggerThread) (T : Nat)
    (v : Option QString) (q : List LoggingItem) :
    ∀ s : LogState, QHash.value s.logThreadHash T = v →
      (∀ item ∈ q, item.m_threadId = T →
        item.m_type.kRegistering = false ∧ (item.m_type.kDeregistering = true → v = none)) →
      QHash.value (consumeQueue env defs t q s).1.logThreadHash T = v
      ∧ List.Forall₂
          (fun item out => item.m_threadId = T → item.m_threadName = none →
            out.m_threadName = some (v.getD (qs "thread_unknown")))
          q (consumeQueue env defs t q s).2 := by
  induction q with
  | nil =>
    intro s hv _
    exact ⟨hv, List.Forall₂.nil⟩
  | cons x rest ih =>
    intro s hv hq
    have hx := hq x (List.mem_cons_self _ _)
    obtain ⟨k1, k2, -⟩ := consumerProcess_value env defs t s x T
    have hv1 : QHash.value (consumerProcess env defs t s x).1.logThreadHash T = v := by
      by_cases hid : x.m_threadId = T
      · obtain ⟨hr, hd⟩ := hx hid
        cases h2 : x.m_type.kDeregistering with
        | false => rw [k1 (Or.inr ⟨hr, h2⟩), hv]
        | true => rw [k2 hid hr h2, hd h2]
      · rw [k1 (Or.inl hid), hv]
    obtain ⟨r1, r2⟩ := ih (consumerProcess env defs t s x).1 hv1
      (fun item hi => hq item (List.mem_cons_of_mem _ hi))
    refine ⟨r1, List.Forall₂.cons ?_ r2⟩
    intro hid hn
    rw [consumerProcess_name env defs t s x hn (hx hid).1, hid, hv]

theorem run_append (env : LogEnv) (defs : VerboseDefs) (a b : List Event) (s : LogState) :
    run env defs (a ++ b) s = run env defs b (run env defs a s) := by
  induction a generalizing s with
  | nil => rfl
  | cons e rest ih => exact ih _

/-! ## C11: the order in which records are handled -/

/-- C11, a run against the claim: in `overtakingTrace` the records are
    enqueued in the order S0, R1, T1, R2 and passed to `handleItem` in the
    order S0, T1, R2, R1: thread 1 emitted R1 before R2, and R2 is handled
    before R1. -/
theorem run_inline_overtakes :
    (run sampleEnv sampleDefs overtakingTrace
        (sampleState (some (sampleThread ThreadPhase.inLoop)) false)).enqueued.map
        (fun i => (i.m_threadId, i.m_message))
      = [(3, qs "S0"), (1, qs "R1"), (2, qs "T1"), (1, qs "R2")]
    ∧ (run sampleEnv sampleDefs overtakingTrace
        (sampleState (some (sampleThread ThreadPhase.inLoop)) false)).handleItemCalls.map
        (fun i => (i.m_threadId, i.m_message))
      = [(3, qs "S0"), (2, qs "T1"), (1, qs "R2"), (1, qs "R1")] := by
  decide

/-- C11, amended: in a run from the start of the logger in which at most one
    record is held (dequeued and not yet handled) at any time, the records
    enqueued so far are, in enqueue order, the records passed to `handleItem`,
    then the record held, then the queue; and `logConsole` is called with the
    same records in the same order as `handleItem`. -/
theorem run_fifo_single_holder (env : LogEnv) (defs : VerboseDefs) (tr : List Event)
    (s0 : LogState) (hfresh : FreshRunning s0)
    (hsingle : singleHolder env defs tr s0 = true) :
    (run env defs tr s0).enqueued
      = (run env defs tr s0).handleItemCalls ++ heldItems (run env defs tr s0)
        ++ (run env defs tr s0).logQueue
    ∧ (run env defs tr s0).logConsoleCalls = (run env defs tr s0).handleItemCalls := by
  obtain ⟨h1, -, h3⟩ := run_queueInv env defs tr s0 (freshRunning_queueInv s0 hfresh) hsingle
  exact ⟨h1, h3⟩

/-- C11, amended, at `orderlyTrace`: one record is held at a time, and the
    records are handled in the order in which they were enqueued. -/
theorem run_fifo_single_holder_witness :
    singleHolder sampleEnv sampleDefs orderlyTrace
        (sampleState (some (sampleThread ThreadPhase.inLoop)) false) = true
    ∧ (run sampleEnv sampleDefs orderlyTrace
        (sampleState (some (sampleThread ThreadPhase.inLoop)) false)).enqueued
      = (run sampleEnv sampleDefs orderlyTrace
          (sampleState (some (sampleThread ThreadPhase.inLoop)) false)).handleItemCalls
        ++ heldItems (run sampleEnv sampleDefs orderlyTrace
          (sampleState (some (sampleThread ThreadPhase.inLoop)) false))
        ++ (run sampleEnv sampleDefs orderlyTrace
          (sampleState (some (sampleThread ThreadPhase.inLoop)) false)).logQueue :=
  ⟨by decide,
    (run_fifo_single_holder sampleEnv sampleDefs orderlyTrace
      (sampleState (some (sampleThread ThreadPhase.inLoop)) false) freshRunning_sample
      (by decide)).1⟩

/-! ## C12: the inline processing after shutdown -/

/-- C12, a run against the claim: after `stop` and the exit of the logger's
    loop, `logThreadFinished` is set and `logThread` is not null, but the thread
    has not ended yet; a `LogPrintLine` call made then returns with its record
    in the queue and nothing passed to `handleItem`. -/
theorem LogPrintLine_finished_not_ended :
    (run sampleEnv sampleDefs [Event.stop, Event.consumerLock]
      (sampleState (some (sampleThread ThreadPhase.inLoop)) false)).logThreadFinished = true
    ∧ (run sampleEnv sampleDefs [Event.stop, Event.consumerLock]
      (sampleState (some (sampleThread ThreadPhase.inLoop)) false)).logThread.isSome = true
    ∧ (LogPrintLine sampleEnv sampleDefs
        (run sampleEnv sampleDefs [Event.stop, Event.consumerLock]
          (sampleState (some (sampleThread ThreadPhase.inLoop)) false))
        (sampleCaller 1) 2 6 (qs "main.cpp") 10 (qs "main") true (qs "late") []).logQueue
      = [sampleItem 1 messageType none (qs "late")]
    ∧ (LogPrintLine sampleEnv sampleDefs
        (run sampleEnv sampleDefs [Event.stop, Event.consumerLock]
          (sampleState (some (sampleThread ThreadPhase.inLoop)) false))
        (sampleCaller 1) 2 6 (qs "main.cpp") 10 (qs "main") true (qs "late")
        []).handleItemCalls = [] := by
  decide

/-- C12, amended: for every `LogPrintLine` call made when `logThread` is not
    null, `logThreadFinished` is set and the logger thread is no longer running,
    and run with no other thread in between, when the call returns the queue is
    empty, and the records that were in the queue followed by the new record
    have been passed, in this order and once each, to `handleItem` and to
    `logConsole` by the calling thread. -/
theorem LogPrintLine_inline (env : LogEnv) (defs : VerboseDefs) (s : LogState) (c : Caller)
    (mask : Nat) (level : Int) (file : QString) (line : Int) (function : QString)
    (fromQString : Bool) (format : QString) (arguments : List QString) (t : LoggerThread)
    (ht : s.logThread = some t) (hf : s.logThreadFinished = true)
    (hr : t.isRunning = false) :
    ∃ item : LoggingItem,
      item.m_threadId = c.threadId
      ∧ item.m_message = env.vsnprintf env.LOGLINE_MAX
          (if fromQString && format.contains '%' then escapePercent format else format)
          arguments
      ∧ (LogPrintLine env defs s c mask level file line function fromQString format
          arguments).enqueued = s.enqueued ++ [item]
      ∧ (LogPrintLine env defs s c mask level file line function fromQString format
          arguments).logQueue = []
      ∧ (LogPrintLine env defs s c mask level file line function fromQString format
          arguments).handleItemCalls = s.handleItemCalls ++ (s.logQueue ++ [item])
      ∧ (LogPrintLine env defs s c mask level file line function fromQString format
          arguments).logConsoleCalls = s.logConsoleCalls ++ (s.logQueue ++ [item])
      ∧ QHash.value (LogPrintLine env defs s c mask level file line function fromQString
          format arguments).inlineItem c.threadId = none := by
  obtain ⟨item, e1, e2, -, -, -, -, e7, e8, e9, e10, e11, e12, h | h⟩ :=
    logPrintLineEnter_effect env s c mask level file line function fromQString format arguments
  · rw [inlineCondition_true s t ht hf hr] at h
    exact absurd h.1 (by simp)
  · obtain ⟨-, first, hq, hi⟩ := h
    have hlen : (logPrintLineEnter env s c mask level file line function fromQString format
        arguments).logQueue.length = s.logQueue.length := by
      have := congrArg List.length hq
      simp only [List.length_append, List.length_cons, List.length_nil] at this
      omega
    obtain ⟨r1, r2, r3, r4, r5⟩ := inlineLoop_drain env defs c.threadId t _
      (logPrintLineEnter env s c mask level file line function fromQString format arguments)
      first (s.logQueue.length + 1) (e7.trans ht)
      (by rw [hi]; exact QHash.value_insert_self _ _ _) rfl (by omega)
    refine ⟨item, e2, e1, ?_, ?_, ?_, ?_, ?_⟩
    · exact r4.trans e10
    · exact r1
    · unfold LogPrintLine
      rw [r2, e11, ← hq]
    · unfold LogPrintLine
      rw [r3, e12, ← hq]
    · exact r5

/-- C12, amended, at a sample: the logger thread has ended and the queue still
    holds the record "left"; the call for "late" returns with the queue empty. -/
theorem LogPrintLine_inline_witness :
    (sampleThread ThreadPhase.notRunning).isRunning = false
    ∧ ∃ item : LoggingItem,
      item.m_threadId = (sampleCaller 1).threadId
      ∧ item.m_message = sampleEnv.vsnprintf sampleEnv.LOGLINE_MAX
          (if true && (qs "late").contains '%' then escapePercent (qs "late") else qs "late")
          []
      ∧ (LogPrintLine sampleEnv sampleDefs
          { sampleState (some (sampleThread ThreadPhase.notRunning)) true with
            logQueue := [sampleItem 2 messageType none (qs "left")] }
          (sampleCaller 1) 2 6 (qs "main.cpp") 10 (qs "main") true (qs "late") []).enqueued
        = [] ++ [item]
      ∧ (LogPrintLine sampleEnv sampleDefs
          { sampleState (some (sampleThread ThreadPhase.notRunning)) true with
            logQueue := [sampleItem 2 messageType none (qs "left")] }
          (sampleCaller 1) 2 6 (qs "main.cpp") 10 (qs "main") true (qs "late") []).logQueue
        = []
      ∧ (LogPrintLine sampleEnv sampleDefs
          { sampleState (some (sampleThread ThreadPhase.notRunning)) true with
            logQueue := [sampleItem 2 messageType none (qs "left")] }
          (sampleCaller 1) 2 6 (qs "main.cpp") 10 (qs "main") true (qs "late")
          []).handleItemCalls
        = [] ++ ([sampleItem 2 messageType none (qs "left")] ++ [item])
      ∧ (LogPrintLine sampleEnv sampleDefs
          { sampleState (some (sampleThread ThreadPhase.notRunning)) true with
            logQueue := [sampleItem 2 messageType none (qs "left")] }
          (sampleCaller 1) 2 6 (qs "main.cpp") 10 (qs "main") true (qs "late")
          []).logConsoleCalls
        = [] ++ ([sampleItem 2 messageType none (qs "left")] ++ [item])
      ∧ QHash.value (LogPrintLine sampleEnv sampleDefs
          { sampleState (some (sampleThread ThreadPhase.notRunning)) true with
            logQueue := [sampleItem 2 messageType none (qs "left")] }
          (sampleCaller 1) 2 6 (qs "main.cpp") 10 (qs "main") true (qs "late")
          []).inlineItem (sampleCaller 1).threadId = none :=
  ⟨rfl,
    LogPrintLine_inline sampleEnv sampleDefs
      { sampleState (some (sampleThread ThreadPhase.notRunning)) true with
        logQueue := [sampleItem 2 messageType none (qs "left")] }
      (sampleCaller 1) 2 6 (qs "main.cpp") 10 (qs "main") true (qs "late") []
      (sampleThread ThreadPhase.notRunning) rfl rfl rfl⟩

/-! ## C13: flush -/

/-- C13, the code against the claim: when `LoggerThread::flush` finds the
    queue not empty at its first test, it returns false at once, with no wake-up
    and no wait, whatever the abort flag, the timeout and the clock are. -/
theorem flush_nonempty_returns (timeoutMS : Int) (r : FlushRound) (rest : List FlushRound)
    (hq : r.queueEmpty = false) :
    LoggerThread.flush timeoutMS (r :: rest) = ([], some false) := by
  simp [LoggerThread.flush, hq]

/-- C13 at the call of `stop`: `flush(1000)` with a record in the queue, abort
    not requested and no time elapsed. -/
theorem flush_nonempty_returns_witness :
    LoggerThread.flush 1000
        [{ m_aborted := false, queueEmpty := false, elapsedCond := 0, elapsedBody := 0 }]
      = ([], some false) :=
  flush_nonempty_returns 1000
    { m_aborted := false, queueEmpty := false, elapsedCond := 0, elapsedBody := 0 } [] rfl

/-! ## C14: the logger thread drains the queue before it exits -/

/-- C14: (1) a step sets `logThreadFinished` only when it is the logger
    thread's test of its loop condition, made with the abort flag set, the queue
    empty and no record held.  (2) In a run from the start of the logger in
    which `stop` sets the abort flag after the steps `pre`, a record that is in
    the queue at that point has been passed to `handleItem` in every later state
    from which the loop exits.  (3) After `stop`, the logger thread alone
    handles the records of the queue and then exits its loop. -/
theorem consumer_exit_after_drain (env : LogEnv) (defs : VerboseDefs) :
    (∀ (s : LogState) (e : Event), s.logThreadFinished = false →
      (step env defs s e).logThreadFinished = true →
      e = Event.consumerLock
      ∧ ∃ t, s.logThread = some t ∧ t.phase = ThreadPhase.inLoop ∧ t.m_aborted = true
        ∧ s.logQueue = [] ∧ s.consumerItem = none)
    ∧ (∀ (s0 : LogState) (pre post : List Event) (item : LoggingItem) (e : Event),
      FreshRunning s0 → item ∈ (run env defs pre s0).logQueue →
      (run env defs (pre ++ Event.stop :: post) s0).logThreadFinished = false →
      (step env defs (run env defs (pre ++ Event.stop :: post) s0) e).logThreadFinished
        = true →
      item ∈ (run env defs (pre ++ Event.stop :: post) s0).handleItemCalls)
    ∧ (∀ (s0 : LogState) (pre : List Event),
      FreshRunning s0 → (run env defs pre s0).logThreadFinished = false →
      (run env defs
        (pre ++ Event.stop :: Event.consumerHandle
          :: consumeSteps (run env defs pre s0).logQueue.length ++ [Event.consumerLock])
        s0).logThreadFinished = true
      ∧ ∀ item ∈ (run env defs pre s0).logQueue,
        item ∈ (run env defs
          (pre ++ Event.stop :: Event.consumerHandle
            :: consumeSteps (run env defs pre s0).logQueue.length ++ [Event.consumerLock])
          s0).handleItemCalls) := by
  refine ⟨fun s e h0 h1 => step_finished env defs s e h0 h1, ?_, ?_⟩
  · intro s0 pre post item e hfresh hitem hrun hexit
    have hpre : (run env defs pre s0).logThreadFinished = false := by
      cases hf : (run env defs pre s0).logThreadFinished with
      | false => rfl
      | true =>
        have := run_finished_mono env defs (Event.stop :: post) _ hf
        rw [← run_append, hrun] at this
        cases this
    have hinv1 := run_runningInv env defs pre s0 (freshRunning_runningInv s0 hfresh).1 hpre
    rw [run_append] at hrun hexit ⊢
    have hinv2 := run_runningInv env defs (Event.stop :: post) _ hinv1 hrun
    obtain ⟨-, t, -, -, -, hq, hc⟩ := step_finished env defs _ e hrun hexit
    obtain ⟨-, -, hi2, heq2, -, -⟩ := hinv2
    obtain ⟨-, -, hi1, heq1, -, -⟩ := hinv1
    obtain ⟨l, hl⟩ := run_enqueued env defs (Event.stop :: post) (run env defs pre s0)
    unfold heldItems at heq1 heq2
    rw [hq, hc, hi2] at heq2
    simp only [Option.toList, List.filterMap_nil, List.append_nil] at heq2
    rw [← heq2, hl, heq1]
    simp only [List.mem_append]
    exact Or.inl (Or.inr hitem)
  · intro s0 pre hfresh hpre
    have hinv1 := run_runningInv env defs pre s0 (freshRunning_runningInv s0 hfresh).1 hpre
    have hinv2 := stop_runningInv _ hinv1
    obtain ⟨⟨t, ht, hp⟩, -, hi1, heq1, -, -⟩ := hinv1
    obtain ⟨s1, s2, s3, s4⟩ := stop_aborted (run env defs pre s0) t ht
    obtain ⟨d1, d2, d3, d4, d5, d6, d7⟩ := run_drain env defs _ hinv2
    rw [s2] at d1 d2 d3 d4 d5 d6 d7
    have hrun : run env defs
        (pre ++ Event.stop :: Event.consumerHandle
          :: consumeSteps (run env defs pre s0).logQueue.length ++ [Event.consumerLock]) s0
        = consumerLock (run env defs
            (Event.consumerHandle :: consumeSteps (run env defs pre s0).logQueue.length)
            (stop (run env defs pre s0))) := by
      rw [run_append, run_append]
      rfl
    obtain ⟨f1, f2, -⟩ := consumerLock_finish _ { t with m_aborted := true }
      (d3.trans s1) hp rfl d2 d1
    rw [hrun]
    refine ⟨f1, ?_⟩
    intro item hitem
    rw [f2, d6, s4, heq1]
    simp only [List.mem_append]
    exact Or.inr hitem

/-- C14 at a sample run: the threads 1 and 2 log "a1" and "b1", `stop` sets
    the abort flag, and the logger thread handles both records before the test
    of its loop condition that exits the loop. -/
theorem consumer_exit_after_drain_witness :
    sampleItem 1 messageType none (qs "a1")
      ∈ (run sampleEnv sampleDefs
          ([sampleLog 1 "a1", sampleLog 2 "b1"] ++ Event.stop
            :: [Event.consumerLock, Event.consumerHandle, Event.consumerLock,
                Event.consumerHandle])
          (sampleState (some (sampleThread ThreadPhase.inLoop)) false)).handleItemCalls :=
  (consumer_exit_after_drain sampleEnv sampleDefs).2.1
    (sampleState (some (sampleThread ThreadPhase.inLoop)) false)
    [sampleLog 1 "a1", sampleLog 2 "b1"]
    [Event.consumerLock, Event.consumerHandle, Event.consumerLock, Event.consumerHandle]
    (sampleItem 1 messageType none (qs "a1")) Event.consumerLock
    freshRunning_sample (by decide) (by decide) (by decide)

/-! ## C15: registration bracketing -/

/-- C15: let the logger thread process, in queue order, a registering record
    of the thread `T` with the name `X`, then the records `mid`, then a
    deregistering record of `T`, then the records `post`, where no record of `T`
    in `mid` registers or deregisters and no record of `T` in `post` registers.
    Then every record of `T` in `mid` that carries no name of its own leaves
    with the thread name `X`, the deregistering record leaves with `X`, and
    every record of `T` in `post` that carries no name of its own leaves with
    "thread_unknown". -/
theorem registration_bracketing (env : LogEnv) (defs : VerboseDefs) (t : LoggerThread)
    (s : LogState) (T : Nat) (X : QString) (R D : LoggingItem) (mid post : List LoggingItem)
    (hR : R.m_type.kRegistering = true) (hRid : R.m_threadId = T)
    (hRname : R.m_threadName = some X)
    (hD : D.m_type.kRegistering = false ∧ D.m_type.kDeregistering = true)
    (hDid : D.m_threadId = T) (hDname : D.m_threadName = none)
    (hmid : ∀ item ∈ mid, item.m_threadId = T →
      item.m_type.kRegistering = false ∧ item.m_type.kDeregistering = false)
    (hpost : ∀ item ∈ post, item.m_threadId = T → item.m_type.kRegistering = false) :
    ∃ (r d : LoggingItem) (outMid outPost : List LoggingItem),
      (consumeQueue env defs t (R :: mid ++ D :: post) s).2 = r :: outMid ++ d :: outPost
      ∧ List.Forall₂
          (fun item out => item.m_threadId = T → item.m_threadName = none →
            out.m_threadName = some X)
          mid outMid
      ∧ d.m_threadName = some X
      ∧ List.Forall₂
          (fun item out => item.m_threadId = T → item.m_threadName = none →
            out.m_threadName = some (qs "thread_unknown"))
          post outPost := by
  have hsplit : (consumeQueue env defs t (R :: mid ++ D :: post) s).2
      = (consumerProcess env defs t s R).2
        :: (consumeQueue env defs t mid (consumerProcess env defs t s R).1).2
        ++ (consumerProcess env defs t
              (consumeQueue env defs t mid (consumerProcess env defs t s R).1).1 D).2
          :: (consumeQueue env defs t post
                (consumerProcess env defs t
                  (consumeQueue env defs t mid (consumerProcess env defs t s R).1).1
                  D).1).2 := by
    show (consumerProcess env defs t s R).2
        :: (consumeQueue env defs t (mid ++ D :: post) (consumerProcess env defs t s R).1).2
      = _
    rw [(consumeQueue_append env defs t mid (D :: post) _).2]
    rfl
  have h1 : QHash.value (consumerProcess env defs t s R).1.logThreadHash T = some X :=
    (consumerProcess_value env defs t s R T).2.2 X hRid hR hRname
  obtain ⟨m1, m2⟩ := consumeQueue_names env defs t T (some X) mid _ h1
    (fun item hi hid => ⟨(hmid item hi hid).1,
      fun hd => by rw [(hmid item hi hid).2] at hd; cases hd⟩)
  have h2 : QHash.value (consumerProcess env defs t
      (consumeQueue env defs t mid (consumerProcess env defs t s R).1).1 D).1.logThreadHash T
      = none :=
    (consumerProcess_value env defs t _ D T).2.1 hDid hD.1 hD.2
  obtain ⟨-, p2⟩ := consumeQueue_names env defs t T none post _ h2
    (fun item hi hid => ⟨hpost item hi hid, fun _ => rfl⟩)
  refine ⟨_, _, _, _, hsplit, m2, ?_, p2⟩
  rw [consumerProcess_name env defs t _ D hDname hD.1, hDid, m1]
  rfl

/-- C15 at a sample: thread 7 registers as "worker", logs "one", deregisters
    and logs "two", with a record of thread 8 in between. -/
theorem registration_bracketing_witness :
    ∃ (r d : LoggingItem) (outMid outPost : List LoggingItem),
      (consumeQueue sampleEnv sampleDefs (sampleThread ThreadPhase.inLoop)
        (sampleItem 7 registeringType (some (qs "worker")) []
          :: [sampleItem 7 messageType none (qs "one"),
              sampleItem 8 messageType none (qs "other")]
          ++ sampleItem 7 deregisteringType none []
          :: [sampleItem 7 messageType none (qs "two")])
        (sampleState (some (sampleThread ThreadPhase.inLoop)) false)).2
        = r :: outMid ++ d :: outPost
      ∧ List.Forall₂
          (fun item out => item.m_threadId = 7 → item.m_threadName = none →
            out.m_threadName = some (qs "worker"))
          [sampleItem 7 messageType none (qs "one"),
            sampleItem 8 messageType none (qs "other")] outMid
      ∧ d.m_threadName = some (qs "worker")
      ∧ List.Forall₂
          (fun item out => item.m_threadId = 7 → item.m_threadName = none →
            out.m_threadName = some (qs "thread_unknown"))
          [sampleItem 7 messageType none (qs "two")] outPost :=
  registration_bracketing sampleEnv sampleDefs (sampleThread ThreadPhase.inLoop)
    (sampleState (some (sampleThread ThreadPhase.inLoop)) false) 7 (qs "worker")
    (sampleItem 7 registeringType (some (qs "worker")) [])
    (sampleItem 7 deregisteringType none [])
    [sampleItem 7 messageType none (qs "one"), sampleItem 8 messageType none (qs "other")]
    [sampleItem 7 messageType none (qs "two")]
    rfl rfl rfl ⟨rfl, rfl⟩ rfl rfl (by decide) (by decide)

/-! ## C16: no record is lost while the logger runs -/

/-- C16: in a run from the start of the logger that consists of `LogPrintLine`
    calls of any threads and of steps of the logger thread, in any
    interleaving and with no stop requested, once the logger thread has gone
    through the records that are left the messages passed to `handleItem` are
    the messages of the calls, each once and in the order of the calls, and the
    queue is empty; so their number is the number of calls, and they are
    distinct when the messages of the calls are. -/
theorem run_no_loss (env : LogEnv) (defs : VerboseDefs) (tr : List Event) (s0 : LogState)
    (hfresh : FreshRunning s0) (hev : tr.all Event.isLogOrConsumer = true) :
    (run env defs
      (Event.consumerHandle :: consumeSteps (run env defs tr s0).logQueue.length)
      (run env defs tr s0)).handleItemCalls.map (fun i => i.m_message) = emitted env tr
    ∧ (run env defs
      (Event.consumerHandle :: consumeSteps (run env defs tr s0).logQueue.length)
      (run env defs tr s0)).logConsoleCalls.map (fun i => i.m_message) = emitted env tr
    ∧ (run env defs
      (Event.consumerHandle :: consumeSteps (run env defs tr s0).logQueue.length)
      (run env defs tr s0)).logQueue = []
    ∧ (run env defs
      (Event.consumerHandle :: consumeSteps (run env defs tr s0).logQueue.length)
      (run env defs tr s0)).handleItemCalls.length = (emitted env tr).length
    ∧ ((emitted env tr).Nodup →
      (run env defs
        (Event.consumerHandle :: consumeSteps (run env defs tr s0).logQueue.length)
        (run env defs tr s0)).handleItemCalls.Nodup) := by
  obtain ⟨hinv, hlive⟩ := freshRunning_runningInv s0 hfresh
  obtain ⟨r1, r2⟩ := run_live env defs tr s0 hinv hlive
    (fun e he => List.all_eq_true.1 hev e he)
  obtain ⟨d1, -, -, -, -, d6, d7⟩ := run_drain env defs _ r1
  have he0 : s0.enqueued = [] := hfresh.2.2.2.2.2.1
  rw [he0, List.map_nil, List.nil_append] at r2
  have hmsg : (run env defs
      (Event.consumerHandle :: consumeSteps (run env defs tr s0).logQueue.length)
      (run env defs tr s0)).handleItemCalls.map (fun i => i.m_message) = emitted env tr := by
    rw [d6, r2]
  refine ⟨hmsg, by rw [d7, r2], d1, ?_, ?_⟩
  · rw [← hmsg, List.length_map]
  · intro hnd
    rw [← hmsg] at hnd
    exact List.Nodup.of_map _ hnd

/-- C16 at `loadTrace`: two threads log two messages each, interleaved with
    the logger thread; the four messages are handled, each once. -/
theorem run_no_loss_witness :
    loadTrace.all Event.isLogOrConsumer = true
    ∧ (run sampleEnv sampleDefs
        (Event.consumerHandle
          :: consumeSteps (run sampleEnv sampleDefs loadTrace
              (sampleState (some (sampleThread ThreadPhase.inLoop)) false)).logQueue.length)
        (run sampleEnv sampleDefs loadTrace
          (sampleState (some (sampleThread ThreadPhase.inLoop)) false))).handleItemCalls.map
        (fun i => i.m_message)
      = emitted sampleEnv loadTrace :=
  ⟨by decide,
    (run_no_loss sampleEnv sampleDefs loadTrace
      (sampleState (some (sampleThread ThreadPhase.inLoop)) false) freshRunning_sample
      (by decide)).1⟩

/-! ## C17: a second start -/

/-- C17: a `logStart` call made while `logThread` exists and is running returns
    with every global as it was (the level, the propagation options and
    arguments, the queue and the logger thread among them), whatever its
    arguments are. -/
theorem logStart_running (env : LogEnv) (defs : VerboseDefs) (verboseString appName : QString)
    (pid : Int) (verboseThreads : Bool) (s : LogState) (c : Caller) (logfile : QString)
    (progress quiet facility level : Int) (dblog propagate : Bool) (t : LoggerThread)
    (hthread : s.logThread = some t) (hrunning : t.isRunning = true) :
    logStart env defs verboseString appName pid verboseThreads s c logfile progress quiet
      facility level dblog propagate = some s := by
  unfold logStart
  simp [hthread, hrunning]

/-- C17 at a sample: the first `logStart` creates and starts the logger
    thread; a second call with other arguments changes nothing. -/
theorem logStart_running_witness :
    (∃ s1, logStart sampleEnv sampleDefs verboseDefaultStr (qs "mythbackend") 4242 false
        (sampleState none false) (sampleCaller 1) (qs "/var/log/mythtv/myth.log") 0 0 (-1) 6
        true false = some s1
      ∧ s1.logThread = some (sampleThread ThreadPhase.started))
    ∧ logStart sampleEnv sampleDefs (qs "all") (qs "mythbackend") 4242 true
        { sampleState (some (sampleThread ThreadPhase.started)) false with logLevel := 6 }
        (sampleCaller 2) (qs "/tmp/other.log") 1 2 8 7 false true
      = some { sampleState (some (sampleThread ThreadPhase.started)) false with
                logLevel := 6 } :=
  ⟨⟨_, rfl, by decide⟩,
    logStart_running sampleEnv sampleDefs (qs "all") (qs "mythbackend") 4242 true
      { sampleState (some (sampleThread ThreadPhase.started)) false with logLevel := 6 }
      (sampleCaller 2) (qs "/tmp/other.log") 1 2 8 7 false true
      (sampleThread ThreadPhase.started) rfl rfl⟩

/-! ## C18: registration and the finished flag -/

/-- C18: when `logThreadFinished` is set, `loggingRegisterThread(name)` and
    `loggingDeregisterThread()` return with every global as it was (the queue
    and both maps among them); when it is not set, the queue after
    `loggingRegisterThread(name)` is the queue before followed by one record of
    the calling thread, of kind registering, that carries `name`, and the
    queue after `loggingDeregisterThread()` is the queue before followed by one
    record of the calling thread of kind deregistering. -/
theorem loggingRegisterThread_finished (env : LogEnv) (s : LogState) (c : Caller)
    (name : QString) :
    (s.logThreadFinished = true →
      loggingRegisterThread env s c name = s ∧ loggingDeregisterThread env s c = s)
    ∧ (s.logThreadFinished = false →
      (∃ item, (loggingRegisterThread env s c name).logQueue = s.logQueue ++ [item]
        ∧ item.m_type = registeringType
        ∧ item.m_threadName = some name ∧ item.m_threadId = c.threadId)
      ∧ (∃ item, (loggingDeregisterThread env s c).logQueue = s.logQueue ++ [item]
        ∧ item.m_type = deregisteringType
        ∧ item.m_threadId = c.threadId)) := by
  constructor
  · intro h
    simp [loggingRegisterThread, loggingDeregisterThread, h]
  · intro h
    constructor
    · simp only [loggingRegisterThread, h, Bool.false_eq_true, if_false]
      rw [(create_frame s c _ _ _ _ _).1]
      exact ⟨_, rfl, (create_item s c _ _ _ _ _).2.1, rfl, (create_item s c _ _ _ _ _).1⟩
    · simp only [loggingDeregisterThread, h, Bool.false_eq_true, if_false]
      rw [(create_frame s c _ _ _ _ _).1]
      exact ⟨_, rfl, (create_item s c _ _ _ _ _).2.1, (create_item s c _ _ _ _ _).1⟩

/-- C18 at samples: with the flag set both calls change nothing; with the flag
    not set each call appends its record to a queue that holds one record. -/
theorem loggingRegisterThread_finished_witness :
    (loggingRegisterThread sampleEnv
        (sampleState (some (sampleThread ThreadPhase.notRunning)) true) (sampleCaller 7)
        (qs "worker")
      = sampleState (some (sampleThread ThreadPhase.notRunning)) true
    ∧ loggingDeregisterThread sampleEnv
        (sampleState (some (sampleThread ThreadPhase.notRunning)) true) (sampleCaller 7)
      = sampleState (some (sampleThread ThreadPhase.notRunning)) true)
    ∧ ((∃ item, (loggingRegisterThread sampleEnv
          { sampleState (some (sampleThread ThreadPhase.inLoop)) false with
            logQueue := [sampleItem 2 messageType none (qs "left")] }
          (sampleCaller 7) (qs "worker")).logQueue
          = [sampleItem 2 messageType none (qs "left")] ++ [item]
        ∧ item.m_type = registeringType
        ∧ item.m_threadName = some (qs "worker") ∧ item.m_threadId = (sampleCaller 7).threadId)
      ∧ (∃ item, (loggingDeregisterThread sampleEnv
          { sampleState (some (sampleThread ThreadPhase.inLoop)) false with
            logQueue := [sampleItem 2 messageType none (qs "left")] }
          (sampleCaller 7)).logQueue
          = [sampleItem 2 messageType none (qs "left")] ++ [item]
        ∧ item.m_type = deregisteringType
        ∧ item.m_threadId = (sampleCaller 7).threadId)) :=
  ⟨(loggingRegisterThread_finished sampleEnv
      (sampleState (some (sampleThread ThreadPhase.notRunning)) true) (sampleCaller 7)
      (qs "worker")).1 rfl,
    (loggingRegisterThread_finished sampleEnv
      { sampleState (some (sampleThread ThreadPhase.inLoop)) false with
        logQueue := [sampleItem 2 messageType none (qs "left")] }
      (sampleCaller 7) (qs "worker")).2 rfl⟩

/-! ## C19: the verbosity propagated to a child -/

/-- C19, the code against the claim, at a table that holds the additive
    entries "gpu" and "gpuaudio": `verboseArgParse("gpuaudio,nogpu")` returns
    OK with the bits of "general" and "gpuaudio" set; the inverted "gpu" removes
    the text " gpu" from inside " gpuaudio", so the description is
    " generalaudio nogpu" and `logPropagateCalc` places "generalaudio,nogpu"
    after " --verbose "; `verboseArgParse` rejects that value in a process with
    no remembered default, and the mask there is the default. -/
theorem logPropagateCalc_child_rejects :
    (verboseArgParse sampleDefsGpu (initialGlobals sampleDefsGpu) (qs "gpuaudio,nogpu")).1
      = GENERIC_EXIT_OK
    ∧ (verboseArgParse sampleDefsGpu (initialGlobals sampleDefsGpu)
        (qs "gpuaudio,nogpu")).2.verboseMask = 0x08000002
    ∧ (verboseArgParse sampleDefsGpu (initialGlobals sampleDefsGpu)
        (qs "gpuaudio,nogpu")).2.verboseString = qs " generalaudio nogpu"
    ∧ logPropagateCalc sampleEnv sampleDefsGpu
        (verboseArgParse sampleDefsGpu (initialGlobals sampleDefsGpu)
          (qs "gpuaudio,nogpu")).2.verboseString 6
        { propagate := false, quiet := 0, facility := -1, dblog := true, path := [] }
      = qs " --verbose generalaudio,nogpu --loglevel info"
    ∧ (verboseArgParse sampleDefsGpu (initialGlobals sampleDefsGpu)
        (verboseMaskArg (verboseArgParse sampleDefsGpu (initialGlobals sampleDefsGpu)
          (qs "gpuaudio,nogpu")).2.verboseString)).1 = GENERIC_EXIT_INVALID_CMDLINE
    ∧ (verboseArgParse sampleDefsGpu (initialGlobals sampleDefsGpu)
        (verboseMaskArg (verboseArgParse sampleDefsGpu (initialGlobals sampleDefsGpu)
          (qs "gpuaudio,nogpu")).2.verboseString)).2.verboseMask = 0x00000002 := by
  decide

/-! ## C20: the propagated argument string -/

/-- C20: the `logPropagateArgs` that `logPropagateCalc` computes is
    " --verbose " and the normalised verbosity description, then " --logpath "
    and the path if propagation was requested, then " --loglevel " and the name
    of the level, then max(quiet, 0) times " --quiet", then " --nodblog" if
    database logging is disabled, then " --syslog " and the facility name if the
    facility is not negative, and nothing else. -/
theorem logPropagateCalc_eq_spec (env : LogEnv) (defs : VerboseDefs) (verboseString : QString)
    (logLevel : Int) (opts : LogPropagateOpts) :
    logPropagateCalc env defs verboseString logLevel opts
      = propagatedArgsSpec env defs verboseString logLevel opts := by
  unfold logPropagateCalc propagatedArgsSpec
  simp only [quietLoop_eq, toNat_max_zero]
  cases opts.propagate <;> cases opts.dblog <;> by_cases hf : opts.facility ≥ 0 <;>
    simp [hf, List.append_assoc]

/-! ## The console line, the shipping and the reference count -/

theorem toDigits_length_le (n e : Nat) (he : 0 < e) (hn : n < 10 ^ e) :
    (Nat.toDigits 10 n).length ≤ e :=
  Nat.toDigitsCore_length 10 (by decide) (n + 1) n e hn he

theorem zeroPadded_length (width n : Nat) (hw : 0 < width) (hn : n < 10 ^ width) :
    (zeroPadded width n).length = width := by
  have := toDigits_length_le n width hw hn
  simp only [zeroPadded, List.length_append, List.length_replicate]
  omega

theorem toInt32_small (n : Nat) (h : n < 2 ^ 31) : toInt32 n = (n : Int) := by
  unfold toInt32
  have h1 : n % 2 ^ 32 = n := Nat.mod_eq_of_lt (by omega)
  rw [h1, if_pos h]

theorem usPart_eq (usec : Nat) (h : usec < 10 ^ 6) :
    usPart usec = '.' :: zeroPadded 6 usec := by
  have hl := zeroPadded_length 6 usec (by decide) h
  unfold usPart
  rw [toInt32_small usec (by omega)]
  have hp : printf06d (usec : Int) = zeroPadded 6 usec := by
    unfold printf06d zeroPadded
    simp
  rw [hp]
  apply List.take_of_length_le
  simp only [List.length_cons, hl]
  omega

theorem deleteItem_console (s : LogState) (item : LoggingItem) :
    (deleteItem s item).1.console = s.console := by
  unfold deleteItem
  split <;> rfl

/-- What `logConsole` writes. -/
theorem logConsole_written (env : LogEnv) (defs : VerboseDefs) (t : LoggerThread)
    (s : LogState) (item : LoggingItem) :
    ((t.m_quiet = true ∨ (t.m_progress = true ∧ item.m_level > env.LOG_ERR)
        ∨ item.m_type.kMessage = false) →
      (logConsole env defs t s item).1.console = s.console
      ∧ (logConsole env defs t s item).2.2 = false)
    ∧ (t.m_quiet = false → (t.m_progress = false ∨ item.m_level ≤ env.LOG_ERR) →
      item.m_type.kMessage = true →
      item.m_message.length ≤ env.LOGLINE_MAX → item.m_usec < 10 ^ 6 →
      (env.strftime item.m_epoch).length ≤ 21 →
      (logConsole env defs t s item).1.console = s.console ++ [consoleLineSpec env defs item]
      ∧ (logConsole env defs t s item).2.2 = true) := by
  constructor
  · intro h
    unfold logConsole
    rcases h with h | h | h
    · simp [h]
    · simp [h.1, h.2]
    · split
      · exact ⟨rfl, rfl⟩
      · simp [h]
  · intro hq hp hm hlen hus hts
    have hskip : (t.m_quiet || (t.m_progress && decide (item.m_level > env.LOG_ERR)))
        = false := by
      rw [hq]
      rcases hp with hp | hp
      · simp [hp]
      · simp only [Bool.false_or, Bool.and_eq_false_imp, decide_eq_false_iff_not, not_lt]
        exact fun _ => hp
    have e1 : qs " " = [' '] := rfl
    have e2 : qs "  " = [' ', ' '] := rfl
    have e3 : qs "\n" = ['\n'] := rfl
    unfold logConsole
    simp only [hskip, Bool.false_eq_true, if_false, hm, Bool.not_true]
    refine ⟨?_, trivial⟩
    rw [deleteItem_console]
    simp only [consoleLineSpec, shortnameOf]
    congr 2
    cases hio : item.m_type.kStandardIO with
    | true =>
      simp only [if_true]
      apply List.take_of_length_le
      omega
    | false =>
      simp only [Bool.false_eq_true, if_false]
      rw [usPart_eq item.m_usec hus, e1, e2, e3]
      rw [List.take_of_length_le]
      · simp only [List.append_assoc, List.cons_append, List.nil_append,
          List.singleton_append]
        try rfl
      · have hz := zeroPadded_length 6 item.m_usec (by decide) hus
        simp only [List.length_append, List.length_cons, List.length_nil, hz]
        omega

/-- The fields that the registration branches of `handleItem` leave alone. -/
theorem handleRegistering_sent (env : LogEnv) (s : LogState) (item : LoggingItem) :
    (handleRegistering env s item).1.sent = s.sent
    ∧ (handleRegistering env s item).1.destroyed = s.destroyed
    ∧ (handleRegistering env s item).1.debugRegistration = s.debugRegistration
    ∧ (handleRegistering env s item).2.refcount = item.refcount
    ∧ (s.debugRegistration = false → (handleRegistering env s item).2.m_message
        = item.m_message) := by
  unfold handleRegistering
  simp only []
  split
  · rename_i h
    exact ⟨rfl, rfl, rfl, rfl, fun hd => by rw [hd] at h; cases h⟩
  · exact ⟨rfl, rfl, rfl, rfl, fun _ => rfl⟩

theorem handleDeregistering_sent (env : LogEnv) (s : LogState) (item : LoggingItem) :
    (handleDeregistering env s item).1.sent = s.sent
    ∧ (handleDeregistering env s item).1.destroyed = s.destroyed
    ∧ (handleDeregistering env s item).1.debugRegistration = s.debugRegistration
    ∧ (handleDeregistering env s item).2.refcount = item.refcount
    ∧ (s.debugRegistration = false → (handleDeregistering env s item).2.m_message
        = item.m_message) := by
  unfold handleDeregistering
  simp only []
  split
  · refine ⟨rfl, rfl, rfl, rfl, fun hd => ?_⟩
    simp only [hd, Bool.false_eq_true, if_false]
  · exact ⟨rfl, rfl, rfl, rfl, fun _ => rfl⟩

theorem sendItem_sent (s : LogState) (item : LoggingItem) :
    (sendItem s item).sent
      = if item.m_message ≠ [] ∧ s.logThreadFinished = false then s.sent ++ [item]
        else s.sent := by
  unfold sendItem
  by_cases hm : item.m_message ≠ []
  · cases hf : s.logThreadFinished <;> simp [hm]
  · simp [hm]

theorem sendItem_destroyed (s : LogState) (item : LoggingItem) :
    (sendItem s item).destroyed = s.destroyed := by
  unfold sendItem
  split
  · split <;> rfl
  · rfl

/-- What `handleItem` sends: the record as it is after the registration
    handling, once, when its message is not empty and the finished flag is not
    set. -/
theorem handleItem_sent (env : LogEnv) (s : LogState) (item : LoggingItem) :
    (handleItem env s item).1.sent
      = if (handleItem env s item).2.m_message ≠ [] ∧ s.logThreadFinished = false then
          s.sent ++ [(handleItem env s item).2]
        else s.sent := by
  unfold handleItem
  simp only []
  rw [sendItem_sent]
  split
  · rw [(handleRegistering_sent env s item).1, (handleRegistering_frame env s item).2.2.1]
  · split
    · rw [(handleDeregistering_sent env s item).1,
        (handleDeregistering_frame env s item).2.2.1]
    · rfl

theorem handleItem_message (env : LogEnv) (s : LogState) (item : LoggingItem)
    (hd : s.debugRegistration = false) :
    (handleItem env s item).2.m_message = item.m_message := by
  unfold handleItem
  simp only []
  split
  · exact (handleRegistering_sent env s item).2.2.2.2 hd
  · split
    · exact (handleDeregistering_sent env s item).2.2.2.2 hd
    · rfl

theorem handleItem_refcount (env : LogEnv) (s : LogState) (item : LoggingItem) :
    (handleItem env s item).2.refcount = item.refcount
    ∧ (handleItem env s item).1.destroyed = s.destroyed := by
  unfold handleItem
  simp only []
  rw [sendItem_destroyed]
  split
  · exact ⟨(handleRegistering_sent env s item).2.2.2.1,
      (handleRegistering_sent env s item).2.1⟩
  · split
    · exact ⟨(handleDeregistering_sent env s item).2.2.2.1,
        (handleDeregistering_sent env s item).2.1⟩
    · exact ⟨rfl, rfl⟩

theorem deleteItem_sent (s : LogState) (item : LoggingItem) :
    (deleteItem s item).1.sent = s.sent := by
  unfold deleteItem
  split <;> rfl

theorem logConsole_sent (env : LogEnv) (defs : VerboseDefs) (t : LoggerThread)
    (s : LogState) (item : LoggingItem) :
    (logConsole env defs t s item).1.sent = s.sent := by
  unfold logConsole
  split
  · rfl
  · split
    · rfl
    · exact deleteItem_sent _ _

/-- The reference count through `logConsole`: it is what it was, and no record
    is destroyed, when the count is 1 at the call. -/
theorem logConsole_refcount (env : LogEnv) (defs : VerboseDefs) (t : LoggerThread)
    (s : LogState) (item : LoggingItem) (h : item.refcount = 1) :
    (logConsole env defs t s item).2.1.refcount = 1
    ∧ (logConsole env defs t s item).1.destroyed = s.destroyed := by
  unfold logConsole
  split
  · exact ⟨h, rfl⟩
  · split
    · exact ⟨h, rfl⟩
    · simp only [deleteItem, h]
      exact ⟨rfl, rfl⟩

theorem deleteItem_last (s : LogState) (item : LoggingItem) (h : item.refcount = 1) :
    (deleteItem s item).2.refcount = 0
    ∧ (deleteItem s item).1.destroyed = s.destroyed ++ [(deleteItem s item).2] := by
  simp only [deleteItem, h]
  exact ⟨rfl, rfl⟩

theorem inlineHandle_sent (env : LogEnv) (defs : VerboseDefs) (s : LogState)
    (threadId : Nat) (hf : s.logThreadFinished = true) :
    (inlineHandle env defs s threadId).sent = s.sent := by
  unfold inlineHandle
  split
  · show (deleteItem _ _).1.sent = _
    rw [deleteItem_sent, logConsole_sent]
    show (handleItem env _ _).1.sent = _
    rw [handleItem_sent]
    simp [hf]
  · rfl

/-! ## Percent signs, separators and the inline loop -/

theorem cFormat_cons (c : Char) (x : QString) (args : List QString) (hc : c ≠ '%') :
    cFormat (c :: x) args = c :: cFormat x args := by
  cases x with
  | nil => simp [cFormat, hc]
  | cons d rest => simp [cFormat, hc]

theorem cFormat_percent (x : QString) (args : List QString) :
    cFormat ('%' :: '%' :: x) args = '%' :: cFormat x args := by
  simp [cFormat]

theorem cFormat_escapePercent (text : QString) (args : List QString) :
    cFormat (escapePercent text) args = collapsePercent text := by
  induction text using escapePercent.induct <;>
    simp_all [escapePercent, cFormat_percent, cFormat_cons, collapsePercent, cFormat]

theorem percentRunsEven_escapePercent (text : QString) :
    percentRunsEven (escapePercent text) = true := by
  unfold percentRunsEven
  induction text using escapePercent.induct <;>
    simp_all [escapePercent, percentRunsEvenAux]

theorem percentRunsEven_of_not_contains (text : QString) (h : text.contains '%' = false) :
    percentRunsEven text = true := by
  unfold percentRunsEven
  induction text with
  | nil => rfl
  | cons c cs ih =>
    simp only [List.contains_cons, Bool.or_eq_false_iff, beq_eq_false_iff_ne, ne_eq] at h
    have hc : c ≠ '%' := fun e => h.1 e.symm
    simp only [percentRunsEvenAux, hc, if_false, Bool.not_false, Bool.true_and]
    exact ih h.2

theorem collapsePercent_of_noAdjacent (text : QString) (h : noAdjacentPercent text = true) :
    collapsePercent text = text := by
  induction text using collapsePercent.induct <;>
    simp_all [noAdjacentPercent, collapsePercent]

theorem collapsePercent_of_not_contains (text : QString) (h : text.contains '%' = false) :
    collapsePercent text = text := by
  induction text using collapsePercent.induct <;>
    simp_all [collapsePercent]

theorem cFormat_of_not_contains (text : QString) (args : List QString)
    (h : text.contains '%' = false) : cFormat text args = text := by
  induction text with
  | nil => rfl
  | cons c cs ih =>
    simp only [List.contains_cons, Bool.or_eq_false_iff, beq_eq_false_iff_ne, ne_eq] at h
    have hc : c ≠ '%' := fun e => h.1 e.symm
    rw [cFormat_cons c cs args hc, ih h.2]

theorem endsInSep_append (p : QString) (c : Char) (f : Bool) :
    endsInSep (p ++ [c]) f = !isWordChar c := by
  induction p generalizing f with
  | nil => rfl
  | cons d ds ih => exact ih _

theorem create_sent (s : LogState) (c : Caller) (file function : QString) (line level : Int)
    (type : LoggingType) :
    (LoggingItem.create s c file function line level type).1.sent = s.sent := by
  unfold LoggingItem.create setThreadTid
  split <;> rfl

theorem logPrintLineEnter_sent (env : LogEnv) (s : LogState) (c : Caller) (mask : Nat)
    (level : Int) (file : QString) (line : Int) (function : QString) (fromQString : Bool)
    (format : QString) (arguments : List QString) :
    (logPrintLineEnter env s c mask level file line function fromQString format
      arguments).sent = s.sent := by
  unfold logPrintLineEnter
  simp only []
  repeat' split
  all_goals exact create_sent _ _ _ _ _ _ _

theorem inlineRelock_sent (s : LogState) (threadId : Nat) :
    (inlineRelock s threadId).sent = s.sent := by
  unfold inlineRelock
  split
  · split <;> rfl
  · rfl

theorem inlineLoop_sent (env : LogEnv) (defs : VerboseDefs) (threadId : Nat) (fuel : Nat)
    (s : LogState) (hf : s.logThreadFinished = true) :
    (inlineLoop env defs threadId fuel s).sent = s.sent := by
  induction fuel generalizing s with
  | zero => rfl
  | succ n ih =>
    unfold inlineLoop
    split
    · have h1 := (inlineHandle_move env defs s threadId).2.2
      have h2 := (inlineRelock_move (inlineHandle env defs s threadId) threadId).2.2
      rw [ih _ (h2.trans (h1.trans hf)), inlineRelock_sent, inlineHandle_sent _ _ _ _ hf]
    · rfl

/-! ## C21: the console line -/

/-- C21, a record against the claim: the logger is not quiet and not in
    progress mode, and `logConsole` is called with a registering record, as the
    consumer loop does for every record; it writes nothing and returns
    false. -/
theorem logConsole_registering_silent :
    (sampleThread ThreadPhase.inLoop).m_quiet = false
    ∧ (sampleThread ThreadPhase.inLoop).m_progress = false
    ∧ (logConsole sampleEnv sampleDefs (sampleThread ThreadPhase.inLoop)
        (sampleState (some (sampleThread ThreadPhase.inLoop)) false)
        (sampleItem 7 registeringType (some (qs "worker")) [])).1.console = []
    ∧ (logConsole sampleEnv sampleDefs (sampleThread ThreadPhase.inLoop)
        (sampleState (some (sampleThread ThreadPhase.inLoop)) false)
        (sampleItem 7 registeringType (some (qs "worker")) [])).2.2 = false := by
  decide

/-- C21, amended: `logConsole` writes nothing and returns false when quiet is
    set, or when progress mode is set and the level is greater than LOG_ERR, or
    when the record is not of kind message; otherwise it writes one line and
    returns true, and the line is `consoleLineSpec`: the message verbatim for a
    stdio-passthrough record, and for every other record the timestamp, '.',
    the microseconds as six zero-padded digits, a space, the short-name
    character of the level ('-' when the level is not in the registry), two
    spaces, the message and a newline.  The message is one that fits its
    buffer, the microseconds are below a million, and the timestamp fits the
    21 characters that `strftime` is given. -/
theorem logConsole_rendering (env : LogEnv) (defs : VerboseDefs) (t : LoggerThread)
    (s : LogState) (item : LoggingItem) :
    ((t.m_quiet = true ∨ (t.m_progress = true ∧ item.m_level > env.LOG_ERR)
        ∨ item.m_type.kMessage = false) →
      (logConsole env defs t s item).1.console = s.console
      ∧ (logConsole env defs t s item).2.2 = false)
    ∧ (t.m_quiet = false → (t.m_progress = false ∨ item.m_level ≤ env.LOG_ERR) →
      item.m_type.kMessage = true →
      item.m_message.length ≤ env.LOGLINE_MAX → item.m_usec < 10 ^ 6 →
      (env.strftime item.m_epoch).length ≤ 21 →
      (logConsole env defs t s item).1.console = s.console ++ [consoleLineSpec env defs item]
      ∧ (logConsole env defs t s item).2.2 = true
      ∧ (zeroPadded 6 item.m_usec).length = 6) := by
  refine ⟨(logConsole_written env defs t s item).1, ?_⟩
  intro hq hp hm hlen hus hts
  obtain ⟨h1, h2⟩ := (logConsole_written env defs t s item).2 hq hp hm hlen hus hts
  exact ⟨h1, h2, zeroPadded_length 6 item.m_usec (by decide) hus⟩

/-- C21, amended, at a sample: the record "hello" of level 6, 250 microseconds
    into the second. -/
theorem logConsole_rendering_witness :
    (logConsole sampleEnv sampleDefs (sampleThread ThreadPhase.inLoop)
        (sampleState (some (sampleThread ThreadPhase.inLoop)) false)
        (sampleItem 1 messageType none (qs "hello"))).1.console
      = [] ++ [qs "2012-01-01 00:00:00.000250 I  hello\n"]
    ∧ (logConsole sampleEnv sampleDefs (sampleThread ThreadPhase.inLoop)
        (sampleState (some (sampleThread ThreadPhase.inLoop)) false)
        (sampleItem 1 messageType none (qs "hello"))).2.2 = true :=
  ⟨((logConsole_rendering sampleEnv sampleDefs (sampleThread ThreadPhase.inLoop)
      (sampleState (some (sampleThread ThreadPhase.inLoop)) false)
      (sampleItem 1 messageType none (qs "hello"))).2 rfl (Or.inl rfl) rfl (by decide)
      (by decide) (by decide)).1,
    ((logConsole_rendering sampleEnv sampleDefs (sampleThread ThreadPhase.inLoop)
      (sampleState (some (sampleThread ThreadPhase.inLoop)) false)
      (sampleItem 1 messageType none (qs "hello"))).2 rfl (Or.inl rfl) rfl (by decide)
      (by decide) (by decide)).2.1⟩

/-! ## C22: what the running logger ships -/

/-- C22: when `handleItem` is called with the finished flag not set, the record
    as it is after the registration handling is sent once if its message is not
    empty, and nothing is sent if its message is empty; so a record that came
    with an empty message, as registering and deregistering records do, is sent
    only if the registration debug flag is set. -/
theorem handleItem_ships (env : LogEnv) (s : LogState) (item : LoggingItem)
    (hrun : s.logThreadFinished = false) :
    ((handleItem env s item).2.m_message ≠ [] →
      (handleItem env s item).1.sent = s.sent ++ [(handleItem env s item).2])
    ∧ ((handleItem env s item).2.m_message = [] → (handleItem env s item).1.sent = s.sent)
    ∧ (item.m_message = [] → (handleItem env s item).1.sent ≠ s.sent →
      s.debugRegistration = true) := by
  have h := handleItem_sent env s item
  refine ⟨fun hm => ?_, fun hm => ?_, fun hm hs => ?_⟩
  · rw [h, if_pos ⟨hm, hrun⟩]
  · rw [h, if_neg (fun hc => hc.1 hm)]
  · cases hd : s.debugRegistration with
    | true => rfl
    | false =>
      have hmsg := handleItem_message env s item hd
      rw [h, if_neg (fun hc => hc.1 (hmsg.trans hm))] at hs
      exact absurd rfl hs

/-- C22 at samples: with the debug flag not set the registering record of
    thread 7 is not sent; the record "hello" is sent once. -/
theorem handleItem_ships_witness :
    (handleItem sampleEnv (sampleState (some (sampleThread ThreadPhase.inLoop)) false)
        (sampleItem 7 registeringType (some (qs "worker")) [])).1.sent = []
    ∧ (handleItem sampleEnv (sampleState (some (sampleThread ThreadPhase.inLoop)) false)
        (sampleItem 1 messageType none (qs "hello"))).1.sent
      = [] ++ [(handleItem sampleEnv
          (sampleState (some (sampleThread ThreadPhase.inLoop)) false)
          (sampleItem 1 messageType none (qs "hello"))).2] :=
  ⟨(handleItem_ships sampleEnv (sampleState (some (sampleThread ThreadPhase.inLoop)) false)
      (sampleItem 7 registeringType (some (qs "worker")) []) rfl).2.1 (by decide),
    (handleItem_ships sampleEnv (sampleState (some (sampleThread ThreadPhase.inLoop)) false)
      (sampleItem 1 messageType none (qs "hello")) rfl).1 (by decide)⟩

/-! ## C23: a deregistering record -/

/-- C23: after `handleItem` has processed a deregistering record of the thread
    `T`, neither map holds `T` and the entries of every other thread are as
    they were; if `T` had a name, the record carries that name; if `T` had no
    name, the name map and the record are as they were. -/
theorem handleItem_deregisters (env : LogEnv) (s : LogState) (item : LoggingItem)
    (h1 : item.m_type.kRegistering = false) (h2 : item.m_type.kDeregistering = true) :
    QHash.value (handleItem env s item).1.logThreadHash item.m_threadId = none
    ∧ QHash.value (handleItem env s item).1.logThreadTidHash item.m_threadId = none
    ∧ (∀ k, k ≠ item.m_threadId →
      QHash.value (handleItem env s item).1.logThreadHash k = QHash.value s.logThreadHash k
      ∧ QHash.value (handleItem env s item).1.logThreadTidHash k
        = QHash.value s.logThreadTidHash k)
    ∧ (∀ name, QHash.value s.logThreadHash item.m_threadId = some name →
      (handleItem env s item).2.m_threadName = some name)
    ∧ (QHash.value s.logThreadHash item.m_threadId = none →
      (handleItem env s item).1.logThreadHash = s.logThreadHash
      ∧ (handleItem env s item).2 = item) := by
  obtain ⟨e1, e2⟩ := handleItem_deregistering env s item h1 h2
  have htid : (handleItem env s item).1.logThreadTidHash
      = QHash.remove item.m_threadId s.logThreadTidHash := by
    unfold handleItem
    simp only [h1, h2, Bool.false_eq_true, if_false, if_true]
    have hs : ∀ (s' : LogState) (x : LoggingItem),
        (sendItem s' x).logThreadTidHash = s'.logThreadTidHash := by
      intro s' x
      unfold sendItem
      split
      · split <;> rfl
      · rfl
    rw [hs]
    unfold handleDeregistering
    simp only []
    split <;> rfl
  refine ⟨?_, ?_, ?_, ?_, ?_⟩
  · rw [e1]; exact QHash.value_remove_self _ _
  · rw [htid]; exact QHash.value_remove_self _ _
  · intro k hk
    rw [e1, htid]
    exact ⟨QHash.value_remove_ne _ _ _ hk, QHash.value_remove_ne _ _ _ hk⟩
  · intro name hn
    rw [e2, hn]
  · intro hn
    refine ⟨by rw [e1, QHash.remove_of_value_none _ _ hn], ?_⟩
    unfold handleItem
    simp only [h1, h2, Bool.false_eq_true, if_false, if_true]
    simp only [handleDeregistering, QHash.remove, hn]

/-- C23 at samples: thread 7 is registered as "worker" and thread 8 as
    "other"; the deregistering record of thread 7 removes "worker" and leaves
    with it, and thread 8 keeps its name. -/
theorem handleItem_deregisters_witness :
    QHash.value (handleItem sampleEnv
        { sampleState (some (sampleThread ThreadPhase.inLoop)) false with
          logThreadHash := [(7, qs "worker"), (8, qs "other")]
          logThreadTidHash := [(7, 1007), (8, 1008)] }
        (sampleItem 7 deregisteringType none [])).1.logThreadHash
        (sampleItem 7 deregisteringType none []).m_threadId = none
    ∧ (handleItem sampleEnv
        { sampleState (some (sampleThread ThreadPhase.inLoop)) false with
          logThreadHash := [(7, qs "worker"), (8, qs "other")]
          logThreadTidHash := [(7, 1007), (8, 1008)] }
        (sampleItem 7 deregisteringType none [])).2.m_threadName = some (qs "worker") :=
  ⟨(handleItem_deregisters sampleEnv
      { sampleState (some (sampleThread ThreadPhase.inLoop)) false with
        logThreadHash := [(7, qs "worker"), (8, qs "other")]
        logThreadTidHash := [(7, 1007), (8, 1008)] }
      (sampleItem 7 deregisteringType none []) rfl rfl).1,
    (handleItem_deregisters sampleEnv
      { sampleState (some (sampleThread ThreadPhase.inLoop)) false with
        logThreadHash := [(7, qs "worker"), (8, qs "other")]
        logThreadTidHash := [(7, 1007), (8, 1008)] }
      (sampleItem 7 deregisteringType none []) rfl rfl).2.2.2.1 (qs "worker") (by decide)⟩

/-! ## C24: percent signs in a pre-formatted text -/

/-- C24, a text against the claim: thread 1 logs the pre-formatted text
    "100%%"; the stored message is "100%", not the input text. -/
theorem LogPrintLine_percent_pair_halved :
    (run sampleEnv sampleDefs [sampleLog 1 "100%%"]
        (sampleState (some (sampleThread ThreadPhase.inLoop)) false)).enqueued.map
        (fun i => i.m_message) = [qs "100%"]
    ∧ qs "100%" ≠ (qs "100%%").take (sampleEnv.LOGLINE_MAX - 1) := by
  decide

/-- C24, amended: `LogPrintLine` stores in the record that it enqueues what
    `vsnprintf` makes of a format `fmt` and the arguments.  With `fromQString`
    set, every maximal run of '%' in `fmt` has even length, and a `vsnprintf`
    that prints "%%" as one '%' (`cFormat`) makes of it, whatever the arguments
    are, the input text with each pair of adjacent '%' replaced by one '%',
    which is the input text itself when no two '%' are adjacent, truncated to
    fewer than LOGLINE_MAX characters.  With `fromQString` not set, `fmt` is
    the format unchanged. -/
theorem LogPrintLine_percent (env : LogEnv) (s : LogState) (c : Caller) (mask : Nat)
    (level : Int) (file : QString) (line : Int) (function : QString) (fromQString : Bool)
    (format : QString) (arguments : List QString) :
    ∃ (item : LoggingItem) (fmt : QString),
      (logPrintLineEnter env s c mask level file line function fromQString format
        arguments).enqueued = s.enqueued ++ [item]
      ∧ item.m_message = env.vsnprintf env.LOGLINE_MAX fmt arguments
      ∧ (fromQString = true →
        percentRunsEven fmt = true
        ∧ cFormat fmt arguments = collapsePercent format
        ∧ (noAdjacentPercent format = true → cFormat fmt arguments = format)
        ∧ ((∀ size f a, env.vsnprintf size f a = (cFormat f a).take (size - 1)) →
          item.m_message = (collapsePercent format).take (env.LOGLINE_MAX - 1)))
      ∧ (fromQString = false → fmt = format) := by
  obtain ⟨item, e1, -, -, -, -, -, -, -, -, e10, -⟩ :=
    logPrintLineEnter_effect env s c mask level file line function fromQString format arguments
  refine ⟨item, _, e10, e1, ?_, ?_⟩
  · intro hq
    subst hq
    have hfmt : cFormat (if true && format.contains '%' then escapePercent format else format)
        arguments = collapsePercent format := by
      cases hc : format.contains '%' with
      | true => simpa using cFormat_escapePercent format arguments
      | false =>
        simp only [Bool.and_false, Bool.false_eq_true, if_false]
        rw [collapsePercent_of_not_contains format hc]
        exact cFormat_of_not_contains format arguments hc
    refine ⟨?_, hfmt, ?_, ?_⟩
    · cases hc : format.contains '%' with
      | true => simpa using percentRunsEven_escapePercent format
      | false => simpa using percentRunsEven_of_not_contains format hc
    · intro hn
      rw [hfmt, collapsePercent_of_noAdjacent format hn]
    · intro hv
      rw [e1, hv, hfmt]
  · intro hq
    subst hq
    simp

/-- C24, amended, at a sample: the pre-formatted text "50% done" is stored as
    it is. -/
theorem LogPrintLine_percent_witness :
    ∃ (item : LoggingItem) (fmt : QString),
      (logPrintLineEnter sampleEnv (sampleState (some (sampleThread ThreadPhase.inLoop)) false)
        (sampleCaller 1) 2 6 (qs "main.cpp") 10 (qs "main") true (qs "50% done")
        []).enqueued = [] ++ [item]
      ∧ item.m_message = sampleEnv.vsnprintf sampleEnv.LOGLINE_MAX fmt []
      ∧ (true = true →
        percentRunsEven fmt = true
        ∧ cFormat fmt [] = collapsePercent (qs "50% done")
        ∧ (noAdjacentPercent (qs "50% done") = true → cFormat fmt [] = qs "50% done")
        ∧ ((∀ size f a, sampleEnv.vsnprintf size f a = (cFormat f a).take (size - 1)) →
          item.m_message
            = (collapsePercent (qs "50% done")).take (sampleEnv.LOGLINE_MAX - 1)))
      ∧ (true = false → fmt = qs "50% done") :=
  LogPrintLine_percent sampleEnv (sampleState (some (sampleThread ThreadPhase.inLoop)) false)
    (sampleCaller 1) 2 6 (qs "main.cpp") 10 (qs "main") true (qs "50% done") []

/-! ## C25: the reference count -/

/-- C25: a record made by `LoggingItem::create` has the reference count 1;
    `fillItem` and `handleItem` leave the count as it is and destroy nothing;
    `logConsole`, called with the count 1, returns with the count 1 and
    destroys nothing, whether it writes or not; and in the logger's sequence
    for a record with the count 1 the count is 0 after the last `deleteItem`,
    where the record is destroyed, once. -/
theorem consumerProcess_refcount (env : LogEnv) (defs : VerboseDefs) (t : LoggerThread)
    (s : LogState) (item : LoggingItem) :
    (∀ (c : Caller) (file function : QString) (line level : Int) (type : LoggingType),
      (LoggingItem.create s c file function line level type).2.refcount = 1)
    ∧ (∀ (s1 : LogState) (x : LoggingItem),
      (fillItem t s1 x).refcount = x.refcount
      ∧ (handleItem env s1 x).2.refcount = x.refcount
      ∧ (handleItem env s1 x).1.destroyed = s1.destroyed)
    ∧ (∀ (s1 : LogState) (x : LoggingItem), x.refcount = 1 →
      (logConsole env defs t s1 x).2.1.refcount = 1
      ∧ (logConsole env defs t s1 x).1.destroyed = s1.destroyed)
    ∧ (item.refcount = 1 →
      (consumerProcess env defs t s item).2.refcount = 0
      ∧ (consumerProcess env defs t s item).1.destroyed
        = s.destroyed ++ [(consumerProcess env defs t s item).2]) := by
  refine ⟨fun c file function line level type =>
      (create_item s c file function line level type).2.2.2.2.2,
    fun s1 x => ⟨rfl, handleItem_refcount env s1 x⟩,
    fun s1 x hx => logConsole_refcount env defs t s1 x hx, fun h => ?_⟩
  unfold consumerProcess
  simp only []
  have hh := handleItem_refcount env { s with handleItemCalls := s.handleItemCalls ++ [item] }
    (fillItem t { s with handleItemCalls := s.handleItemCalls ++ [item] } item)
  have hr : (handleItem env { s with handleItemCalls := s.handleItemCalls ++ [item] }
      (fillItem t { s with handleItemCalls := s.handleItemCalls ++ [item] } item)).2.refcount
      = 1 := hh.1.trans h
  obtain ⟨c1, c2⟩ := logConsole_refcount env defs t
    { (handleItem env { s with handleItemCalls := s.handleItemCalls ++ [item] }
        (fillItem t { s with handleItemCalls := s.handleItemCalls ++ [item] } item)).1 with
      logConsoleCalls :=
        (handleItem env { s with handleItemCalls := s.handleItemCalls ++ [item] }
          (fillItem t { s with handleItemCalls := s.handleItemCalls ++ [item] } item)
          ).1.logConsoleCalls ++ [item] }
    _ hr
  obtain ⟨d1, d2⟩ := deleteItem_last _ _ c1
  refine ⟨d1, ?_⟩
  rw [d2, c2]
  exact congrArg (fun l => l ++ [_]) hh.2

/-- C25 at a sample: the record "hello" with the count 1 is destroyed once by
    the logger's sequence. -/
theorem consumerProcess_refcount_witness :
    (consumerProcess sampleEnv sampleDefs (sampleThread ThreadPhase.inLoop)
      (sampleState (some (sampleThread ThreadPhase.inLoop)) false)
      (sampleItem 1 messageType none (qs "hello"))).2.refcount = 0
    ∧ (consumerProcess sampleEnv sampleDefs (sampleThread ThreadPhase.inLoop)
      (sampleState (some (sampleThread ThreadPhase.inLoop)) false)
      (sampleItem 1 messageType none (qs "hello"))).1.destroyed
      = [] ++ [(consumerProcess sampleEnv sampleDefs (sampleThread ThreadPhase.inLoop)
          (sampleState (some (sampleThread ThreadPhase.inLoop)) false)
          (sampleItem 1 messageType none (qs "hello"))).2] :=
  (consumerProcess_refcount sampleEnv sampleDefs (sampleThread ThreadPhase.inLoop)
    (sampleState (some (sampleThread ThreadPhase.inLoop)) false)
    (sampleItem 1 messageType none (qs "hello"))).2.2.2 rfl

/-! ## C27: empty tokens -/

/-- C27: for every argument that is empty, or begins with a non-word
    character, or ends with one, the split on runs of non-word characters
    yields an empty token, and `verboseArgParse` returns
    GENERIC_EXIT_INVALID_CMDLINE; the registry holds no entry with an empty
    name. -/
theorem verboseArgParse_empty_token (defs : VerboseDefs) (g : Globals) (arg : QString)
    (hempty : QMap.value (verboseInit defs) [] = none)
    (harg : arg = [] ∨ (∃ c rest, arg = c :: rest ∧ isWordChar c = false)
      ∨ (∃ init c, arg = init ++ [c] ∧ isWordChar c = false)) :
    [] ∈ QString.splitNonWord arg
    ∧ (verboseArgParse defs g arg).1 = GENERIC_EXIT_INVALID_CMDLINE := by
  have hmem : [] ∈ QString.splitNonWord arg := by
    rcases harg with h | ⟨c, rest, h, hc⟩ | ⟨init, c, h, hc⟩
    · subst h
      simp [QString.splitNonWord, QString.splitAux]
    · subst h
      simp [QString.splitNonWord, QString.splitAux, hc]
    · subst h
      exact splitAux_nil_mem _ _ _ (by rw [endsInSep_append, hc]; rfl) (fun hf => by cases hf)
  refine ⟨hmem, ?_⟩
  cases hres : (verboseArgParse defs g arg).1 with
  | GENERIC_EXIT_INVALID_CMDLINE => rfl
  | GENERIC_EXIT_OK =>
    have := ((verboseArgParse_ok_iff defs g arg).1 hres).2 [] hmem
    exact absurd this (not_tokenValid_nil defs hempty)

/-- C27 at the sample table: "general," and " general" and the empty
    argument are rejected. -/
theorem verboseArgParse_empty_token_witness :
    (verboseArgParse sampleDefs (initialGlobals sampleDefs) (qs "general,")).1
      = GENERIC_EXIT_INVALID_CMDLINE
    ∧ (verboseArgParse sampleDefs (initialGlobals sampleDefs) (qs " general")).1
      = GENERIC_EXIT_INVALID_CMDLINE
    ∧ (verboseArgParse sampleDefs (initialGlobals sampleDefs) []).1
      = GENERIC_EXIT_INVALID_CMDLINE :=
  ⟨(verboseArgParse_empty_token sampleDefs (initialGlobals sampleDefs) (qs "general,")
      (by decide) (Or.inr (Or.inr ⟨qs "general", ',', rfl, by decide⟩))).2,
    (verboseArgParse_empty_token sampleDefs (initialGlobals sampleDefs) (qs " general")
      (by decide) (Or.inr (Or.inl ⟨' ', qs "general", rfl, by decide⟩))).2,
    (verboseArgParse_empty_token sampleDefs (initialGlobals sampleDefs) []
      (by decide) (Or.inl rfl)).2⟩

/-! ## C28: the inline processing ships nothing -/

/-- C28: the inline processing of `LogPrintLine` is entered only with
    `logThreadFinished` set; with the flag set, the handling of a record by a
    thread in the inline loop sends nothing, and so does a whole
    `LogPrintLine` call; and in every run from the start of the logger, within
    one life of the logger thread, every handling of a record by a thread in
    the inline loop sends nothing. -/
theorem inline_never_ships (env : LogEnv) (defs : VerboseDefs) :
    (∀ s : LogState, inlineCondition s = true → s.logThreadFinished = true)
    ∧ (∀ (s : LogState) (threadId : Nat), s.logThreadFinished = true →
      (inlineHandle env defs s threadId).sent = s.sent)
    ∧ (∀ (s : LogState) (c : Caller) (mask : Nat) (level : Int) (file : QString)
        (line : Int) (function : QString) (fromQString : Bool) (format : QString)
        (arguments : List QString), s.logThreadFinished = true →
      (LogPrintLine env defs s c mask level file line function fromQString format
        arguments).sent = s.sent)
    ∧ (∀ (s0 : LogState) (tr : List Event) (threadId : Nat), FreshRunning s0 →
      (step env defs (run env defs tr s0) (Event.inlineHandle threadId)).sent
        = (run env defs tr s0).sent) := by
  refine ⟨inlineCondition_finished, fun s threadId hf => inlineHandle_sent env defs s threadId hf,
    ?_, ?_⟩
  · intro s c mask level file line function fromQString format arguments hf
    unfold LogPrintLine
    obtain ⟨item, -, -, -, -, -, -, -, e8, -⟩ :=
      logPrintLineEnter_effect env s c mask level file line function fromQString format
        arguments
    rw [inlineLoop_sent env defs _ _ _ (e8.trans hf), logPrintLineEnter_sent]
  · intro s0 tr threadId hfresh
    show (inlineHandle env defs (run env defs tr s0) threadId).sent = _
    cases hf : (run env defs tr s0).logThreadFinished with
    | true => exact inlineHandle_sent env defs _ threadId hf
    | false =>
      have hinv := run_runningInv env defs tr s0 (freshRunning_runningInv s0 hfresh).1 hf
      rw [inlineHandle_noop env defs _ threadId
        (Or.inl (fun item h => by rw [hinv.2.2.1] at h; cases h))]

/-- C28 at a sample: after the logger thread has ended, the call for "late"
    handles its record inline and sends nothing. -/
theorem inline_never_ships_witness :
    (LogPrintLine sampleEnv sampleDefs
        (sampleState (some (sampleThread ThreadPhase.notRunning)) true)
        (sampleCaller 1) 2 6 (qs "main.cpp") 10 (qs "main") true (qs "late") []).sent = []
    ∧ (LogPrintLine sampleEnv sampleDefs
        (sampleState (some (sampleThread ThreadPhase.notRunning)) true)
        (sampleCaller 1) 2 6 (qs "main.cpp") 10 (qs "main") true (qs "late")
        []).handleItemCalls.map (fun i => i.m_message) = [qs "late"] :=
  ⟨(inline_never_ships sampleEnv sampleDefs).2.2.1
      (sampleState (some (sampleThread ThreadPhase.notRunning)) true)
      (sampleCaller 1) 2 6 (qs "main.cpp") 10 (qs "main") true (qs "late") [] rfl,
    by decide⟩

/-! ## Lock operations -/

section Locks

open Mutex LockOp

theorem heldAfter_append (held : List Mutex) (a b : List LockOp) :
    heldAfter held (a ++ b) = heldAfter (heldAfter held a) b := by
  induction a generalizing held with
  | nil => rfl
  | cons op rest ih => cases op <;> exact ih _

theorem nestedPairs_append (held : List Mutex) (a b : List LockOp) :
    nestedPairs held (a ++ b) = nestedPairs held a ++ nestedPairs (heldAfter held a) b := by
  induction a generalizing held with
  | nil => rfl
  | cons op rest ih =>
    cases op with
    | lock m =>
      show _ ++ nestedPairs (m :: held) (rest ++ b) = (_ ++ _) ++ _
      rw [ih, List.append_assoc]
      rfl
    | unlock m => exact ih _

theorem SafeLocks.nil (held : List Mutex) : SafeLocks held held [] :=
  ⟨rfl, fun p hp => by cases hp⟩

theorem SafeLocks.append {h1 h2 h3 : List Mutex} {a b : List LockOp}
    (ha : SafeLocks h1 h2 a) (hb : SafeLocks h2 h3 b) : SafeLocks h1 h3 (a ++ b) := by
  obtain ⟨a1, a2⟩ := ha
  obtain ⟨b1, b2⟩ := hb
  refine ⟨by rw [heldAfter_append, a1, b1], fun p hp => ?_⟩
  rw [nestedPairs_append, List.mem_append, a1] at hp
  exact hp.elim (a2 p) (b2 p)

theorem SafeLocks.flatten {held : List Mutex} {xs : List (List LockOp)}
    (h : ∀ x ∈ xs, SafeLocks held held x) : SafeLocks held held xs.flatten := by
  induction xs with
  | nil => exact SafeLocks.nil held
  | cons x rest ih =>
    rw [List.flatten_cons]
    exact (h x (List.mem_cons_self _ _)).append
      (ih (fun y hy => h y (List.mem_cons_of_mem _ hy)))

theorem safe_create : SafeLocks [logQueueMutex] [logQueueMutex] createLocks := by decide

theorem safe_flush (waits : Nat) :
    SafeLocks [logQueueMutex] [logQueueMutex] (flushLocks waits) := by
  unfold flushLocks
  apply SafeLocks.flatten
  intro x hx
  rw [List.eq_of_mem_replicate hx]
  decide

theorem safe_inlineRecord (r : RecordPath) :
    SafeLocks [logQueueMutex] [logQueueMutex] (inlineRecordLocks r) := by
  obtain ⟨a, b, c, d, e⟩ := r
  cases a <;> cases b <;> cases c <;> cases d <;> cases e <;> decide

theorem safe_consumerRecord (r : RecordPath) :
    SafeLocks [logQueueMutex] [logQueueMutex] (consumerRecordLocks r) := by
  obtain ⟨a, b, c, d, e⟩ := r
  cases a <;> cases b <;> cases c <;> cases d <;> cases e <;> decide

theorem safe_lockQueue : SafeLocks [] [logQueueMutex] [lock logQueueMutex] := by decide

theorem safe_unlockQueue : SafeLocks [logQueueMutex] [] [unlock logQueueMutex] := by decide

theorem safe_LogPrintLine (p : LogPrintLinePath) : SafeLocks [] [] (LogPrintLineLocks p) := by
  cases p with
  | enqueueOnly => decide
  | inline records =>
    unfold LogPrintLineLocks
    refine ((safe_lockQueue.append safe_create).append (SafeLocks.flatten ?_)).append
      safe_unlockQueue
    intro x hx
    obtain ⟨r, -, rfl⟩ := List.mem_map.1 hx
    exact safe_inlineRecord r
  | flush waits =>
    unfold LogPrintLineLocks
    exact ((safe_lockQueue.append safe_create).append (safe_flush waits)).append
      safe_unlockQueue

theorem safe_logMacro (p : Option LogPrintLinePath) : SafeLocks [] [] (logMacroLocks p) := by
  cases p with
  | none => exact SafeLocks.nil []
  | some q => exact safe_LogPrintLine q

theorem safe_register (finished : Bool) :
    SafeLocks [] [] (loggingRegisterThreadLocks finished)
    ∧ SafeLocks [] [] (loggingDeregisterThreadLocks finished) := by
  cases finished <;> decide

theorem safe_levels (initialized : Bool) :
    SafeLocks [] [] (logLevelGetLocks initialized)
    ∧ SafeLocks [] [] (logLevelGetNameLocks initialized)
    ∧ SafeLocks [] [] (verboseArgParseLocks initialized)
    ∧ SafeLocks [] [] (logPropagateCalcLocks initialized) := by
  cases initialized <;> decide

theorem safe_logStart (p : LogStartPath) :
    ∃ held, SafeLocks [] held (logStartLocks p) := by
  unfold logStartLocks
  cases hr : p.running with
  | true => exact ⟨[], SafeLocks.nil []⟩
  | false =>
    simp only [Bool.false_eq_true, if_false]
    have h1 : SafeLocks [] []
        (if p.textComputed = true then logLevelGetNameLocks p.initializedAtText else []) := by
      split
      · exact (safe_levels _).2.1
      · exact SafeLocks.nil []
    have h2 := safe_logMacro p.log
    have h3 := (safe_levels p.initializedAtCalc).2.2.2
    have h4 := ((h1.append h2).append h3).append safe_lockQueue
    cases hc : (!p.threadExists && p.constructorLogs) with
    | true =>
      exact ⟨_, h4.append (by decide : SafeLocks [logQueueMutex] [logQueueMutex, logQueueMutex]
        [lock logQueueMutex])⟩
    | false => exact ⟨_, h4.append safe_unlockQueue⟩

theorem safe_run (logs : List (Option LogPrintLinePath)) (rounds : List LoopRound) :
    SafeLocks [] [] (runLocks logs rounds) := by
  unfold runLocks
  refine (((SafeLocks.flatten ?_).append safe_lockQueue).append (SafeLocks.flatten ?_)).append
    safe_unlockQueue
  · intro x hx
    obtain ⟨p, -, rfl⟩ := List.mem_map.1 hx
    exact safe_logMacro p
  · intro x hx
    obtain ⟨r, -, rfl⟩ := List.mem_map.1 hx
    cases r with
    | wait => decide
    | record r => exact safe_consumerRecord r

theorem safe_stop (waits : Nat) : SafeLocks [] [] (stopLocks waits) := by
  unfold stopLocks
  exact (safe_lockQueue.append (safe_flush waits)).append safe_unlockQueue

/-! ## C26: nested locking -/

/-- C26, call paths against the claim: `LogPrintLine` locks
    `logThreadTidMutex` (in `LoggingItem::create`, through `setThreadTid`) while
    it holds `logQueueMutex`, and `verboseInit` locks `loglevelMapMutex` while
    it holds `verboseMapMutex`. -/
theorem locks_nested_in_LogPrintLine :
    nestedPairs [] (LogPrintLineLocks LogPrintLinePath.enqueueOnly)
      = [(logQueueMutex, logThreadTidMutex)]
    ∧ nestedPairs [] verboseInitLocks = [(verboseMapMutex, loglevelMapMutex)] := by
  decide

/-- C26, amended: along every call path of `LogPrintLine`,
    `loggingRegisterThread`, `loggingDeregisterThread`, `logStart`, the loop of
    the logger thread, `stop`, `verboseInit`, `verboseArgParse`, `logLevelGet`,
    `logLevelGetName` and `logPropagateCalc`, whenever one of the five mutexes
    is locked while the thread holds another of them, the mutex held is
    `logQueueMutex` and the one locked is `logThreadTidMutex`, or the mutex held
    is `verboseMapMutex` and the one locked is `loglevelMapMutex`. -/
theorem locks_nesting_allowed :
    (∀ path, ∀ p ∈ nestedPairs [] (LogPrintLineLocks path), p ∈ allowedNesting)
    ∧ (∀ finished, ∀ p ∈ nestedPairs [] (loggingRegisterThreadLocks finished),
      p ∈ allowedNesting)
    ∧ (∀ finished, ∀ p ∈ nestedPairs [] (loggingDeregisterThreadLocks finished),
      p ∈ allowedNesting)
    ∧ (∀ path, ∀ p ∈ nestedPairs [] (logStartLocks path), p ∈ allowedNesting)
    ∧ (∀ logs rounds, ∀ p ∈ nestedPairs [] (runLocks logs rounds), p ∈ allowedNesting)
    ∧ (∀ waits, ∀ p ∈ nestedPairs [] (stopLocks waits), p ∈ allowedNesting)
    ∧ (∀ p ∈ nestedPairs [] verboseInitLocks, p ∈ allowedNesting)
    ∧ (∀ initialized, ∀ p ∈ nestedPairs [] (verboseArgParseLocks initialized),
      p ∈ allowedNesting)
    ∧ (∀ initialized, ∀ p ∈ nestedPairs [] (logLevelGetLocks initialized),
      p ∈ allowedNesting)
    ∧ (∀ initialized, ∀ p ∈ nestedPairs [] (logLevelGetNameLocks initialized),
      p ∈ allowedNesting)
    ∧ (∀ initialized, ∀ p ∈ nestedPairs [] (logPropagateCalcLocks initialized),
      p ∈ allowedNesting) :=
  ⟨fun path => (safe_LogPrintLine path).2,
    fun finished => (safe_register finished).1.2,
    fun finished => (safe_register finished).2.2,
    fun path => (safe_logStart path).elim (fun _ h => h.2),
    fun logs rounds => (safe_run logs rounds).2,
    fun waits => (safe_stop waits).2,
    by decide,
    fun initialized => (safe_levels initialized).2.2.1.2,
    fun initialized => (safe_levels initialized).1.2,
    fun initialized => (safe_levels initialized).2.1.2,
    fun initialized => (safe_levels initialized).2.2.2.2⟩

/-- C26, amended, at a sample: a `LogPrintLine` call that processes a
    registering record inline nests `logThreadTidMutex` in `logQueueMutex`, which
    is one of the two nestings. -/
theorem locks_nesting_allowed_witness :
    (logQueueMutex, logThreadTidMutex)
      ∈ nestedPairs [] (LogPrintLineLocks (LogPrintLinePath.inline
          [{ hasName := false, registering := true, deregistering := false,
             skipped := false, stdio := false }]))
    ∧ (logQueueMutex, logThreadTidMutex) ∈ allowedNesting :=
  ⟨by decide,
    locks_nesting_allowed.1
      (LogPrintLinePath.inline
        [{ hasName := false, registering := true, deregistering := false,
           skipped := false, stdio := false }])
      (logQueueMutex, logThreadTidMutex) (by decide)⟩

end Locks

/-! ## Binary property lists -/

/-- The members that `ParseBinaryPList` sets from the trailer of
    `selfReferringPlist`. -/
theorem ParseBinaryPList_selfReferring (keyText : QVariant → QString) (fuel : Nat) :
    ParseBinaryPList keyText fuel selfReferringPlist =
      ParseBinaryNode
        { data := selfReferringPlist, offsetTable := 10, offsetSize := 1, parmSize := 1
          numObjs := 1, rootObj := 0, keyText := keyText } fuel 0 := rfl

/-- On `selfReferringPlist` a call of `ParseBinaryNode` for the object 0 makes
    the same call again, so no fuel is enough. -/
theorem ParseBinaryNode_selfReferring (keyText : QVariant → QString) (fuel : Nat) :
    ParseBinaryNode
        { data := selfReferringPlist, offsetTable := 10, offsetSize := 1, parmSize := 1
          numObjs := 1, rootObj := 0, keyText := keyText } fuel 0 = .error .outOfFuel := by
  induction fuel with
  | zero => rfl
  | succ n ih =>
    have h : ParseBinaryNode
        { data := selfReferringPlist, offsetTable := 10, offsetSize := 1, parmSize := 1
          numObjs := 1, rootObj := 0, keyText := keyText } (n + 1) 0 =
        ((ParseBinaryNode
            { data := selfReferringPlist, offsetTable := 10, offsetSize := 1, parmSize := 1
              numObjs := 1, rootObj := 0, keyText := keyText } n 0 >>=
            fun val => Except.ok [val]) >>= fun items => Except.ok (.list items)) := rfl
    rw [h, ih]; rfl

/-- A well-formed property list without a cycle is parsed: the fuel 2 is
    enough for `smallPlist`. -/
theorem ParseBinaryPList_small :
    ParseBinaryPList sampleKeyText 2 smallPlist = .ok (.list [.bool true, .uLongLong 5]) := rfl

/-- The loop of `ParseBinaryArray` returns the same when `ParseBinaryNode` is
    given more fuel. -/
theorem arrayLoop_mono (pl : PList) (f g : Nat → Except ParseStop QVariant)
    (hfg : ∀ num, f num ≠ .error .outOfFuel → g num = f num) (n p : Nat) (acc : List QVariant)
    (h : arrayLoop pl f n p acc ≠ .error .outOfFuel) :
    arrayLoop pl g n p acc = arrayLoop pl f n p acc := by
  induction n generalizing p acc with
  | zero => rfl
  | succ n ih =>
    simp only [arrayLoop] at h ⊢
    cases hobj : GetBinaryUInt pl.data p pl.parmSize with
    | error e => rfl
    | ok obj =>
      rw [hobj] at h
      simp only [bind, Except.bind] at h ⊢
      cases hf : f obj with
      | error e =>
        rw [hf] at h
        simp only at h
        rw [hfg obj (by rw [hf]; intro he; cases he; exact h rfl), hf]
      | ok v =>
        rw [hf] at h
        rw [hfg obj (by rw [hf]; intro he; cases he), hf]
        exact ih _ _ h

/-- The loop of `ParseBinaryDict` returns the same when `ParseBinaryNode` is
    given more fuel. -/
theorem dictLoop_mono (pl : PList) (f g : Nat → Except ParseStop QVariant)
    (hfg : ∀ num, f num ≠ .error .outOfFuel → g num = f num) (off n p : Nat)
    (acc : QMap QString QVariant) (h : dictLoop pl f off n p acc ≠ .error .outOfFuel) :
    dictLoop pl g off n p acc = dictLoop pl f off n p acc := by
  induction n generalizing p acc with
  | zero => rfl
  | succ n ih =>
    simp only [dictLoop] at h ⊢
    cases hk : GetBinaryUInt pl.data p pl.parmSize with
    | error e => rfl
    | ok keyobj =>
      rw [hk] at h
      cases hv : GetBinaryUInt pl.data (p + off) pl.parmSize with
      | error e => rfl
      | ok valobj =>
        rw [hv] at h
        simp only [bind, Except.bind] at h ⊢
        cases hfk : f keyobj with
        | error e =>
          rw [hfk] at h
          simp only at h
          rw [hfg keyobj (by rw [hfk]; intro he; cases he; exact h rfl), hfk]
        | ok key =>
          rw [hfk] at h
          rw [hfg keyobj (by rw [hfk]; intro he; cases he), hfk]
          simp only at h ⊢
          cases hfv : f valobj with
          | error e =>
            rw [hfv] at h
            simp only at h
            rw [hfg valobj (by rw [hfv]; intro he; cases he; exact h rfl), hfv]
          | ok val =>
            rw [hfv] at h
            rw [hfg valobj (by rw [hfv]; intro he; cases he), hfv]
            simp only at h ⊢
            cases hc : key.canConvertString with
            | false => rfl
            | true =>
              rw [hc] at h
              exact ih _ _ h

/-- Source `ParseBinaryArray` returns the same when `ParseBinaryNode` is given
    more fuel. -/
theorem ParseBinaryArray_mono (pl : PList) (f g : Nat → Except ParseStop QVariant)
    (hfg : ∀ num, f num ≠ .error .outOfFuel → g num = f num) (p : Nat)
    (h : ParseBinaryArray pl f p ≠ .error .outOfFuel) :
    ParseBinaryArray pl g p = ParseBinaryArray pl f p := by
  simp only [ParseBinaryArray] at h ⊢
  cases hb : readByte pl.data p with
  | error e => rfl
  | ok b =>
    rw [hb] at h
    simp only [bind, Except.bind] at h ⊢
    split
    · rfl
    · rename_i hty
      rw [if_neg hty] at h
      cases hc : GetBinaryCount pl.data p with
      | error e => rfl
      | ok cq =>
        rw [hc] at h
        simp only at h ⊢
        split
        · rfl
        · rename_i h0
          rw [if_neg h0] at h
          exact arrayLoop_mono pl f g hfg _ _ _ h

/-- Source `ParseBinaryDict` returns the same when `ParseBinaryNode` is given
    more fuel. -/
theorem ParseBinaryDict_mono (pl : PList) (f g : Nat → Except ParseStop QVariant)
    (hfg : ∀ num, f num ≠ .error .outOfFuel → g num = f num) (p : Nat)
    (h : ParseBinaryDict pl f p ≠ .error .outOfFuel) :
    ParseBinaryDict pl g p = ParseBinaryDict pl f p := by
  simp only [ParseBinaryDict] at h ⊢
  cases hb : readByte pl.data p with
  | error e => rfl
  | ok b =>
    rw [hb] at h
    simp only [bind, Except.bind] at h ⊢
    split
    · rfl
    · rename_i hty
      rw [if_neg hty] at h
      cases hc : GetBinaryCount pl.data p with
      | error e => rfl
      | ok cq =>
        rw [hc] at h
        simp only at h ⊢
        split
        · rfl
        · rename_i h0
          rw [if_neg h0] at h
          exact dictLoop_mono pl f g hfg _ _ _ _ h

/-- A result of `ParseBinaryNode` that is reached with some fuel is reached
    with more fuel: the fuel bounds the depth of the recursion and nothing
    else. -/
theorem ParseBinaryNode_mono (pl : PList) (fuel num : Nat)
    (h : ParseBinaryNode pl fuel num ≠ .error .outOfFuel) :
    ParseBinaryNode pl (fuel + 1) num = ParseBinaryNode pl fuel num := by
  induction fuel generalizing num with
  | zero => exact absurd rfl h
  | succ n ih =>
    rw [ParseBinaryNode] at h
    conv_lhs => rw [ParseBinaryNode]
    conv_rhs => rw [ParseBinaryNode]
    cases ho : GetBinaryObject pl num with
    | error e => rfl
    | ok o =>
      rw [ho] at h
      cases o with
      | none => rfl
      | some p =>
        simp only [bind, Except.bind] at h ⊢
        cases hb : readByte pl.data p with
        | error e => rfl
        | ok b =>
          rw [hb] at h
          dsimp only at h ⊢
          by_cases hty : b &&& 240 = 192 ∨ b &&& 240 = 160
          · rw [if_pos hty] at h
            rw [if_pos hty, if_pos hty]
            have ha : ParseBinaryArray pl (ParseBinaryNode pl n) p ≠ .error .outOfFuel := by
              intro he; rw [he] at h; exact h rfl
            rw [ParseBinaryArray_mono pl _ _ (fun num hn => ih num hn) p ha]
          · rw [if_neg hty] at h
            rw [if_neg hty, if_neg hty]
            by_cases hty2 : b &&& 240 = 208
            · rw [if_pos hty2] at h
              rw [if_pos hty2, if_pos hty2]
              have ha : ParseBinaryDict pl (ParseBinaryNode pl n) p ≠ .error .outOfFuel := by
                intro he; rw [he] at h; exact h rfl
              rw [ParseBinaryDict_mono pl _ _ (fun num hn => ih num hn) p ha]
            · rw [if_neg hty2, if_neg hty2]

/-! ## C29: a property list that refers to itself -/

/-- C29 (the code departs from the claim): on the property list
    `selfReferringPlist`, whose root array has the array itself as its one
    element, `ParseBinaryPList` does not return: whatever depth of recursion
    is allowed to `ParseBinaryNode`, the parser asks for one call more. -/
theorem ParseBinaryPList_self_reference_diverges (keyText : QVariant → QString) (fuel : Nat) :
    ParseBinaryPList keyText fuel selfReferringPlist = .error .outOfFuel := by
  rw [ParseBinaryPList_selfReferring]
  exact ParseBinaryNode_selfReferring keyText fuel

/-! ## The registry of IPTV stream handlers -/

section RegistryLemmas

open IPTVStreamHandler

/-- Source `QMap::erase` removes the key and leaves the other keys. -/
theorem QMap.value_erase {K V : Type} [DecidableEq K] (m : QMap K V) (k k' : K) :
    QMap.value (QMap.erase k m) k' = if k' = k then none else QMap.value m k' := by
  induction m with
  | nil => simp [QMap.erase, QMap.value]
  | cons e rest ih =>
    obtain ⟨k0, v0⟩ := e
    unfold QMap.erase at ih ⊢
    by_cases h1 : k0 = k
    · subst h1
      by_cases h2 : k' = k0
      · simpa [List.filter, QMap.value, h2] using ih
      · simpa [List.filter, QMap.value, h2] using ih
    · by_cases h2 : k' = k
      · subst h2
        have h3 : ¬ k' = k0 := fun h => h1 h.symm
        simpa [List.filter, QMap.value, h1, h3] using ih
      · by_cases h3 : k' = k0
        · simp [List.filter, QMap.value, h1, h2, h3]
        · simpa [List.filter, QMap.value, h1, h2, h3] using ih

/-- The invariant holds for the empty maps. -/
theorem registryInv_empty : RegistryInv Registry.empty := by
  constructor <;> simp [Registry.empty, QMap.value]

/-- The count of one handler in a log that grew by one handler. -/
theorem count_snoc (l : List IPTVStreamHandler) (a h : IPTVStreamHandler) :
    (l ++ [a]).count h = l.count h + if a = h then 1 else 0 := by
  rw [List.count_append, List.count_singleton]
  by_cases e : a = h <;> simp [e]

/-- The handles of one device in a log that grew by one handler. -/
theorem filter_snoc_length (l : List IPTVStreamHandler) (a : IPTVStreamHandler) (key : QString) :
    ((l ++ [a]).filter (fun h => decide (h.device = key))).length =
      (l.filter (fun h => decide (h.device = key))).length + if a.device = key then 1 else 0 := by
  rw [List.filter_append, List.length_append]
  by_cases e : a.device = key <;> simp [List.filter, e]

/-- Source `Get` for a device that has no handler. -/
theorem Get_new (devname : QString) (s : Registry)
    (h : QMap.value s.s_handlers (QString.toUpper devname) = none) :
    Get devname s =
      ({ id := s.allocated, device := QString.toUpper devname },
        { s with
          s_handlers := QMap.insert (QString.toUpper devname)
            { id := s.allocated, device := QString.toUpper devname } s.s_handlers
          s_handlers_refcnt := QMap.insert (QString.toUpper devname) 1 s.s_handlers_refcnt
          allocated := s.allocated + 1
          obtained :=
            s.obtained ++ [{ id := s.allocated, device := QString.toUpper devname }] }) := by
  simp only [Get, h]

/-- Source `Get` for a device that has a handler. -/
theorem Get_existing (devname : QString) (s : Registry) (h0 : IPTVStreamHandler)
    (h : QMap.value s.s_handlers (QString.toUpper devname) = some h0) :
    Get devname s =
      (h0,
        { s with
          s_handlers_refcnt := QMap.insert (QString.toUpper devname)
            ((((QMap.value s.s_handlers_refcnt (QString.toUpper devname)).getD 0) + 1) % 2 ^ 32)
            s.s_handlers_refcnt
          obtained := s.obtained ++ [h0] }) := by
  simp only [Get, h]

/-- Source `Return` for a count above 1. -/
theorem Return_more (ref : IPTVStreamHandler) (s : Registry) (c : Nat)
    (h : QMap.value s.s_handlers_refcnt ref.device = some c) (hc : 1 < c) :
    Return ref s =
      (none,
        { s with
          returned := s.returned ++ [ref]
          s_handlers_refcnt := QMap.insert ref.device (c - 1) s.s_handlers_refcnt }) := by
  simp only [Return, h, gt_iff_lt, hc, if_true]

/-- Source `Return` for the count 1 of the stored handler. -/
theorem Return_last (ref : IPTVStreamHandler) (s : Registry) (c : Nat)
    (h : QMap.value s.s_handlers_refcnt ref.device = some c) (hc : ¬ 1 < c)
    (hs : QMap.value s.s_handlers ref.device = some ref) :
    Return ref s =
      (none,
        { s with
          returned := s.returned ++ [ref]
          closed := s.closed ++ [ref.id]
          s_handlers := QMap.erase ref.device s.s_handlers
          s_handlers_refcnt := QMap.erase ref.device s.s_handlers_refcnt }) := by
  simp only [Return, h, gt_iff_lt, hc, if_false, hs, if_true]

/-- The stored count of a device is the number of its handles that are
    out. -/
theorem registryInv_count_eq {s : Registry} (inv : RegistryInv s) (key : QString) :
    (QMap.value s.s_handlers_refcnt key).getD 0 = s.outstanding key := by
  have h := inv.perKey key
  unfold Registry.outstanding
  omega

/-- Source `Get` keeps the invariant while the count does not wrap. -/
theorem registryInv_get {s : Registry} (inv : RegistryInv s) (devname : QString)
    (hb : s.outstanding (QString.toUpper devname) + 1 < 2 ^ 32) :
    RegistryInv (Get devname s).2 := by
  cases hv : QMap.value s.s_handlers (QString.toUpper devname) with
  | none =>
    rw [Get_new devname s hv]
    have hr : QMap.value s.s_handlers_refcnt (QString.toUpper devname) = none := by
      have := inv.keys (QString.toUpper devname)
      rw [hv] at this
      cases h : QMap.value s.s_handlers_refcnt (QString.toUpper devname) with
      | none => rfl
      | some c => rw [h] at this; simp at this
    have hnew : ({ id := s.allocated, device := QString.toUpper devname } :
        IPTVStreamHandler) ∉ s.obtained := by
      intro hm
      have := inv.fresh _ hm
      simp at this
    have hc0 : s.obtained.count
        ({ id := s.allocated, device := QString.toUpper devname } : IPTVStreamHandler) = 0 :=
      List.count_eq_zero_of_not_mem hnew
    have hr0 : s.returned.count
        ({ id := s.allocated, device := QString.toUpper devname } : IPTVStreamHandler) = 0 := by
      have := inv.le { id := s.allocated, device := QString.toUpper devname }
      omega
    constructor
    · intro key
      simp only [QMap.value_insert]
      by_cases hk : key = QString.toUpper devname
      · simp [hk]
      · simp only [hk, if_false]; exact inv.keys key
    · intro key h hs
      simp only [QMap.value_insert] at hs ⊢
      by_cases hk : key = QString.toUpper devname
      · simp only [hk, if_true, Option.some.injEq] at hs ⊢
        subst hs
        simp only [count_snoc, if_true, hc0, hr0]
        simp
      · simp only [hk, if_false] at hs ⊢
        obtain ⟨h1, h2, h3⟩ := inv.stored key h hs
        have hne : ¬ ({ id := s.allocated, device := QString.toUpper devname } :
            IPTVStreamHandler) = h := by
          intro he; apply hk; rw [← h1, ← he]
        simp only [count_snoc, hne, if_false, Nat.add_zero]
        exact ⟨h1, h2, h3⟩
    · intro h hlt
      simp only [count_snoc] at hlt
      simp only [QMap.value_insert]
      by_cases he : ({ id := s.allocated, device := QString.toUpper devname } :
          IPTVStreamHandler) = h
      · subst he; simp
      · simp only [he, if_false, Nat.add_zero] at hlt
        have hs := inv.out h hlt
        have hk : ¬ h.device = QString.toUpper devname := by
          intro hd; rw [hd, hv] at hs; cases hs
        simp only [hk, if_false]; exact hs
    · intro h
      simp only [count_snoc]
      have := inv.le h
      omega
    · intro h hm
      simp only [List.mem_append, List.mem_singleton] at hm
      rcases hm with hm | hm
      · have := inv.fresh h hm
        show h.id < s.allocated + 1
        omega
      · subst hm
        show s.allocated < s.allocated + 1
        omega
    · intro key
      simp only [filter_snoc_length, QMap.value_insert]
      have hp := inv.perKey key
      by_cases hk : key = QString.toUpper devname
      · subst hk
        rw [hr] at hp
        simp only [if_true, Option.getD_some]
        simp only [Option.getD_none] at hp
        omega
      · have hk2 : ¬ QString.toUpper devname = key := fun h => hk h.symm
        simp only [hk, hk2, if_false]
        omega
  | some h0 =>
    rw [Get_existing devname s h0 hv]
    obtain ⟨hd0, hlt0, hr0⟩ := inv.stored _ h0 hv
    have hcnt := registryInv_count_eq inv (QString.toUpper devname)
    have hmod : (((QMap.value s.s_handlers_refcnt (QString.toUpper devname)).getD 0) + 1) % 2 ^ 32
        = s.obtained.count h0 - s.returned.count h0 + 1 := by
      rw [Nat.mod_eq_of_lt (by rw [hcnt]; exact hb), hr0]
      rfl
    rw [hmod]
    constructor
    · intro key
      simp only [QMap.value_insert]
      by_cases hk : key = QString.toUpper devname
      · subst hk; simp [hv]
      · simp only [hk, if_false]; exact inv.keys key
    · intro key h hs
      simp only [QMap.value_insert]
      obtain ⟨h1, h2, h3⟩ := inv.stored key h hs
      by_cases hk : key = QString.toUpper devname
      · subst hk
        rw [hv] at hs
        cases hs
        simp only [count_snoc, if_true]
        refine ⟨h1, by omega, ?_⟩
        congr 1
        omega
      · have hne : ¬ h0 = h := by
          intro he; apply hk; rw [← h1, ← he, hd0]
        simp only [hk, if_false, count_snoc, hne, Nat.add_zero]
        exact ⟨h1, h2, h3⟩
    · intro h hlt
      simp only [count_snoc] at hlt
      show QMap.value s.s_handlers h.device = some h
      by_cases he : h0 = h
      · subst he; rw [hd0]; exact hv
      · simp only [he, if_false, Nat.add_zero] at hlt
        exact inv.out h hlt
    · intro h
      simp only [count_snoc]
      have := inv.le h
      omega
    · intro h hm
      simp only [List.mem_append, List.mem_singleton] at hm
      rcases hm with hm | hm
      · exact inv.fresh h hm
      · subst hm
        exact inv.fresh h (List.count_pos_iff.mp (by omega))
    · intro key
      simp only [filter_snoc_length, QMap.value_insert]
      have hp := inv.perKey key
      by_cases hk : key = QString.toUpper devname
      · subst hk
        rw [hr0] at hp
        simp only [hd0, if_true, Option.getD_some] at hp ⊢
        omega
      · have hk2 : ¬ h0.device = key := fun h => hk (by rw [← h, hd0])
        simp only [hk, hk2, if_false]
        omega

/-- Source `Return` keeps the invariant for a handler that is out. -/
theorem registryInv_ret {s : Registry} (inv : RegistryInv s) (ref : IPTVStreamHandler)
    (ha : s.returned.count ref < s.obtained.count ref) :
    RegistryInv (Return ref s).2 := by
  have hs := inv.out ref ha
  obtain ⟨_, _, hr⟩ := inv.stored _ ref hs
  by_cases hc : 1 < s.obtained.count ref - s.returned.count ref
  · rw [Return_more ref s _ hr hc]
    constructor
    · intro key
      simp only [QMap.value_insert]
      by_cases hk : key = ref.device
      · subst hk; simp [hs]
      · simp only [hk, if_false]; exact inv.keys key
    · intro key h hst
      simp only [QMap.value_insert]
      obtain ⟨h1, h2, h3⟩ := inv.stored key h hst
      by_cases hk : key = ref.device
      · subst hk
        rw [hs] at hst
        cases hst
        simp only [count_snoc, if_true]
        refine ⟨trivial, by omega, ?_⟩
        congr 1
      · have hne : ¬ ref = h := by
          intro he; apply hk; rw [← h1, ← he]
        simp only [hk, if_false, count_snoc, hne, Nat.add_zero]
        exact ⟨h1, h2, h3⟩
    · intro h hlt
      simp only [count_snoc] at hlt
      show QMap.value s.s_handlers h.device = some h
      exact inv.out h (by omega)
    · intro h
      simp only [count_snoc]
      have := inv.le h
      by_cases he : ref = h
      · subst he; simp only [if_true]; omega
      · simp only [he, if_false]; omega
    · exact inv.fresh
    · intro key
      simp only [filter_snoc_length, QMap.value_insert]
      have hp := inv.perKey key
      by_cases hk : key = ref.device
      · subst hk
        rw [hr] at hp
        simp only [if_true, Option.getD_some] at hp ⊢
        omega
      · have hk2 : ¬ ref.device = key := fun h => hk h.symm
        simp only [hk, hk2, if_false]
        omega
  · rw [Return_last ref s _ hr hc hs]
    constructor
    · intro key
      simp only [QMap.value_erase]
      by_cases hk : key = ref.device
      · simp [hk]
      · simp only [hk, if_false]; exact inv.keys key
    · intro key h hst
      simp only [QMap.value_erase] at hst ⊢
      by_cases hk : key = ref.device
      · simp [hk] at hst
      · simp only [hk, if_false] at hst ⊢
        obtain ⟨h1, h2, h3⟩ := inv.stored key h hst
        have hne : ¬ ref = h := by
          intro he; apply hk; rw [← h1, ← he]
        simp only [count_snoc, hne, if_false, Nat.add_zero]
        exact ⟨h1, h2, h3⟩
    · intro h hlt
      simp only [count_snoc] at hlt
      simp only [QMap.value_erase]
      by_cases he : ref = h
      · subst he
        simp only [if_true] at hlt
        omega
      · simp only [he, if_false, Nat.add_zero] at hlt
        have hst := inv.out h hlt
        have hk : ¬ h.device = ref.device := by
          intro hd
          rw [hd, hs] at hst
          cases hst
          exact he rfl
        simp only [hk, if_false]; exact hst
    · intro h
      simp only [count_snoc]
      have := inv.le h
      by_cases he : ref = h
      · subst he; simp only [if_true]; omega
      · simp only [he, if_false]; omega
    · exact inv.fresh
    · intro key
      simp only [filter_snoc_length, QMap.value_erase]
      have hp := inv.perKey key
      by_cases hk : key = ref.device
      · subst hk
        rw [hr] at hp
        simp only [if_true, Option.getD_some, Option.getD_none] at hp ⊢
        omega
      · have hk2 : ¬ ref.device = key := fun h => hk h.symm
        simp only [hk, hk2, if_false]
        omega

/-- The invariant holds after every run in which handlers are returned as
    they were obtained and no count wraps. -/
theorem run_registryInv (calls : List RegistryCall) (s : Registry) (inv : RegistryInv s)
    (hret : wellReturned calls s = true) (hcnt : withinCount calls s = true) :
    RegistryInv (s.run calls) := by
  induction calls generalizing s with
  | nil => exact inv
  | cons call rest ih =>
    cases call with
    | get devname =>
      simp only [wellReturned] at hret
      simp only [withinCount, Bool.and_eq_true, decide_eq_true_eq] at hcnt
      exact ih _ (registryInv_get inv devname hcnt.1) hret hcnt.2
    | ret ref =>
      simp only [wellReturned, Bool.and_eq_true, decide_eq_true_eq] at hret
      simp only [withinCount] at hcnt
      exact ih _ (registryInv_ret inv ref hret.1) hret.2 hcnt

/-- After a call of `Get` the handler returned is the one stored for the
    device. -/
theorem Get_stored (devname : QString) (s : Registry) :
    QMap.value (Get devname s).2.s_handlers (QString.toUpper devname) = some (Get devname s).1 := by
  cases hv : QMap.value s.s_handlers (QString.toUpper devname) with
  | none => rw [Get_new devname s hv]; simp [QMap.value_insert]
  | some h0 => rw [Get_existing devname s h0 hv]; exact hv

/-- Source `Get` closes no handler. -/
theorem Get_closed (devname : QString) (s : Registry) : (Get devname s).2.closed = s.closed := by
  cases hv : QMap.value s.s_handlers (QString.toUpper devname) with
  | none => rw [Get_new devname s hv]
  | some h0 => rw [Get_existing devname s h0 hv]

/-- Two calls of `Get` in a row for names that are equal up to letter case
    return the same handler. -/
theorem Get_same_handler (a b : QString) (s : Registry)
    (hab : QString.toUpper a = QString.toUpper b) :
    (Get b (Get a s).2).1 = (Get a s).1 := by
  have h := Get_stored a s
  rw [hab] at h
  rw [Get_existing b _ _ h]

/-- The registry after `n` calls of `Get` for one name, from a state in which
    the device has a handler. -/
theorem run_replicate_get (devname : QString) (n : Nat) (s : Registry) (h0 : IPTVStreamHandler)
    (c : Nat) (hs : QMap.value s.s_handlers (QString.toUpper devname) = some h0)
    (hr : QMap.value s.s_handlers_refcnt (QString.toUpper devname) = some c) :
    QMap.value (s.run (List.replicate n (RegistryCall.get devname))).s_handlers_refcnt
        (QString.toUpper devname) = some (if n = 0 then c else (c + n) % 2 ^ 32) ∧
      (s.run (List.replicate n (RegistryCall.get devname))).obtained
        = s.obtained ++ List.replicate n h0 ∧
      (s.run (List.replicate n (RegistryCall.get devname))).returned = s.returned := by
  induction n generalizing s c with
  | zero => simp [Registry.run, hr]
  | succ n ih =>
    have hstep : s.run (List.replicate (n + 1) (RegistryCall.get devname)) =
        (Get devname s).2.run (List.replicate n (RegistryCall.get devname)) := rfl
    rw [hstep]
    have hg := Get_existing devname s h0 hs
    have hs1 : QMap.value (Get devname s).2.s_handlers (QString.toUpper devname) = some h0 := by
      rw [hg]; exact hs
    have hr1 : QMap.value (Get devname s).2.s_handlers_refcnt (QString.toUpper devname)
        = some ((c + 1) % 2 ^ 32) := by
      rw [hg]; simp [QMap.value_insert, hr]
    obtain ⟨e1, e2, e3⟩ := ih (Get devname s).2 ((c + 1) % 2 ^ 32) hs1 hr1
    refine ⟨?_, ?_, ?_⟩
    · rw [e1]
      by_cases hn : n = 0
      · simp [hn]
      · simp only [hn, if_false, Nat.succ_ne_zero]
        congr 1
        omega
    · rw [e2, hg]
      simp [List.replicate_succ]
    · rw [e3, hg]

/-- A run of calls of `Get` returns no handler, so it obeys the rule on
    `Return`. -/
theorem wellReturned_replicate_get (devname : QString) (n : Nat) (s : Registry) :
    wellReturned (List.replicate n (RegistryCall.get devname)) s = true := by
  induction n generalizing s with
  | zero => rfl
  | succ n ih => exact ih _

/-- The registry after `n + 1` calls of `Get` for one name, from the empty
    maps. -/
theorem run_replicate_get_empty (devname : QString) (n : Nat) :
    QMap.value
        (Registry.empty.run (List.replicate (n + 1) (RegistryCall.get devname))).s_handlers_refcnt
        (QString.toUpper devname) = some ((n + 1) % 2 ^ 32) ∧
      (Registry.empty.run (List.replicate (n + 1) (RegistryCall.get devname))).outstanding
        (QString.toUpper devname) = n + 1 := by
  have hstep : Registry.empty.run (List.replicate (n + 1) (RegistryCall.get devname)) =
      (Get devname Registry.empty).2.run (List.replicate n (RegistryCall.get devname)) := rfl
  rw [hstep]
  have hg := Get_new devname Registry.empty rfl
  have hs1 := Get_stored devname Registry.empty
  have hr1 : QMap.value (Get devname Registry.empty).2.s_handlers_refcnt (QString.toUpper devname)
      = some 1 := by
    rw [hg]; simp [QMap.value_insert]
  obtain ⟨e1, e2, e3⟩ := run_replicate_get devname n _ _ 1 hs1 hr1
  refine ⟨?_, ?_⟩
  · rw [e1]
    by_cases hn : n = 0
    · simp [hn]
    · simp only [hn, if_false]
      congr 1
      omega
  · unfold Registry.outstanding
    rw [e2, e3, hg]
    simp [Registry.empty, List.filter_append, List.filter_replicate]

end RegistryLemmas

/-! ## C30: the invariant of the handler registry -/

section RegistryClaims

open IPTVStreamHandler

/-- C30 (counterexample to the claim as stated): after `2 ^ 32` calls of `Get`
    for the name "a" and no call of `Return`, which obeys the rule on
    `Return`, the count stored for "A" is 0 although `2 ^ 32` handles are out:
    the `uint` count has wrapped, so a stored count can be below 1 and differ
    from the number of calls of `Get` minus the number of calls of `Return`. -/
theorem Get_refcnt_wraps :
    wellReturned (List.replicate (2 ^ 32) (RegistryCall.get (qs "a"))) Registry.empty = true
    ∧ QMap.value
        (Registry.empty.run (List.replicate (2 ^ 32) (RegistryCall.get (qs "a")))).s_handlers_refcnt
        (qs "A") = some 0
    ∧ (Registry.empty.run (List.replicate (2 ^ 32) (RegistryCall.get (qs "a")))).outstanding
        (qs "A") = 2 ^ 32 := by
  have h := run_replicate_get_empty (qs "a") 4294967295
  have e : 4294967295 + 1 = 2 ^ 32 := by norm_num
  have k : QString.toUpper (qs "a") = qs "A" := by decide
  rw [e, k, Nat.mod_self] at h
  exact ⟨wellReturned_replicate_get _ _ _, h.1, h.2⟩

/-- C30 (amended): in every state reached from the empty maps by calls of
    `Get` and `Return`, where every handler passed to `Return` was obtained
    from `Get` and is returned at most as many times as it was obtained, and
    where fewer than `2 ^ 32` handles of one device name are out at any time:
    the two maps have the same keys; every stored count is at least 1 and is
    the number of calls of `Get` minus the number of calls of `Return` for
    the upper-cased device name; two calls of `Get` for names that are equal
    up to letter case return the same handler; `Get` closes no handler and
    returns the stored one; and `Return` of a handler that is out closes it
    and removes its key from both maps when the stored count is 1, and
    otherwise closes nothing, keeps the handler and lowers the count by 1. -/
theorem registry_invariant (calls : List RegistryCall)
    (hret : wellReturned calls Registry.empty = true)
    (hcnt : withinCount calls Registry.empty = true) :
    (∀ key, (QMap.value (Registry.empty.run calls).s_handlers key).isSome =
        (QMap.value (Registry.empty.run calls).s_handlers_refcnt key).isSome)
    ∧ (∀ key c, QMap.value (Registry.empty.run calls).s_handlers_refcnt key = some c →
        1 ≤ c ∧ c = (Registry.empty.run calls).outstanding key)
    ∧ (∀ a b, QString.toUpper a = QString.toUpper b →
        (Get b (Get a (Registry.empty.run calls)).2).1 = (Get a (Registry.empty.run calls)).1)
    ∧ (∀ devname,
        (Get devname (Registry.empty.run calls)).2.closed = (Registry.empty.run calls).closed
        ∧ QMap.value (Get devname (Registry.empty.run calls)).2.s_handlers
            (QString.toUpper devname) = some (Get devname (Registry.empty.run calls)).1)
    ∧ (∀ ref, (Registry.empty.run calls).returned.count ref
          < (Registry.empty.run calls).obtained.count ref →
        ∃ c, QMap.value (Registry.empty.run calls).s_handlers_refcnt ref.device = some c
          ∧ QMap.value (Registry.empty.run calls).s_handlers ref.device = some ref
          ∧ (c = 1 →
              (Return ref (Registry.empty.run calls)).2.closed
                = (Registry.empty.run calls).closed ++ [ref.id]
              ∧ QMap.value (Return ref (Registry.empty.run calls)).2.s_handlers ref.device = none
              ∧ QMap.value (Return ref (Registry.empty.run calls)).2.s_handlers_refcnt ref.device
                = none)
          ∧ (c ≠ 1 →
              (Return ref (Registry.empty.run calls)).2.closed = (Registry.empty.run calls).closed
              ∧ QMap.value (Return ref (Registry.empty.run calls)).2.s_handlers ref.device
                = some ref
              ∧ QMap.value (Return ref (Registry.empty.run calls)).2.s_handlers_refcnt ref.device
                = some (c - 1))) := by
  have inv := run_registryInv calls Registry.empty registryInv_empty hret hcnt
  generalize Registry.empty.run calls = s at inv ⊢
  refine ⟨inv.keys, ?_, ?_, ?_, ?_⟩
  · intro key c hc
    have hcnt := registryInv_count_eq inv key
    rw [hc] at hcnt
    have hk := inv.keys key
    rw [hc] at hk
    cases hv : QMap.value s.s_handlers key with
    | none => rw [hv] at hk; simp at hk
    | some h =>
      obtain ⟨_, h2, h3⟩ := inv.stored key h hv
      rw [hc] at h3
      simp only [Option.some.injEq] at h3
      simp only [Option.getD_some] at hcnt
      exact ⟨by omega, hcnt⟩
  · intro a b hab
    exact Get_same_handler a b s hab
  · intro devname
    exact ⟨Get_closed devname s, Get_stored devname s⟩
  · intro ref ha
    have hs := inv.out ref ha
    obtain ⟨_, _, hr⟩ := inv.stored _ ref hs
    refine ⟨_, hr, hs, ?_, ?_⟩
    · intro h1
      have hc : ¬ 1 < s.obtained.count ref - s.returned.count ref := by omega
      rw [Return_last ref s _ hr hc hs]
      simp [QMap.value_erase]
    · intro h1
      have hc : 1 < s.obtained.count ref - s.returned.count ref := by omega
      rw [Return_more ref s _ hr hc]
      simp [QMap.value_insert, hs]

/-- C30 (amended) at the sample run, which obeys both rules: after the two
    handles of "UDP!1" were returned and the device was opened again, every
    stored count is at least 1 and is the number of handles that are out. -/
theorem registry_invariant_witness :
    wellReturned sampleCalls Registry.empty = true
    ∧ withinCount sampleCalls Registry.empty = true
    ∧ (∀ key c, QMap.value (Registry.empty.run sampleCalls).s_handlers_refcnt key = some c →
        1 ≤ c ∧ c = (Registry.empty.run sampleCalls).outstanding key) :=
  ⟨by decide, by decide, (registry_invariant sampleCalls (by decide) (by decide)).2.1⟩

end RegistryClaims

end MythLogging
